import Mathlib

/-!
The asynchronous HTTP client engine of `src/core/httpcli/httpcli.c`, and
`grpc_server_add_insecure_http2_port` of `src/core/surface/server_chttp2.c`.

The engine is a chain of callbacks over one heap-allocated `internal_request`.
It is embedded as explicit state passing over a `World`:

* `World.req` is the heap cell of the in-flight state (`none` before
  `gpr_malloc` and after `gpr_free`); every handler that dereferences it
  after it has been freed returns `Fault.use_after_free`;
* `World.pollset_set` is `context->pollset_set`, a multiset of pollsets;
* `World.armed` lists the callbacks the engine has handed to its
  collaborators (resolver, connector, handshaker, endpoint) and that have not
  completed yet;
* `World.trace` records, in program order, every call the engine makes to a
  collaborator, to the parser, to the allocator and to the caller's callback.

The collaborators deliver their completions as `Event`s; `step` is the
dispatch of one completion to its handler.  The response parser and the
request formatter live outside this file and are parameters (`Externals`).

`grpc_server_add_insecure_http2_port` is embedded as a function of its
collaborators (`ServerExternals`) that returns the value returned and the
calls made, or `none` when `GPR_ASSERT` aborts.
-/

namespace Httpcli

/-! ## Data model -/

/-- A `gpr_slice`: the bytes it holds. -/
abbrev gpr_slice := List Nat

/-- The macro `GPR_SLICE_LENGTH`. -/
def GPR_SLICE_LENGTH (s : gpr_slice) : Nat := s.length

/-- Status handed to a read or write completion callback. -/
inductive grpc_endpoint_cb_status where
  | GRPC_ENDPOINT_CB_OK
  | GRPC_ENDPOINT_CB_EOF
  | GRPC_ENDPOINT_CB_SHUTDOWN
  | GRPC_ENDPOINT_CB_ERROR
  deriving DecidableEq, Repr

/-- Synchronous result of `grpc_endpoint_write`. -/
inductive grpc_endpoint_write_status where
  | GRPC_ENDPOINT_WRITE_DONE
  | GRPC_ENDPOINT_WRITE_PENDING
  | GRPC_ENDPOINT_WRITE_ERROR
  deriving DecidableEq, Repr

open grpc_endpoint_cb_status grpc_endpoint_write_status

/-- A byte stream.  `id` is its identity; `write_status` is what
`grpc_endpoint_write` returns when the engine writes the request to it (the
endpoint is a collaborator, so this is an input of the model). -/
structure grpc_endpoint where
  id : Nat
  write_status : grpc_endpoint_write_status
  deriving DecidableEq, Repr

/-- One resolved address (`addr` bytes abstracted to a number, and `len`). -/
structure grpc_resolved_address where
  addr : Nat
  len : Nat
  deriving DecidableEq, Repr

/-- The resolved address list; `naddrs` is the length of `addrs`. -/
structure grpc_resolved_addresses where
  addrs : List grpc_resolved_address
  deriving DecidableEq, Repr

/-- Field `naddrs` of `grpc_resolved_addresses`. -/
def grpc_resolved_addresses.naddrs (a : grpc_resolved_addresses) : Nat := a.addrs.length

/-- An absolute deadline. -/
structure gpr_timespec where
  tv_sec : Int
  tv_nsec : Int
  deriving DecidableEq, Repr

/-- The response object the parser accumulates (`parser.r`). -/
structure grpc_httpcli_response where
  status : Int
  hdrs : List (String × String)
  body : List Nat
  deriving DecidableEq, Repr

/-- What a call of a handshaker's `handshake` function has done when it
returns: it has either already invoked `on_done(arg, ep)` (`done ep`, with
`ep = none` for a null stream), or it will invoke it later (`pending`). -/
inductive handshake_result where
  | done (ep : Option grpc_endpoint)
  | pending
  deriving DecidableEq, Repr

/-- A handshaker: `{default_port, handshake}`. -/
structure grpc_httpcli_handshaker where
  default_port : String
  handshake : grpc_endpoint → String → handshake_result

/-- The function `plaintext_handshake`: `on_done(arg, endpoint)`. -/
def plaintext_handshake (endpoint : grpc_endpoint) (_host : String) : handshake_result :=
  handshake_result.done (some endpoint)

/-- The constant `grpc_httpcli_plaintext = {"http", plaintext_handshake}`. -/
def grpc_httpcli_plaintext : grpc_httpcli_handshaker :=
  { default_port := "http", handshake := plaintext_handshake }

/-- The caller's request. -/
structure grpc_httpcli_request where
  host : String
  path : String
  hdrs : List (String × String)
  handshaker : Option grpc_httpcli_handshaker

/-- The parser and the formatter, which the engine only calls.  `σ` is the
parser's state; `grpc_httpcli_parser_parse` returns the C result (non-zero
for success) and the new state; `parser_r` is the field `parser.r`. -/
structure Externals (σ : Type) where
  grpc_httpcli_parser_init : σ
  grpc_httpcli_parser_parse : σ → gpr_slice → Int × σ
  grpc_httpcli_parser_eof : σ → Int
  parser_r : σ → grpc_httpcli_response
  grpc_httpcli_format_get_request : grpc_httpcli_request → gpr_slice
  grpc_httpcli_format_post_request : grpc_httpcli_request → List Nat → gpr_slice

/-- The struct `internal_request`.  Pointers that can be null are options;
the callback, its user data, the context and the pollset are identified by
numbers. -/
structure internal_request (σ : Type) where
  request_text : gpr_slice
  parser : σ
  addresses : Option grpc_resolved_addresses
  next_address : Nat
  ep : Option grpc_endpoint
  host : String
  deadline : gpr_timespec
  have_read_byte : Int
  handshaker : grpc_httpcli_handshaker
  on_response : Nat
  user_data : Nat
  context : Nat
  pollset : Nat
  iomgr_obj : String

/-- A call made by the engine, as recorded in the trace. -/
inductive Action where
  | g_get_override
  | g_post_override
  | gpr_malloc
  | grpc_httpcli_format_get_request
  | grpc_httpcli_format_post_request
  | grpc_httpcli_parser_init
  | grpc_iomgr_register_object (name : String)
  | grpc_pollset_set_add_pollset (context pollset : Nat)
  | grpc_resolve_address (host default_port : String)
  | grpc_tcp_client_connect (context : Nat) (addr : grpc_resolved_address)
      (deadline : gpr_timespec)
  | handshake (default_port : String) (tcp : grpc_endpoint) (host : String)
  | gpr_slice_ref (s : gpr_slice)
  | grpc_endpoint_write (ep : grpc_endpoint) (text : gpr_slice)
  | grpc_endpoint_notify_on_read (ep : grpc_endpoint)
  | grpc_httpcli_parser_parse (s : gpr_slice)
  | grpc_httpcli_parser_eof
  | grpc_pollset_set_del_pollset (context pollset : Nat)
  | on_response (cb user_data : Nat) (response : Option grpc_httpcli_response)
  | grpc_httpcli_parser_destroy
  | grpc_resolved_addresses_destroy
  | grpc_endpoint_destroy (ep : grpc_endpoint)
  | gpr_slice_unref (s : gpr_slice)
  | gpr_free_host (host : String)
  | grpc_iomgr_unregister_object (name : String)
  | gpr_free_req
  deriving DecidableEq, Repr

/-- An operation the engine has armed with a collaborator. -/
inductive Op where
  | resolve
  | connect
  | handshake
  | write
  | read
  deriving DecidableEq, Repr

/-- Ways a handler can go wrong. `not_armed` is the environment's fault (a
completion nobody asked for); the others are memory errors of the engine. -/
inductive Fault where
  | not_armed
  | use_after_free
  | null_deref
  | out_of_bounds
  deriving DecidableEq, Repr

/-- The process-wide override hooks. A hook returns the C `int`. -/
structure Globals where
  g_get_override :
    Option (grpc_httpcli_request → gpr_timespec → Nat → Nat → Int)
  g_post_override :
    Option (grpc_httpcli_request → List Nat → gpr_timespec → Nat → Nat → Int)

/-- The state the engine runs in. -/
structure World (σ : Type) where
  req : Option (internal_request σ)
  pollset_set : List Nat
  armed : List Op
  trace : List Action

/-- A completion delivered by a collaborator. -/
inductive Event where
  | on_resolved (addresses : Option grpc_resolved_addresses)
  | on_connected (tcp : Option grpc_endpoint)
  | on_handshake_done (ep : Option grpc_endpoint)
  | done_write (status : grpc_endpoint_cb_status)
  | on_read (slices : List gpr_slice) (status : grpc_endpoint_cb_status)
  deriving DecidableEq, Repr

/-- The armed operation an event completes. -/
def Event.op : Event → Op
  | .on_resolved _ => Op.resolve
  | .on_connected _ => Op.connect
  | .on_handshake_done _ => Op.handshake
  | .done_write _ => Op.write
  | .on_read _ _ => Op.read

/-! ## The engine -/

variable {σ : Type}

/-- The calls `finish` makes, in order. -/
def finish_actions (P : Externals σ) (r : internal_request σ) (success : Int) : List Action :=
  [ Action.grpc_pollset_set_del_pollset r.context r.pollset,
    Action.on_response r.on_response r.user_data
      (if success ≠ 0 then some (P.parser_r r.parser) else none),
    Action.grpc_httpcli_parser_destroy ] ++
  (match r.addresses with
   | some _ => [Action.grpc_resolved_addresses_destroy]
   | none => []) ++
  (match r.ep with
   | some ep => [Action.grpc_endpoint_destroy ep]
   | none => []) ++
  [ Action.gpr_slice_unref r.request_text,
    Action.gpr_free_host r.host,
    Action.grpc_iomgr_unregister_object r.iomgr_obj,
    Action.gpr_free_req ]

/-- The function `finish`. -/
def finish (P : Externals σ) (w : World σ) (success : Int) : Except Fault (World σ) :=
  match w.req with
  | none => .error Fault.use_after_free
  | some r =>
    .ok { req := none
          pollset_set := w.pollset_set.erase r.pollset
          armed := w.armed
          trace := w.trace ++ finish_actions P r success }

/-- The function `next_address`. The cursor is a `size_t` that is compared
with `naddrs` before it is incremented, so the increment is taken without
wrap-around; a null `addresses` and an index outside `addrs` are faults. -/
def next_address (P : Externals σ) (w : World σ) : Except Fault (World σ) :=
  match w.req with
  | none => .error Fault.use_after_free
  | some r =>
    match r.addresses with
    | none => .error Fault.null_deref
    | some addresses =>
      if r.next_address = addresses.naddrs then
        finish P w 0
      else
        match addresses.addrs.get? r.next_address with
        | none => .error Fault.out_of_bounds
        | some addr =>
          .ok { req := some { r with next_address := r.next_address + 1 }
                pollset_set := w.pollset_set
                armed := w.armed ++ [Op.connect]
                trace := w.trace ++
                  [Action.grpc_tcp_client_connect r.context addr r.deadline] }

/-- The function `on_written`. -/
def on_written (w : World σ) : Except Fault (World σ) :=
  match w.req with
  | none => .error Fault.use_after_free
  | some r =>
    match r.ep with
    | none => .error Fault.null_deref
    | some ep =>
      .ok { w with armed := w.armed ++ [Op.read]
                   trace := w.trace ++ [Action.grpc_endpoint_notify_on_read ep] }

/-- The loop at the head of `on_read`, which reads and writes only the fields
`parser` and `have_read_byte` of the in-flight state. The result is
`(failed, parser, have_read_byte, calls)`: whether a chunk was rejected (the
`goto done` after `finish`), the two fields, and the parser calls made. -/
def on_read_loop (P : Externals σ) (parser : σ) (have_read_byte : Int) :
    List gpr_slice → Bool × σ × Int × List Action
  | [] => (false, parser, have_read_byte, [])
  | s :: rest =>
    if GPR_SLICE_LENGTH s ≠ 0 then
      let res := P.grpc_httpcli_parser_parse parser s
      if res.1 = 0 then
        (true, res.2, 1, [Action.grpc_httpcli_parser_parse s])
      else
        let out := on_read_loop P res.2 1 rest
        (out.1, out.2.1, out.2.2.1, Action.grpc_httpcli_parser_parse s :: out.2.2.2)
    else
      on_read_loop P parser have_read_byte rest

/-- The label `done:` of `on_read`: the slices of the read are released. -/
def unref_slices (slices : List gpr_slice) (w : World σ) : World σ :=
  { w with trace := w.trace ++ slices.map Action.gpr_slice_unref }

/-- The function `on_read`. -/
def on_read (P : Externals σ) (w : World σ) (slices : List gpr_slice)
    (status : grpc_endpoint_cb_status) : Except Fault (World σ) :=
  match w.req with
  | none => .error Fault.use_after_free
  | some r =>
    let out := on_read_loop P r.parser r.have_read_byte slices
    let r1 : internal_request σ := { r with parser := out.2.1, have_read_byte := out.2.2.1 }
    let w1 : World σ := { w with req := some r1, trace := w.trace ++ out.2.2.2 }
    if out.1 then
      (finish P w1 0).map (unref_slices slices)
    else
      match status with
      | GRPC_ENDPOINT_CB_OK => (on_written w1).map (unref_slices slices)
      | _ =>
        if r1.have_read_byte = 0 then
          (next_address P w1).map (unref_slices slices)
        else
          (finish P { w1 with trace := w1.trace ++ [Action.grpc_httpcli_parser_eof] }
            (P.grpc_httpcli_parser_eof r1.parser)).map (unref_slices slices)

/-- The function `done_write`. -/
def done_write (P : Externals σ) (w : World σ) (status : grpc_endpoint_cb_status) :
    Except Fault (World σ) :=
  match status with
  | GRPC_ENDPOINT_CB_OK => on_written w
  | _ => next_address P w

/-- The function `start_write`. -/
def start_write (P : Externals σ) (w : World σ) : Except Fault (World σ) :=
  match w.req with
  | none => .error Fault.use_after_free
  | some r =>
    match r.ep with
    | none => .error Fault.null_deref
    | some ep =>
      let w1 : World σ :=
        { w with trace := w.trace ++
            [Action.gpr_slice_ref r.request_text, Action.grpc_endpoint_write ep r.request_text] }
      match ep.write_status with
      | GRPC_ENDPOINT_WRITE_DONE => on_written w1
      | GRPC_ENDPOINT_WRITE_PENDING => .ok { w1 with armed := w1.armed ++ [Op.write] }
      | GRPC_ENDPOINT_WRITE_ERROR => finish P w1 0

/-- The function `on_handshake_done`. -/
def on_handshake_done (P : Externals σ) (w : World σ) (ep : Option grpc_endpoint) :
    Except Fault (World σ) :=
  match ep with
  | none => next_address P w
  | some e =>
    match w.req with
    | none => .error Fault.use_after_free
    | some r => start_write P { w with req := some { r with ep := some e } }

/-- The function `on_connected`. -/
def on_connected (P : Externals σ) (w : World σ) (tcp : Option grpc_endpoint) :
    Except Fault (World σ) :=
  match tcp with
  | none => next_address P w
  | some t =>
    match w.req with
    | none => .error Fault.use_after_free
    | some r =>
      let w1 : World σ :=
        { w with trace := w.trace ++ [Action.handshake r.handshaker.default_port t r.host] }
      match r.handshaker.handshake t r.host with
      | handshake_result.done ep => on_handshake_done P w1 ep
      | handshake_result.pending => .ok { w1 with armed := w1.armed ++ [Op.handshake] }

/-- The function `on_resolved`. -/
def on_resolved (P : Externals σ) (w : World σ) (addresses : Option grpc_resolved_addresses) :
    Except Fault (World σ) :=
  match addresses with
  | none => finish P w 0
  | some a =>
    match w.req with
    | none => .error Fault.use_after_free
    | some r => next_address P { w with req := some { r with addresses := some a, next_address := 0 } }

/-- The override check at the head of `grpc_httpcli_get`:
`g_get_override && g_get_override(request, deadline, on_response, user_data)`.
The result is whether the hook claimed the request, and the world after the
call of the hook, if there was one. -/
def get_override_check (g : Globals) (w : World σ) (request : grpc_httpcli_request)
    (deadline : gpr_timespec) (on_response user_data : Nat) : Bool × World σ :=
  match g.g_get_override with
  | none => (false, w)
  | some hook =>
    (decide (hook request deadline on_response user_data ≠ 0),
     { w with trace := w.trace ++ [Action.g_get_override] })

/-- The override check at the head of `grpc_httpcli_post`. -/
def post_override_check (g : Globals) (w : World σ) (request : grpc_httpcli_request)
    (body_bytes : List Nat) (deadline : gpr_timespec) (on_response user_data : Nat) :
    Bool × World σ :=
  match g.g_post_override with
  | none => (false, w)
  | some hook =>
    (decide (hook request body_bytes deadline on_response user_data ≠ 0),
     { w with trace := w.trace ++ [Action.g_post_override] })

/-- The function `grpc_httpcli_get`. The world it is called in is `w`; the
`memset` leaves `addresses`, `next_address`, `ep` and `have_read_byte` zero. -/
def grpc_httpcli_get (P : Externals σ) (g : Globals) (w : World σ) (context pollset : Nat)
    (request : grpc_httpcli_request) (deadline : gpr_timespec)
    (on_response user_data : Nat) : World σ :=
  let chk := get_override_check g w request deadline on_response user_data
  let w1 := chk.2
  if chk.1 then w1
  else
    let handshaker :=
      match request.handshaker with
      | some h => h
      | none => grpc_httpcli_plaintext
    let name := "HTTP:GET:" ++ request.host ++ ":" ++ request.path
    { req := some
        { request_text := P.grpc_httpcli_format_get_request request
          parser := P.grpc_httpcli_parser_init
          addresses := none
          next_address := 0
          ep := none
          host := request.host
          deadline := deadline
          have_read_byte := 0
          handshaker := handshaker
          on_response := on_response
          user_data := user_data
          context := context
          pollset := pollset
          iomgr_obj := name }
      pollset_set := pollset :: w1.pollset_set
      armed := w1.armed ++ [Op.resolve]
      trace := w1.trace ++
        [ Action.gpr_malloc, Action.grpc_httpcli_format_get_request,
          Action.grpc_httpcli_parser_init,
          Action.grpc_iomgr_register_object name,
          Action.grpc_pollset_set_add_pollset context pollset,
          Action.grpc_resolve_address request.host handshaker.default_port ] }

/-- The function `grpc_httpcli_post`. -/
def grpc_httpcli_post (P : Externals σ) (g : Globals) (w : World σ) (context pollset : Nat)
    (request : grpc_httpcli_request) (body_bytes : List Nat) (deadline : gpr_timespec)
    (on_response user_data : Nat) : World σ :=
  let chk := post_override_check g w request body_bytes deadline on_response user_data
  let w1 := chk.2
  if chk.1 then w1
  else
    let handshaker :=
      match request.handshaker with
      | some h => h
      | none => grpc_httpcli_plaintext
    let name := "HTTP:GET:" ++ request.host ++ ":" ++ request.path
    { req := some
        { request_text := P.grpc_httpcli_format_post_request request body_bytes
          parser := P.grpc_httpcli_parser_init
          addresses := none
          next_address := 0
          ep := none
          host := request.host
          deadline := deadline
          have_read_byte := 0
          handshaker := handshaker
          on_response := on_response
          user_data := user_data
          context := context
          pollset := pollset
          iomgr_obj := name }
      pollset_set := pollset :: w1.pollset_set
      armed := w1.armed ++ [Op.resolve]
      trace := w1.trace ++
        [ Action.gpr_malloc, Action.grpc_httpcli_format_post_request,
          Action.grpc_httpcli_parser_init,
          Action.grpc_iomgr_register_object name,
          Action.grpc_pollset_set_add_pollset context pollset,
          Action.grpc_resolve_address request.host handshaker.default_port ] }

/-- The function `grpc_httpcli_set_override`. -/
def grpc_httpcli_set_override (_g : Globals)
    (get : Option (grpc_httpcli_request → gpr_timespec → Nat → Nat → Int))
    (post : Option (grpc_httpcli_request → List Nat → gpr_timespec → Nat → Nat → Int)) :
    Globals :=
  { g_get_override := get, g_post_override := post }

/-! ## Dispatch of completions -/

/-- One completion: it must complete an armed operation, which is thereby
disarmed, and the matching handler runs. -/
def step (P : Externals σ) (w : World σ) (e : Event) : Except Fault (World σ) :=
  if e.op ∈ w.armed then
    let w1 : World σ := { w with armed := w.armed.erase e.op }
    match e with
    | .on_resolved a => on_resolved P w1 a
    | .on_connected t => on_connected P w1 t
    | .on_handshake_done ep => on_handshake_done P w1 ep
    | .done_write s => done_write P w1 s
    | .on_read sl s => on_read P w1 sl s
  else .error Fault.not_armed

/-- A sequence of completions. -/
def run (P : Externals σ) (w : World σ) : List Event → Except Fault (World σ)
  | [] => .ok w
  | e :: es =>
    match step P w e with
    | .ok w1 => run P w1 es
    | .error f => .error f

/-- The world before any request: nothing allocated, nothing armed. -/
def idle (pollset_set : List Nat) : World σ :=
  { req := none, pollset_set := pollset_set, armed := [], trace := [] }

/-! ## Predicates on worlds and traces -/

/-- Whether a call is an invocation of the caller's callback `on_response`. -/
def Action.is_on_response : Action → Bool
  | .on_response _ _ _ => true
  | _ => false

/-- Number of times the callback has been invoked in a trace. -/
def callbacks (t : List Action) : Nat := t.countP Action.is_on_response

/-- The address list is there and the cursor is within it. -/
def CursorOk (r : internal_request σ) : Prop :=
  ∃ a, r.addresses = some a ∧ r.next_address ≤ a.naddrs

/-- What holds of the in-flight state while `op` is the armed operation. -/
def OpInv (r : internal_request σ) : Op → Prop
  | .resolve => r.addresses = none ∧ r.ep = none ∧ r.have_read_byte = 0
  | .connect => CursorOk r ∧ r.have_read_byte = 0
  | .handshake => CursorOk r ∧ r.have_read_byte = 0
  | .write => CursorOk r ∧ r.have_read_byte = 0 ∧ r.ep ≠ none
  | .read => CursorOk r ∧ r.ep ≠ none

/-- What holds between two completions: a freed request has nothing armed,
a live one has exactly one armed operation, with the state that goes with it. -/
def Inv (w : World σ) : Prop :=
  match w.req with
  | none => w.armed = []
  | some r => ∃ op, w.armed = [op] ∧ OpInv r op

/-- The handler returned with the request still in flight: it made only
calls `acts`, none of them the callback. -/
def Continues (t0 : List Action) (w1 : World σ) : Prop :=
  w1.req ≠ none ∧ ∃ acts, callbacks acts = 0 ∧ w1.trace = t0 ++ acts

/-- The handler ended the request: after calls `pre`, none of them the
callback, it ran `finish` on the state `r`, and after that it only released
the slices `sl` of the read it was handling. -/
def Finished (P : Externals σ) (t0 : List Action) (sl : List gpr_slice) (w1 : World σ) : Prop :=
  w1.req = none ∧ w1.armed = [] ∧ ∃ pre r s, callbacks pre = 0 ∧
    w1.trace = t0 ++ pre ++ finish_actions P r s ++ sl.map Action.gpr_slice_unref

/-- What a handler leaves behind. -/
def Outcome (P : Externals σ) (t0 : List Action) (sl : List gpr_slice) (w1 : World σ) : Prop :=
  Inv w1 ∧ (Continues t0 w1 ∨ Finished P t0 sl w1)

/-- The slices a completion hands over (only a read hands any). -/
def Event.slices : Event → List gpr_slice
  | .on_read sl _ => sl
  | _ => []

/-- The world `w0` is what `grpc_httpcli_get` or `grpc_httpcli_post` leaves
when it is called with nothing in flight and no override hook claims the
request. -/
def Started (P : Externals σ) (w0 : World σ) : Prop :=
  ∃ (g : Globals) (pollsets : List Nat) (context pollset : Nat)
    (request : grpc_httpcli_request) (deadline : gpr_timespec) (on_response user_data : Nat),
    ((get_override_check g (idle pollsets : World σ) request deadline
          on_response user_data).1 = false ∧
      w0 = grpc_httpcli_get P g (idle pollsets) context pollset request deadline
          on_response user_data) ∨
    (∃ body_bytes : List Nat,
      (post_override_check g (idle pollsets : World σ) request body_bytes deadline
          on_response user_data).1 = false ∧
      w0 = grpc_httpcli_post P g (idle pollsets) context pollset request body_bytes deadline
          on_response user_data)

/-- The request is in flight and the callback has not been invoked, or the
request has been finished: then the callback was invoked by `finish` alone,
and after `finish` only slices of a read were released. -/
def Good (P : Externals σ) (w : World σ) : Prop :=
  Inv w ∧
  ((w.req ≠ none ∧ callbacks w.trace = 0) ∨
   (w.req = none ∧ ∃ (pre : List Action) (r : internal_request σ) (s : Int) (sl : List gpr_slice),
      callbacks pre = 0 ∧
      w.trace = pre ++ finish_actions P r s ++ sl.map Action.gpr_slice_unref))

/-- The world a run ends in (the idle world when the run faults). -/
def final (x : Except Fault (World σ)) : World σ :=
  match x with
  | .ok w => w
  | .error _ => idle []

/-- The addresses passed to `grpc_tcp_client_connect`, in order. -/
def connects : List Action → List grpc_resolved_address
  | [] => []
  | Action.grpc_tcp_client_connect _ addr _ :: t => addr :: connects t
  | _ :: t => connects t

/-- Whether a call hands a stream to the handshaker, writes to one or arms a
read on one. -/
def Action.is_stream_call : Action → Bool
  | .handshake _ _ _ => true
  | .grpc_endpoint_write _ _ => true
  | .grpc_endpoint_notify_on_read _ => true
  | _ => false

/-- The responses handed to the callback, in order. -/
def responses : List Action → List (Option grpc_httpcli_response)
  | [] => []
  | Action.on_response _ _ resp :: t => resp :: responses t
  | _ :: t => responses t

/-- A handler result followed by more completions. -/
def then_run (P : Externals σ) (x : Except Fault (World σ)) (evs : List Event) :
    Except Fault (World σ) :=
  match x with
  | .ok w => run P w evs
  | .error f => .error f

/-- The streams passed to `grpc_endpoint_destroy`, in order. -/
def destroyed : List Action → List grpc_endpoint
  | [] => []
  | Action.grpc_endpoint_destroy ep :: t => ep :: destroyed t
  | _ :: t => destroyed t

/-- The non-empty chunks of a read, in order. -/
def nonempty_chunks (slices : List gpr_slice) : List gpr_slice :=
  slices.filter (fun s => decide (GPR_SLICE_LENGTH s ≠ 0))

/-- The parser fed the non-empty chunks of `slices` in order, from the state
`p`: the state it ends in, or `none` when it rejects a chunk. -/
def feed (P : Externals σ) (p : σ) : List gpr_slice → Option σ
  | [] => some p
  | s :: rest =>
    if GPR_SLICE_LENGTH s = 0 then feed P p rest
    else if (P.grpc_httpcli_parser_parse p s).1 = 0 then none
    else feed P (P.grpc_httpcli_parser_parse p s).2 rest

/-- The normal engine path, as the spec describes the state START: the
request has been formatted into `text` (by the call `fmt`), the parser is
initialised, the in-flight state is allocated and filled, a diagnostic
object is registered, the pollset is added to the pollset set of the context
and the resolve of the host and the default port of the handshaker is
issued. -/
def start_engine (P : Externals σ) (w : World σ) (text : gpr_slice) (fmt : Action)
    (context pollset : Nat) (request : grpc_httpcli_request) (deadline : gpr_timespec)
    (on_response user_data : Nat) : World σ :=
  { req := some
      { request_text := text
        parser := P.grpc_httpcli_parser_init
        addresses := none
        next_address := 0
        ep := none
        host := request.host
        deadline := deadline
        have_read_byte := 0
        handshaker := request.handshaker.getD grpc_httpcli_plaintext
        on_response := on_response
        user_data := user_data
        context := context
        pollset := pollset
        iomgr_obj := "HTTP:GET:" ++ request.host ++ ":" ++ request.path }
    pollset_set := pollset :: w.pollset_set
    armed := w.armed ++ [Op.resolve]
    trace := w.trace ++
      [ Action.gpr_malloc, fmt, Action.grpc_httpcli_parser_init,
        Action.grpc_iomgr_register_object ("HTTP:GET:" ++ request.host ++ ":" ++ request.path),
        Action.grpc_pollset_set_add_pollset context pollset,
        Action.grpc_resolve_address request.host
          (request.handshaker.getD grpc_httpcli_plaintext).default_port ] }

/-- The calls the engine may still make once it is committed to the stream
`ep`: parser calls, arming a read on `ep`, the calls of `finish` and the
release of read slices. Not among them: a resolve, a connect, a handshake, a
write (or the reference taken for one), arming a read on another stream. -/
def Action.after_commit (ep : grpc_endpoint) : Action → Bool
  | .grpc_endpoint_notify_on_read e => decide (e = ep)
  | .grpc_httpcli_parser_parse _ => true
  | .grpc_httpcli_parser_eof => true
  | .grpc_pollset_set_del_pollset _ _ => true
  | .on_response _ _ _ => true
  | .grpc_httpcli_parser_destroy => true
  | .grpc_resolved_addresses_destroy => true
  | .grpc_endpoint_destroy _ => true
  | .gpr_slice_unref _ => true
  | .gpr_free_host _ => true
  | .grpc_iomgr_unregister_object _ => true
  | .gpr_free_req => true
  | _ => false

/-- Since the trace was `t1` the engine has made only calls allowed after
the commit to `ep`, and it has finished or has a read armed on `ep` with
`have_read_byte` set. -/
def CommittedTo (ep : grpc_endpoint) (t1 : List Action) (w : World σ) : Prop :=
  (∃ acts, w.trace = t1 ++ acts ∧ ∀ a ∈ acts, Action.after_commit ep a = true) ∧
  ((w.req = none ∧ w.armed = []) ∨
   (∃ r, w.req = some r ∧ r.have_read_byte ≠ 0 ∧ r.ep = some ep ∧ w.armed = [Op.read]))

/-! ## A concrete request, for evaluation -/

namespace Ex

/-- A toy parser: the state counts the bytes fed, a chunk holding the byte
255 is rejected, and the response is complete once three bytes are in. -/
def P : Externals Nat :=
  { grpc_httpcli_parser_init := 0
    grpc_httpcli_parser_parse := fun n s => (if s.contains 255 then 0 else 1, n + s.length)
    grpc_httpcli_parser_eof := fun n => if 3 ≤ n then 1 else 0
    parser_r := fun n => { status := 200, hdrs := [], body := [n] }
    grpc_httpcli_format_get_request := fun _ => [71]
    grpc_httpcli_format_post_request := fun _ b => 80 :: b }

/-- No override hook is set. -/
def g : Globals := { g_get_override := none, g_post_override := none }

/-- A request for `h/p` with the default handshaker. -/
def request : grpc_httpcli_request :=
  { host := "h", path := "/p", hdrs := [], handshaker := none }

/-- A deadline. -/
def deadline : gpr_timespec := { tv_sec := 5, tv_nsec := 0 }

/-- The world after `grpc_httpcli_get` for `request`, on context 1 and
pollset 9, with callback 11 and user data 12. -/
def w0 : World Nat := grpc_httpcli_get P g (idle [7]) 1 9 request deadline 11 12

/-- Two candidate addresses. -/
def a1 : grpc_resolved_address := { addr := 1, len := 4 }

/-- The second candidate. -/
def a2 : grpc_resolved_address := { addr := 2, len := 4 }

/-- Streams, named after what a write to them returns. -/
def ep_done : grpc_endpoint := { id := 1, write_status := GRPC_ENDPOINT_WRITE_DONE }

/-- A stream whose write is pending. -/
def ep_pending : grpc_endpoint := { id := 2, write_status := GRPC_ENDPOINT_WRITE_PENDING }

/-- A stream whose write fails at once. -/
def ep_error : grpc_endpoint := { id := 3, write_status := GRPC_ENDPOINT_WRITE_ERROR }

/-- A run that succeeds: the first connect fails, the second candidate
answers in two reads. -/
def evs_ok : List Event :=
  [ Event.on_resolved (some ⟨[a1, a2]⟩), Event.on_connected none,
    Event.on_connected (some ep_done),
    Event.on_read [[], [1, 2]] GRPC_ENDPOINT_CB_OK,
    Event.on_read [[3]] GRPC_ENDPOINT_CB_EOF ]

/-- Two candidates; the first connects and its write is pending. -/
def evs_writing : List Event :=
  [Event.on_resolved (some ⟨[a1, a2]⟩), Event.on_connected (some ep_pending)]

/-- The world while the write to the first candidate is pending. -/
def w_writing : World Nat := final (run P w0 evs_writing)

/-- A handshaker that calls `on_done` later. -/
def tls : grpc_httpcli_handshaker :=
  { default_port := "https", handshake := fun _ _ => handshake_result.pending }

/-- The world after `grpc_httpcli_get` for a request that brings `tls`. -/
def w0_tls : World Nat :=
  grpc_httpcli_get P g (idle [7]) 1 9
    { host := "h", path := "/p", hdrs := [], handshaker := some tls } deadline 11 12

/-- The world while the handshake with the first of two candidates is
pending. -/
def w_handshaking : World Nat :=
  final (run P w0_tls [Event.on_resolved (some ⟨[a1, a2]⟩), Event.on_connected (some ep_done)])

/-- Two candidates. The first connects, is written to and closes without a
byte, so the engine moves on; the second connects and its write fails at
once. -/
def evs_leak_eof : List Event :=
  [ Event.on_resolved (some ⟨[a1, a2]⟩), Event.on_connected (some ep_done),
    Event.on_read [] GRPC_ENDPOINT_CB_EOF, Event.on_connected (some ep_error) ]

/-- Two candidates. The write to the first is pending and then fails, so the
engine moves on; the second connects and its write fails at once. -/
def evs_leak_write : List Event :=
  [ Event.on_resolved (some ⟨[a1, a2]⟩), Event.on_connected (some ep_pending),
    Event.done_write GRPC_ENDPOINT_CB_ERROR, Event.on_connected (some ep_error) ]

/-- The world while a read on the first of two candidates is armed and no
byte has come. -/
def w_reading : World Nat :=
  final (run P w0 [Event.on_resolved (some ⟨[a1, a2]⟩), Event.on_connected (some ep_done)])

/-- Both hooks are set and claim every request. -/
def g_claims : Globals :=
  { g_get_override := some (fun _ _ _ _ => 1), g_post_override := some (fun _ _ _ _ _ => 1) }

/-- Both hooks are set and claim no request. -/
def g_declines : Globals :=
  { g_get_override := some (fun _ _ _ _ => 0), g_post_override := some (fun _ _ _ _ _ => 0) }

/-- The world after the first candidate has sent two bytes. -/
def w_committed : World Nat :=
  final (run P w0
    [ Event.on_resolved (some ⟨[a1, a2]⟩), Event.on_connected (some ep_done),
      Event.on_read [[1, 2]] GRPC_ENDPOINT_CB_OK ])

end Ex

/-- Calls that a handler makes on the way: handing a stream to the
handshaker, the reference taken for a write, the write, arming a read, the
parser calls and the release of a slice. Not among them: the calls of
`grpc_httpcli_get`, a connect, and the calls proper to `finish`. -/
def Action.quiet : Action → Bool
  | .handshake _ _ _ => true
  | .gpr_slice_ref _ => true
  | .grpc_endpoint_write _ _ => true
  | .grpc_endpoint_notify_on_read _ => true
  | .grpc_httpcli_parser_parse _ => true
  | .grpc_httpcli_parser_eof => true
  | .gpr_slice_unref _ => true
  | _ => false

/-- All calls of a list are `quiet`. -/
def Quiet (acts : List Action) : Prop := acts.all Action.quiet = true

/-- The fields of the in-flight state that no handler writes. -/
structure SameRequest (r r1 : internal_request σ) : Prop where
  request_text : r1.request_text = r.request_text
  host : r1.host = r.host
  deadline : r1.deadline = r.deadline
  handshaker : r1.handshaker = r.handshaker
  on_response : r1.on_response = r.on_response
  user_data : r1.user_data = r.user_data
  context : r1.context = r.context
  pollset : r1.pollset = r.pollset
  iomgr_obj : r1.iomgr_obj = r.iomgr_obj

/-- A handler is entered: the in-flight state `r1` has the address list `a`
and the cursor `k`, nothing is armed, and since the trace `t0` only quiet
calls were made. -/
structure Entry (t0 : List Action) (ps : List Nat) (r : internal_request σ)
    (a : grpc_resolved_addresses) (k : Nat) (w : World σ) (r1 : internal_request σ) : Prop where
  req : w.req = some r1
  armed : w.armed = []
  same : SameRequest r r1
  addresses : r1.addresses = some a
  cursor : r1.next_address = k
  bound : k ≤ a.naddrs
  pollset_set : w.pollset_set = ps
  trace : ∃ pre, w.trace = t0 ++ pre ∧ Quiet pre

/-- The three ways a handler returns: the request stays in flight and only
quiet calls were made; or one connect was issued, to the candidate under the
cursor `k`, with the context and deadline of the request, and the cursor
moved on; or `finish` ran, after quiet calls, and after it only the slices
`sl` of the read were released. -/
def Shape (P : Externals σ) (t0 : List Action) (ps : List Nat) (r : internal_request σ)
    (a : grpc_resolved_addresses) (k : Nat) (sl : List gpr_slice) (w1 : World σ) : Prop :=
  (∃ r1 acts, w1.req = some r1 ∧ SameRequest r r1 ∧ r1.addresses = some a ∧
      r1.next_address = k ∧ w1.pollset_set = ps ∧ w1.trace = t0 ++ acts ∧ Quiet acts) ∨
  (∃ r1 addr pre post, w1.req = some r1 ∧ SameRequest r r1 ∧ r1.addresses = some a ∧
      r1.next_address = k + 1 ∧ a.addrs.get? k = some addr ∧ w1.pollset_set = ps ∧
      w1.trace = t0 ++ pre ++ [Action.grpc_tcp_client_connect r.context addr r.deadline] ++ post ∧
      Quiet pre ∧ Quiet post) ∨
  (∃ r1 s pre, w1.req = none ∧ w1.armed = [] ∧ SameRequest r r1 ∧
      w1.pollset_set = ps.erase r.pollset ∧
      w1.trace = t0 ++ pre ++ finish_actions P r1 s ++ sl.map Action.gpr_slice_unref ∧
      Quiet pre)

/-- The world `w0` is what `grpc_httpcli_get` or `grpc_httpcli_post` leaves
when it is called with these arguments while nothing is in flight, the
pollset set of the context being `ps`, and no override hook claims the
request. -/
def StartedWith (P : Externals σ) (ps : List Nat) (context pollset : Nat)
    (request : grpc_httpcli_request) (deadline : gpr_timespec) (on_response user_data : Nat)
    (w0 : World σ) : Prop :=
  ∃ g : Globals,
    ((get_override_check g (idle ps : World σ) request deadline
          on_response user_data).1 = false ∧
      w0 = grpc_httpcli_get P g (idle ps) context pollset request deadline
          on_response user_data) ∨
    (∃ body_bytes : List Nat,
      (post_override_check g (idle ps : World σ) request body_bytes deadline
          on_response user_data).1 = false ∧
      w0 = grpc_httpcli_post P g (idle ps) context pollset request body_bytes deadline
          on_response user_data)

/-- The `(context, pollset)` pairs passed to `grpc_pollset_set_add_pollset`. -/
def pollset_adds (t : List Action) : List (Nat × Nat) :=
  t.filterMap (fun a =>
    match a with
    | Action.grpc_pollset_set_add_pollset c p => some (c, p)
    | _ => none)

/-- The `(context, pollset)` pairs passed to `grpc_pollset_set_del_pollset`. -/
def pollset_dels (t : List Action) : List (Nat × Nat) :=
  t.filterMap (fun a =>
    match a with
    | Action.grpc_pollset_set_del_pollset c p => some (c, p)
    | _ => none)

/-- The pollset set and the add and remove calls of a run: while the request
is in flight the pollset is in the set, added once and not removed; once the
request is finished the set is as before the request, one add, one
remove. -/
def Balanced (ps : List Nat) (context pollset : Nat) (w : World σ) : Prop :=
  pollset_adds w.trace = [(context, pollset)] ∧
  (∀ r, w.req = some r → r.context = context ∧ r.pollset = pollset ∧
    w.pollset_set = pollset :: ps ∧ pollset_dels w.trace = []) ∧
  (w.req = none → w.pollset_set = ps ∧ pollset_dels w.trace = [(context, pollset)])

/-- The calls of a handshaker in a trace: the default port of the handshaker
called (which names it), the stream and the host it was given. -/
def handshakes (t : List Action) : List (String × grpc_endpoint × String) :=
  t.filterMap (fun a =>
    match a with
    | Action.handshake port tcp host => some (port, tcp, host)
    | _ => none)

/-- The `(host, port)` pairs passed to `grpc_resolve_address`. -/
def resolves (t : List Action) : List (String × String) :=
  t.filterMap (fun a =>
    match a with
    | Action.grpc_resolve_address host port => some (host, port)
    | _ => none)

/-- The handshaker of a request, in the words of the spec: the own
handshaker of the request when one is given, the built-in plaintext
handshaker otherwise. -/
def chosen_handshaker (request : grpc_httpcli_request) : grpc_httpcli_handshaker :=
  match request.handshaker with
  | some h => h
  | none => grpc_httpcli_plaintext

namespace Ex

/-- The world while the connect to the first of two candidates is pending. -/
def w_connecting : World Nat :=
  final (run P w0 [Event.on_resolved (some ⟨[a1, a2]⟩)])

end Ex

/-- The fields that no handler writes are those of `r0`. -/
def Keeps (r0 : internal_request σ) (w : World σ) : Prop :=
  ∀ r, w.req = some r → SameRequest r0 r

/-- The calls of `grpc_tcp_client_connect` in a trace, in order: the
context, the address and the deadline of each. -/
def connect_calls (t : List Action) : List (Nat × grpc_resolved_address × gpr_timespec) :=
  t.filterMap (fun a =>
    match a with
    | Action.grpc_tcp_client_connect c addr d => some (c, addr, d)
    | _ => none)

/-- The connects issued so far are those to the first `n` candidates of `a`,
in list order, each with the context `c` and the deadline `d`; and while
the request is in flight `n` is its cursor and `a` its address list. -/
def InOrder (a : grpc_resolved_addresses) (c : Nat) (d : gpr_timespec) (w : World σ) : Prop :=
  ∃ n, n ≤ a.naddrs ∧
    connect_calls w.trace = (a.addrs.take n).map (fun x => (c, x, d)) ∧
    ∀ r, w.req = some r →
      r.addresses = some a ∧ r.next_address = n ∧ r.context = c ∧ r.deadline = d

/-- The calls of `finish`, written out in the order the spec gives for the
state DONE: the pollset is removed from the set of the context, the callback
is invoked, then the parser state, the address list (if any), the stream
(if any), the request buffer reference, the host string and the diagnostic
object are released, then the in-flight state itself. -/
def done_calls (P : Externals σ) (r : internal_request σ) (success : Int) : List Action :=
  [ Action.grpc_pollset_set_del_pollset r.context r.pollset,
    Action.on_response r.on_response r.user_data
      (if success = 0 then none else some (P.parser_r r.parser)),
    Action.grpc_httpcli_parser_destroy ] ++
  r.addresses.toList.map (fun _ => Action.grpc_resolved_addresses_destroy) ++
  r.ep.toList.map Action.grpc_endpoint_destroy ++
  [ Action.gpr_slice_unref r.request_text,
    Action.gpr_free_host r.host,
    Action.grpc_iomgr_unregister_object r.iomgr_obj,
    Action.gpr_free_req ]

/-- The world `next_address` is called on while the completion `e` is handled
in the world `w`, if it is called at all. Read off the handlers:
`on_resolved` calls it for a non-null list, after storing the list and
setting the cursor to 0; `on_connected` and `on_handshake_done` for a null
stream (in `on_connected` also when the handshaker reports a null stream
before it returns); `done_write` for a status other than OK; `on_read` for a
status other than OK when no chunk was rejected and `have_read_byte` is 0. -/
def next_address_call (P : Externals σ) (w : World σ) (e : Event) : Option (World σ) :=
  match w.req with
  | none => none
  | some r =>
    let w1 : World σ := { w with armed := w.armed.erase e.op }
    match e with
    | Event.on_resolved none => none
    | Event.on_resolved (some a) =>
      some { w1 with req := some { r with addresses := some a, next_address := 0 } }
    | Event.on_connected none => some w1
    | Event.on_connected (some t) =>
      match r.handshaker.handshake t r.host with
      | handshake_result.done none =>
        some { w1 with trace := w.trace ++ [Action.handshake r.handshaker.default_port t r.host] }
      | _ => none
    | Event.on_handshake_done none => some w1
    | Event.on_handshake_done (some _) => none
    | Event.done_write GRPC_ENDPOINT_CB_OK => none
    | Event.done_write _ => some w1
    | Event.on_read sl st =>
      let out := on_read_loop P r.parser r.have_read_byte sl
      if out.1 then none
      else
        match st with
        | GRPC_ENDPOINT_CB_OK => none
        | _ =>
          if out.2.2.1 = 0 then
            some { w1 with req := some { r with parser := out.2.1, have_read_byte := out.2.2.1 }
                           trace := w.trace ++ out.2.2.2 }
          else none

/-- Two calls are the same but for the request buffer: they are equal, or
they are the same call on the request buffers `tg` and `tp` (the reference
taken for a write, the write, the release in `finish`). -/
inductive SameCall (tg tp : gpr_slice) : Action → Action → Prop
  | same (a : Action) : SameCall tg tp a a
  | ref : SameCall tg tp (Action.gpr_slice_ref tg) (Action.gpr_slice_ref tp)
  | write (ep : grpc_endpoint) :
    SameCall tg tp (Action.grpc_endpoint_write ep tg) (Action.grpc_endpoint_write ep tp)
  | unref : SameCall tg tp (Action.gpr_slice_unref tg) (Action.gpr_slice_unref tp)

/-- The in-flight state with the request buffer replaced. -/
def set_text (tp : gpr_slice) (r : internal_request σ) : internal_request σ :=
  { r with request_text := tp }

/-- The world with the request buffer replaced and another trace. -/
def twin (tp : gpr_slice) (t : List Action) (w : World σ) : World σ :=
  { req := w.req.map (set_text tp), pollset_set := w.pollset_set, armed := w.armed, trace := t }

/-- Two worlds are the same but for the request buffer (`tg` in the first,
`tp` in the second): the in-flight states agree in every other field, the
pollset set and the armed operations are equal, and since the traces `t0`
and `t0'` the calls made correspond one to one, each pair the same but for
the request buffer. -/
def Twin (tg tp : gpr_slice) (t0 t0' : List Action) (w w' : World σ) : Prop :=
  (∀ r, w.req = some r → r.request_text = tg) ∧
  ∃ ag ap, w.trace = t0 ++ ag ∧ w' = twin tp (t0' ++ ap) w ∧
    List.Forall₂ (SameCall tg tp) ag ap

/-- Two results are the same but for the request buffer: the same fault, or
worlds that are. -/
def TwinR (tg tp : gpr_slice) (t0 t0' : List Action) :
    Except Fault (World σ) → Except Fault (World σ) → Prop
  | .ok w, .ok w' => Twin tg tp t0 t0' w w'
  | .error f, .error f' => f = f'
  | _, _ => False

namespace Ex

/-- The world after `grpc_httpcli_post` for `request` with the body `[1, 2]`,
same context, pollset, deadline, callback and user data as for `w0`. -/
def w0_post : World Nat := grpc_httpcli_post P g (idle [7]) 1 9 request [1, 2] deadline 11 12

end Ex

/-- A left fold over bytes with a sticky failure state: `none` is the failed
state, which no byte leaves. -/
def fold_bytes {S : Type} (byte : S → Nat → Option S) (p : Option S) (bytes : List Nat) :
    Option S :=
  p.bind (fun st => bytes.foldlM byte st)

/-- Modelled from the spec: the response parser (`grpc_httpcli_parser_parse`,
`grpc_httpcli_parser_eof`, the field `r`), which is not among the sources,
as a left fold over the bytes received with a sticky failure state. `byte`
consumes one byte or fails, `complete` is the end-of-stream check and `resp`
the accumulated response. -/
def parser_as_fold {S : Type} (init : S) (byte : S → Nat → Option S) (complete : S → Int)
    (resp : S → grpc_httpcli_response) (format_get : grpc_httpcli_request → gpr_slice)
    (format_post : grpc_httpcli_request → List Nat → gpr_slice) : Externals (Option S) :=
  { grpc_httpcli_parser_init := some init
    grpc_httpcli_parser_parse := fun p s =>
      match fold_bytes byte p s with
      | some st => (1, some st)
      | none => (0, none)
    grpc_httpcli_parser_eof := fun p =>
      match p with
      | some st => complete st
      | none => 0
    parser_r := fun p =>
      match p with
      | some st => resp st
      | none => { status := 0, hdrs := [], body := [] }
    grpc_httpcli_format_get_request := format_get
    grpc_httpcli_format_post_request := format_post }

/-- The read completions that deliver `reads` on one stream: each read
carries its chunks, all with status OK but the last, which carries EOF. -/
def deliver : List (List gpr_slice) → List Event
  | [] => []
  | [last] => [Event.on_read last GRPC_ENDPOINT_CB_EOF]
  | r :: rest => Event.on_read r GRPC_ENDPOINT_CB_OK :: deliver rest

/-- The bytes a sequence of reads carries, in order. -/
def bytes_of (reads : List (List gpr_slice)) : List Nat := reads.flatten.flatten

/-- A run in which the completions that come after the request has been
finished are not delivered (the stream they would come from is destroyed). -/
def drive (P : Externals σ) (w : World σ) : List Event → Except Fault (World σ)
  | [] => .ok w
  | e :: es =>
    if w.req.isNone then .ok w
    else
      match step P w e with
      | .ok w1 => drive P w1 es
      | .error f => .error f

/-- What a run shows to the outside: the responses handed to the callback,
the addresses connected to, the armed operations, the pollset set, and the
cursor when the request is in flight. -/
def observed (w : World σ) :
    List (Option grpc_httpcli_response) × List grpc_resolved_address × List Op × List Nat ×
      Option Nat :=
  (responses w.trace, connects w.trace, w.armed, w.pollset_set,
    w.req.map (fun r => r.next_address))

/-- The response the callback gets when the stream ends after the bytes
`bytes`, the parser having been in the state `p` before them. -/
def verdict {S : Type} (byte : S → Nat → Option S) (complete : S → Int)
    (resp : S → grpc_httpcli_response) (p : Option S) (bytes : List Nat) :
    Option grpc_httpcli_response :=
  match fold_bytes byte p bytes with
  | none => none
  | some st => if complete st ≠ 0 then some (resp st) else none

/-- What the delivery of the bytes `bytes` ending in EOF must leave, from a
world `w` in which a read is armed on the request `r`: when no byte has ever
been received, what `next_address` leaves; otherwise the request is
finished, the callback having got the verdict of the parser on `bytes`. -/
def Ends {S : Type} (P : Externals (Option S)) (byte : S → Nat → Option S)
    (complete : S → Int) (resp : S → grpc_httpcli_response) (w : World (Option S))
    (r : internal_request (Option S)) ( bytes : List Nat) (w1 : World (Option S)) : Prop :=
  if bytes = [] ∧ r.have_read_byte = 0 then
    ∃ w2, next_address P { req := some r, pollset_set := w.pollset_set, armed := []
                           trace := w.trace } = .ok w2 ∧ observed w1 = observed w2
  else
    observed w1 =
      (responses w.trace ++ [verdict byte complete resp r.parser bytes], connects w.trace, [],
        w.pollset_set.erase r.pollset, none)

namespace Ex

/-- A fold parser: the state counts the bytes, the byte 255 is rejected, and
a response is complete from three bytes on. -/
def fold_P : Externals (Option Nat) :=
  parser_as_fold 0 (fun n b => if b = 255 then none else some (n + 1))
    (fun n => if 3 ≤ n then 1 else 0) (fun n => { status := 200, hdrs := [], body := [n] })
    (fun _ => [71]) (fun _ b => 80 :: b)

/-- The world after `grpc_httpcli_get` with the fold parser. -/
def fold_w0 : World (Option Nat) :=
  grpc_httpcli_get fold_P g (idle [7]) 1 9 request deadline 11 12

/-- The world while the read on the first candidate is armed. -/
def fold_w_reading : World (Option Nat) :=
  final (run fold_P fold_w0
    [Event.on_resolved (some ⟨[a1, a2]⟩), Event.on_connected (some ep_done)])

end Ex

/-- The collaborators of `grpc_server_add_insecure_http2_port`, none of
which is in `server_chttp2.c`; `τ` is the state of a TCP server.
`grpc_tcp_server_add_port` returns the port bound (an `int`, negative on
failure) and the server with the port added. -/
structure ServerExternals (τ : Type) where
  grpc_blocking_resolve_address : String → String → Option grpc_resolved_addresses
  grpc_tcp_server_create : Option τ
  grpc_tcp_server_add_port : τ → grpc_resolved_address → Int × τ

/-- A call `grpc_server_add_insecure_http2_port` makes to a collaborator. -/
inductive ServerCall (τ : Type) where
  | grpc_blocking_resolve_address (addr : String) (default_port : String)
  | grpc_tcp_server_create
  | grpc_tcp_server_add_port (a : grpc_resolved_address)
  | gpr_log
  | grpc_resolved_addresses_destroy
  | grpc_tcp_server_destroy (tcp : τ)
  | grpc_server_add_listener (tcp : τ)
  deriving DecidableEq, Repr

/-- The loop of `grpc_server_add_insecure_http2_port` over the resolved
addresses, on the locals `tcp`, `count` (an `unsigned`, 32 bits wide, which
`count++` wraps) and `port_num`. The result is `none` when `GPR_ASSERT`
fails, which aborts the process. -/
def add_ports_loop {τ : Type} (E : ServerExternals τ) :
    List grpc_resolved_address → τ → Nat → Int → Option (τ × Nat × Int)
  | [], tcp, count, port_num => some (tcp, count, port_num)
  | a :: rest, tcp, count, port_num =>
    let res := E.grpc_tcp_server_add_port tcp a
    let port_temp := res.1
    if port_temp ≥ 0 then
      if port_num = -1 then
        add_ports_loop E rest res.2 ((count + 1) % 2 ^ 32) port_temp
      else if port_num = port_temp then
        add_ports_loop E rest res.2 ((count + 1) % 2 ^ 32) port_num
      else
        none
    else
      add_ports_loop E rest res.2 count port_num

/-- The function `grpc_server_add_insecure_http2_port`: the value returned
and the calls made, or `none` when `GPR_ASSERT` fails. -/
def grpc_server_add_insecure_http2_port {τ : Type} (E : ServerExternals τ) (addr : String) :
    Option (Int × List (ServerCall τ)) :=
  match E.grpc_blocking_resolve_address addr "http" with
  | none => some (0, [ServerCall.grpc_blocking_resolve_address addr "http"])
  | some resolved =>
    match E.grpc_tcp_server_create with
    | none =>
      some (0, [ ServerCall.grpc_blocking_resolve_address addr "http",
                 ServerCall.grpc_tcp_server_create,
                 ServerCall.grpc_resolved_addresses_destroy ])
    | some tcp =>
      match add_ports_loop E resolved.addrs tcp 0 (-1) with
      | none => none
      | some (tcp1, count, port_num) =>
        let calls := [ ServerCall.grpc_blocking_resolve_address addr "http",
                       ServerCall.grpc_tcp_server_create ] ++
          resolved.addrs.map ServerCall.grpc_tcp_server_add_port
        if count = 0 then
          some (0, calls ++ [ ServerCall.gpr_log, ServerCall.grpc_resolved_addresses_destroy,
                              ServerCall.grpc_tcp_server_destroy tcp1 ])
        else
          some (port_num,
            calls ++ (if count ≠ resolved.naddrs then [ServerCall.gpr_log] else []) ++
              [ ServerCall.grpc_resolved_addresses_destroy,
                ServerCall.grpc_server_add_listener tcp1 ])

/-- The listeners registered with the server in a sequence of calls. -/
def registered {τ : Type} : List (ServerCall τ) → List τ
  | [] => []
  | ServerCall.grpc_server_add_listener tcp :: t => tcp :: registered t
  | _ :: t => registered t

/-- What the successive calls of `grpc_tcp_server_add_port` report for the
addresses `addrs`, starting from the TCP server `tcp`. -/
def add_results {τ : Type} (E : ServerExternals τ) : τ → List grpc_resolved_address → List Int
  | _, [] => []
  | tcp, a :: rest =>
    (E.grpc_tcp_server_add_port tcp a).1 :: add_results E (E.grpc_tcp_server_add_port tcp a).2 rest

/-- The ports reported by the addresses that were added, in order. -/
def added_ports {τ : Type} (E : ServerExternals τ) (tcp : τ)
    (addrs : List grpc_resolved_address) : List Int :=
  (add_results E tcp addrs).filter (fun p => decide (0 ≤ p))

/-- The TCP server after `grpc_tcp_server_add_port` has been called for each
of `addrs`. -/
def tcp_after {τ : Type} (E : ServerExternals τ) (tcp : τ)
    (addrs : List grpc_resolved_address) : τ :=
  addrs.foldl (fun t a => (E.grpc_tcp_server_add_port t a).2) tcp

namespace Ex

/-- Collaborators: `"x"` resolves to three addresses, `"y"` to one; the
address 2 cannot be added, the others bind the port 8080; the state of the
TCP server counts the calls made on it. -/
def server_E : ServerExternals Nat :=
  { grpc_blocking_resolve_address := fun addr _ =>
      if addr = "x" then some ⟨[⟨2, 4⟩, a1, ⟨3, 4⟩]⟩
      else if addr = "y" then some ⟨[a2]⟩
      else none
    grpc_tcp_server_create := some 0
    grpc_tcp_server_add_port := fun tcp a => (if a.addr = 2 then -1 else 8080, tcp + 1) }

end Ex

/-! ## Handlers: what each leaves behind -/

theorem callbacks_append (a b : List Action) : callbacks (a ++ b) = callbacks a + callbacks b := by
  simp [callbacks, List.countP_append]

theorem callbacks_finish_actions (P : Externals σ) (r : internal_request σ) (s : Int) :
    callbacks (finish_actions P r s) = 1 := by
  unfold finish_actions callbacks
  cases r.addresses <;> cases r.ep <;> simp [List.countP_cons, Action.is_on_response]

theorem callbacks_unref (sl : List gpr_slice) :
    callbacks (sl.map Action.gpr_slice_unref) = 0 := by
  induction sl with
  | nil => rfl
  | cons s rest ih => simp [callbacks, List.countP_cons, Action.is_on_response]

theorem on_read_loop_skip (P : Externals σ) (p : σ) (b : Int) (s : gpr_slice)
    (rest : List gpr_slice) (h : GPR_SLICE_LENGTH s = 0) :
    on_read_loop P p b (s :: rest) = on_read_loop P p b rest := by
  rw [on_read_loop, if_neg (not_not.mpr h)]

theorem on_read_loop_reject (P : Externals σ) (p : σ) (b : Int) (s : gpr_slice)
    (rest : List gpr_slice) (h : GPR_SLICE_LENGTH s ≠ 0)
    (hp : (P.grpc_httpcli_parser_parse p s).1 = 0) :
    on_read_loop P p b (s :: rest) =
      (true, (P.grpc_httpcli_parser_parse p s).2, 1, [Action.grpc_httpcli_parser_parse s]) := by
  rw [on_read_loop, if_pos h]
  simp only [hp, if_true]

theorem on_read_loop_accept (P : Externals σ) (p : σ) (b : Int) (s : gpr_slice)
    (rest : List gpr_slice) (h : GPR_SLICE_LENGTH s ≠ 0)
    (hp : (P.grpc_httpcli_parser_parse p s).1 ≠ 0) :
    on_read_loop P p b (s :: rest) =
      ((on_read_loop P (P.grpc_httpcli_parser_parse p s).2 1 rest).1,
       (on_read_loop P (P.grpc_httpcli_parser_parse p s).2 1 rest).2.1,
       (on_read_loop P (P.grpc_httpcli_parser_parse p s).2 1 rest).2.2.1,
       Action.grpc_httpcli_parser_parse s ::
         (on_read_loop P (P.grpc_httpcli_parser_parse p s).2 1 rest).2.2.2) := by
  rw [on_read_loop, if_pos h]
  simp only [hp, if_false]

theorem on_read_loop_callbacks (P : Externals σ) (sl : List gpr_slice) (p : σ) (b : Int) :
    callbacks (on_read_loop P p b sl).2.2.2 = 0 := by
  induction sl generalizing p b with
  | nil => rfl
  | cons s rest ih =>
    by_cases h1 : GPR_SLICE_LENGTH s = 0
    · rw [on_read_loop_skip P p b s rest h1]
      exact ih p b
    · by_cases h2 : (P.grpc_httpcli_parser_parse p s).1 = 0
      · rw [on_read_loop_reject P p b s rest h1 h2]; rfl
      · rw [on_read_loop_accept P p b s rest h1 h2]
        have := ih (P.grpc_httpcli_parser_parse p s).2 1
        simpa [callbacks, List.countP_cons, Action.is_on_response] using this

theorem Outcome.extend {P : Externals σ} {t0 pre0 : List Action} {sl : List gpr_slice}
    {w1 : World σ} (h0 : callbacks pre0 = 0) (h : Outcome P (t0 ++ pre0) sl w1) :
    Outcome P t0 sl w1 := by
  refine ⟨h.1, ?_⟩
  rcases h.2 with ⟨hl, acts, hc, ht⟩ | ⟨hd, ha, pre, r, s, hc, ht⟩
  · exact Or.inl ⟨hl, pre0 ++ acts, by simp [callbacks_append, h0, hc], by simp [ht]⟩
  · exact Or.inr ⟨hd, ha, pre0 ++ pre, r, s, by simp [callbacks_append, h0, hc], by simp [ht]⟩

theorem finish_ok (P : Externals σ) (w : World σ) (r : internal_request σ) (s : Int)
    (h : w.req = some r) :
    finish P w s = .ok { req := none, pollset_set := w.pollset_set.erase r.pollset,
                         armed := w.armed, trace := w.trace ++ finish_actions P r s } := by
  simp [finish, h]

theorem finish_outcome (P : Externals σ) (w : World σ) (r : internal_request σ) (s : Int)
    (h : w.req = some r) (harm : w.armed = []) :
    ∃ w1, finish P w s = .ok w1 ∧ Outcome P w.trace [] w1 := by
  refine ⟨_, finish_ok P w r s h, ?_, Or.inr ⟨rfl, harm, [], r, s, rfl, ?_⟩⟩
  · simp [Inv, harm]
  · simp

theorem next_address_outcome (P : Externals σ) (w : World σ) (r : internal_request σ)
    (h : w.req = some r) (hc : CursorOk r)
    (hb : r.have_read_byte = 0) (harm : w.armed = []) :
    ∃ w1, next_address P w = .ok w1 ∧ Outcome P w.trace [] w1 := by
  obtain ⟨a, ha, hn⟩ := hc
  unfold next_address
  simp only [h, ha]
  by_cases he : r.next_address = a.naddrs
  · simp only [he, if_true]
    exact finish_outcome P w r 0 h harm
  · have hlt : r.next_address < a.addrs.length := lt_of_le_of_ne hn he
    simp only [he, if_false, List.get?_eq_getElem?, List.getElem?_eq_getElem hlt]
    refine ⟨_, rfl, ?_, Or.inl ⟨by simp, _, ?_, rfl⟩⟩
    · simp only [Inv, harm, List.nil_append]
      exact ⟨Op.connect, rfl, ⟨a, by simp [ha], hlt⟩, by simp [hb]⟩
    · rfl

theorem on_written_outcome (P : Externals σ) (w : World σ) (r : internal_request σ)
    (h : w.req = some r) (hc : CursorOk r) (he : r.ep ≠ none) (harm : w.armed = []) :
    ∃ w1, on_written w = .ok w1 ∧ Outcome P w.trace [] w1 := by
  unfold on_written
  simp only [h]
  cases hep : r.ep with
  | none => exact absurd hep he
  | some ep =>
    refine ⟨_, rfl, ?_, Or.inl ⟨by simp [h], _, ?_, rfl⟩⟩
    · simp only [Inv, h, harm, List.nil_append]
      exact ⟨Op.read, rfl, hc, he⟩
    · rfl

theorem start_write_outcome (P : Externals σ) (w : World σ) (r : internal_request σ)
    (h : w.req = some r) (hc : CursorOk r) (he : r.ep ≠ none) (hb : r.have_read_byte = 0)
    (harm : w.armed = []) :
    ∃ w1, start_write P w = .ok w1 ∧ Outcome P w.trace [] w1 := by
  unfold start_write
  simp only [h]
  cases hep : r.ep with
  | none => exact absurd hep he
  | some ep =>
    simp only []
    have h0 : callbacks [Action.gpr_slice_ref r.request_text,
        Action.grpc_endpoint_write ep r.request_text] = 0 := rfl
    cases ep.write_status with
    | GRPC_ENDPOINT_WRITE_DONE =>
      simp only []
      obtain ⟨w1, h1, h2⟩ := on_written_outcome P
        { w with req := some r, trace := w.trace ++ [Action.gpr_slice_ref r.request_text,
            Action.grpc_endpoint_write ep r.request_text] } r rfl hc he harm
      exact ⟨w1, h1, Outcome.extend h0 h2⟩
    | GRPC_ENDPOINT_WRITE_PENDING =>
      refine ⟨_, rfl, ?_, Or.inl ⟨by simp [h], _, h0, rfl⟩⟩
      simp only [Inv, h, harm, List.nil_append]
      exact ⟨Op.write, rfl, hc, hb, he⟩
    | GRPC_ENDPOINT_WRITE_ERROR =>
      simp only []
      obtain ⟨w1, h1, h2⟩ := finish_outcome P
        { w with req := some r, trace := w.trace ++ [Action.gpr_slice_ref r.request_text,
            Action.grpc_endpoint_write ep r.request_text] } r 0 rfl harm
      exact ⟨w1, h1, Outcome.extend h0 h2⟩

theorem on_handshake_done_outcome (P : Externals σ) (w : World σ) (r : internal_request σ)
    (ep : Option grpc_endpoint)
    (h : w.req = some r) (hc : CursorOk r) (hb : r.have_read_byte = 0)
    (harm : w.armed = []) :
    ∃ w1, on_handshake_done P w ep = .ok w1 ∧ Outcome P w.trace [] w1 := by
  unfold on_handshake_done
  cases ep with
  | none => exact next_address_outcome P w r h hc hb harm
  | some e =>
    simp only [h]
    exact start_write_outcome P { w with req := some { r with ep := some e } }
      { r with ep := some e } rfl hc (by simp) hb harm

theorem on_connected_outcome (P : Externals σ) (w : World σ) (r : internal_request σ)
    (tcp : Option grpc_endpoint)
    (h : w.req = some r) (hc : CursorOk r) (hb : r.have_read_byte = 0)
    (harm : w.armed = []) :
    ∃ w1, on_connected P w tcp = .ok w1 ∧ Outcome P w.trace [] w1 := by
  unfold on_connected
  cases tcp with
  | none => exact next_address_outcome P w r h hc hb harm
  | some t =>
    simp only [h]
    have h0 : callbacks [Action.handshake r.handshaker.default_port t r.host] = 0 := rfl
    cases r.handshaker.handshake t r.host with
    | done ep =>
      obtain ⟨w1, h1, h2⟩ := on_handshake_done_outcome P
        { w with req := some r
                 trace := w.trace ++ [Action.handshake r.handshaker.default_port t r.host] }
        r ep rfl hc hb harm
      exact ⟨w1, h1, Outcome.extend h0 h2⟩
    | pending =>
      refine ⟨_, rfl, ?_, Or.inl ⟨by simp [h], _, h0, rfl⟩⟩
      simp only [Inv, h, harm, List.nil_append]
      exact ⟨Op.handshake, rfl, hc, hb⟩

theorem on_resolved_outcome (P : Externals σ) (w : World σ) (r : internal_request σ)
    (a : Option grpc_resolved_addresses)
    (h : w.req = some r) (hb : r.have_read_byte = 0)
    (harm : w.armed = []) :
    ∃ w1, on_resolved P w a = .ok w1 ∧ Outcome P w.trace [] w1 := by
  unfold on_resolved
  cases a with
  | none => exact finish_outcome P w r 0 h harm
  | some a =>
    simp only [h]
    exact next_address_outcome P
      { w with req := some { r with addresses := some a, next_address := 0 } }
      { r with addresses := some a, next_address := 0 } rfl
      ⟨a, rfl, Nat.zero_le _⟩ hb harm

theorem done_write_outcome (P : Externals σ) (w : World σ) (r : internal_request σ)
    (s : grpc_endpoint_cb_status)
    (h : w.req = some r) (hc : CursorOk r) (he : r.ep ≠ none) (hb : r.have_read_byte = 0)
    (harm : w.armed = []) :
    ∃ w1, done_write P w s = .ok w1 ∧ Outcome P w.trace [] w1 := by
  cases s
  · exact on_written_outcome P w r h hc he harm
  all_goals exact next_address_outcome P w r h hc hb harm

theorem map_unref_outcome (P : Externals σ) (t0 pre0 : List Action) (sl : List gpr_slice)
    (x : Except Fault (World σ)) (h0 : callbacks pre0 = 0)
    (h : ∃ w1, x = .ok w1 ∧ Outcome P (t0 ++ pre0) [] w1) :
    ∃ w1, x.map (unref_slices sl) = .ok w1 ∧ Outcome P t0 sl w1 := by
  obtain ⟨w1, rfl, hi, ho⟩ := h
  refine ⟨unref_slices sl w1, rfl, hi, ?_⟩
  rcases ho with ⟨hl, acts, hc, ht⟩ | ⟨hd, ha, pre, r, s, hc, ht⟩
  · refine Or.inl ⟨hl, pre0 ++ acts ++ sl.map Action.gpr_slice_unref, ?_, ?_⟩
    · simp [callbacks_append, h0, hc, callbacks_unref]
    · simp [unref_slices, ht]
  · refine Or.inr ⟨hd, ha, pre0 ++ pre, r, s, ?_, ?_⟩
    · simp [callbacks_append, h0, hc]
    · simp [unref_slices, ht]

theorem on_read_outcome (P : Externals σ) (w : World σ) (r : internal_request σ)
    (sl : List gpr_slice) (s : grpc_endpoint_cb_status)
    (h : w.req = some r) (hc : CursorOk r) (he : r.ep ≠ none)
    (harm : w.armed = []) :
    ∃ w1, on_read P w sl s = .ok w1 ∧ Outcome P w.trace sl w1 := by
  unfold on_read
  simp only [h]
  have hl := on_read_loop_callbacks P sl r.parser r.have_read_byte
  split
  · exact map_unref_outcome P _ _ sl _ hl (finish_outcome P _ _ 0 rfl harm)
  · split
    · exact map_unref_outcome P _ _ sl _ hl (on_written_outcome P _ _ rfl hc he harm)
    · split
      · rename_i hz
        exact map_unref_outcome P _ _ sl _ hl (next_address_outcome P _ _ rfl hc hz harm)
      · have hl2 : callbacks ((on_read_loop P r.parser r.have_read_byte sl).2.2.2 ++
            [Action.grpc_httpcli_parser_eof]) = 0 := by
          rw [callbacks_append, hl]; rfl
        have := map_unref_outcome P w.trace _ sl _ hl2
          (finish_outcome P
            { req := some { r with parser := (on_read_loop P r.parser r.have_read_byte sl).2.1,
                                   have_read_byte := (on_read_loop P r.parser r.have_read_byte sl).2.2.1 }
              pollset_set := w.pollset_set, armed := w.armed
              trace := w.trace ++ ((on_read_loop P r.parser r.have_read_byte sl).2.2.2 ++
                [Action.grpc_httpcli_parser_eof]) } _
            (P.grpc_httpcli_parser_eof (on_read_loop P r.parser r.have_read_byte sl).2.1) rfl harm)
        simpa [List.append_assoc] using this

theorem step_outcome (P : Externals σ) (w : World σ) (e : Event) (hI : Inv w)
    (ha : e.op ∈ w.armed) : ∃ w1, step P w e = .ok w1 ∧ Outcome P w.trace e.slices w1 := by
  unfold Inv at hI
  cases hr : w.req with
  | none => simp [hr] at hI; simp [hI] at ha
  | some r =>
    simp only [hr] at hI
    obtain ⟨op, hop, hinv⟩ := hI
    have hop2 : e.op = op := by simpa [hop] using ha
    have hn : w.armed.erase e.op = [] := by simp [hop, hop2]
    unfold step
    simp only [ha, if_true, hn]
    cases e with
    | on_resolved a =>
      subst hop2
      exact on_resolved_outcome P { w with armed := [] } r a hr hinv.2.2 rfl
    | on_connected t =>
      subst hop2
      exact on_connected_outcome P { w with armed := [] } r t hr hinv.1 hinv.2 rfl
    | on_handshake_done ep =>
      subst hop2
      exact on_handshake_done_outcome P { w with armed := [] } r ep hr hinv.1 hinv.2 rfl
    | done_write s =>
      subst hop2
      exact done_write_outcome P { w with armed := [] } r s hr hinv.1 hinv.2.2 hinv.2.1 rfl
    | on_read sl s =>
      subst hop2
      exact on_read_outcome P { w with armed := [] } r sl s hr hinv.1 hinv.2 rfl

theorem Inv.live_of_armed {w : World σ} (hI : Inv w) (h : w.armed ≠ []) : w.req ≠ none := by
  intro hn
  simp [Inv, hn] at hI
  exact h hI

theorem Inv.armed_of_live {w : World σ} (hI : Inv w) (h : w.req ≠ none) : w.armed ≠ [] := by
  unfold Inv at hI
  cases hr : w.req with
  | none => exact absurd hr h
  | some r =>
    simp only [hr] at hI
    obtain ⟨op, hop, _⟩ := hI
    simp [hop]

theorem step_not_armed (P : Externals σ) (w : World σ) (e : Event) (h : e.op ∉ w.armed) :
    step P w e = .error Fault.not_armed := by
  simp [step, h]

theorem step_good (P : Externals σ) (w : World σ) (e : Event) (hG : Good P w)
    (ha : e.op ∈ w.armed) : ∃ w1, step P w e = .ok w1 ∧ Good P w1 := by
  obtain ⟨w1, h1, hI, ho⟩ := step_outcome P w e hG.1 ha
  refine ⟨w1, h1, hI, ?_⟩
  have hlive : w.req ≠ none := hG.1.live_of_armed (List.ne_nil_of_mem ha)
  have hc : callbacks w.trace = 0 := by
    rcases hG.2 with h | h
    · exact h.2
    · exact absurd h.1 hlive
  rcases ho with ⟨hl, acts, hca, ht⟩ | ⟨hd, _, pre, r, s, hcp, ht⟩
  · exact Or.inl ⟨hl, by rw [ht, callbacks_append, hc, hca]⟩
  · exact Or.inr ⟨hd, w.trace ++ pre, r, s, e.slices, by rw [callbacks_append, hc, hcp], ht⟩

theorem run_good (P : Externals σ) (evs : List Event) (w : World σ) (hG : Good P w) :
    (∀ f, run P w evs = .error f → f = Fault.not_armed) ∧
    (∀ w1, run P w evs = .ok w1 → Good P w1) := by
  induction evs generalizing w with
  | nil =>
    constructor
    · intro f h; simp [run] at h
    · intro w1 h
      simp only [run, Except.ok.injEq] at h
      exact h ▸ hG
  | cons e es ih =>
    by_cases ha : e.op ∈ w.armed
    · obtain ⟨w1, h1, hG1⟩ := step_good P w e hG ha
      simp only [run, h1]
      exact ih w1 hG1
    · simp only [run, step_not_armed P w e ha]
      constructor
      · intro f h
        simp only [Except.error.injEq] at h
        exact h.symm
      · intro w1 h; simp at h

theorem Started.req {P : Externals σ} {w0 : World σ} (h : Started P w0) :
    ∃ r, w0.req = some r ∧ w0.armed = [Op.resolve] ∧ r.addresses = none ∧ r.ep = none ∧
      r.have_read_byte = 0 ∧ r.next_address = 0 ∧ callbacks w0.trace = 0 := by
  obtain ⟨g, ps, ctx, pollset, request, deadline, cb, ud, h | ⟨body, h⟩⟩ := h
  · obtain ⟨hc, rfl⟩ := h
    unfold grpc_httpcli_get
    simp only [hc]
    refine ⟨_, rfl, ?_, rfl, rfl, rfl, rfl, ?_⟩
    · unfold get_override_check idle
      cases g.g_get_override <;> rfl
    · unfold get_override_check idle
      cases g.g_get_override <;> rfl
  · obtain ⟨hc, rfl⟩ := h
    unfold grpc_httpcli_post
    simp only [hc]
    refine ⟨_, rfl, ?_, rfl, rfl, rfl, rfl, ?_⟩
    · unfold post_override_check idle
      cases g.g_post_override <;> rfl
    · unfold post_override_check idle
      cases g.g_post_override <;> rfl

theorem Started.good {P : Externals σ} {w0 : World σ} (h : Started P w0) : Good P w0 := by
  obtain ⟨r, hr, ha, hadd, hep, hb, _, hc⟩ := h.req
  refine ⟨?_, Or.inl ⟨by simp [hr], hc⟩⟩
  simp only [Inv, hr]
  exact ⟨Op.resolve, ha, hadd, hep, hb⟩



theorem Ex.started : Started Ex.P Ex.w0 :=
  ⟨Ex.g, [7], 1, 9, Ex.request, Ex.deadline, 11, 12, Or.inl ⟨rfl, rfl⟩⟩

/-! ## The claims -/

/-- C1. A request started by `grpc_httpcli_get` or `grpc_httpcli_post` and
not claimed by an override hook is run through any sequence of completions.
No completion of an armed operation makes a handler touch freed or null
state (the only fault is a completion nobody armed), and an armed completion
is always handled. While an operation is armed the request is in flight and
the callback has not been invoked; once every armed operation has completed
the in-flight state is freed and the callback has been invoked exactly once,
by `finish`: the trace is calls without the callback, then the calls of
`finish`, then only the release of the slices of a read, with nothing armed. -/
theorem C1_callback_exactly_once (P : Externals σ) (w0 : World σ) (h0 : Started P w0)
    (evs : List Event) :
    (∀ f, run P w0 evs = .error f → f = Fault.not_armed) ∧
    (∀ w, run P w0 evs = .ok w →
      (∀ e : Event, e.op ∈ w.armed → ∃ w1, step P w e = .ok w1) ∧
      (w.armed ≠ [] → w.req ≠ none ∧ callbacks w.trace = 0) ∧
      (w.armed = [] → w.req = none ∧ callbacks w.trace = 1 ∧
        ∃ (pre : List Action) (r : internal_request σ) (success : Int) (slices : List gpr_slice),
          callbacks pre = 0 ∧
          w.trace = pre ++ finish_actions P r success ++ slices.map Action.gpr_slice_unref)) := by
  obtain ⟨hf, hok⟩ := run_good P evs w0 h0.good
  refine ⟨hf, fun w hw => ?_⟩
  have hG := hok w hw
  refine ⟨fun e he => ?_, fun ha => ?_, fun ha => ?_⟩
  · obtain ⟨w1, h1, _⟩ := step_good P w e hG he
    exact ⟨w1, h1⟩
  · have hl := hG.1.live_of_armed ha
    rcases hG.2 with h | h
    · exact h
    · exact absurd h.1 hl
  · rcases hG.2 with h | ⟨hd, pre, r, s, sl, hc, ht⟩
    · exact absurd ha (hG.1.armed_of_live h.1)
    · refine ⟨hd, ?_, pre, r, s, sl, hc, ht⟩
      rw [ht, callbacks_append, callbacks_append, hc, callbacks_finish_actions, callbacks_unref]

theorem C1_callback_exactly_once_witness :
    Started Ex.P Ex.w0 ∧
    run Ex.P Ex.w0 Ex.evs_ok = .ok (final (run Ex.P Ex.w0 Ex.evs_ok)) ∧
    callbacks (final (run Ex.P Ex.w0 Ex.evs_ok)).trace = 1 :=
  ⟨Ex.started, rfl,
    (((C1_callback_exactly_once Ex.P Ex.w0 Ex.started Ex.evs_ok).2
      (final (run Ex.P Ex.w0 Ex.evs_ok)) rfl).2.2 rfl).2.1⟩

theorem next_address_exhausted (P : Externals σ) (w : World σ) (r : internal_request σ)
    (a : grpc_resolved_addresses) (h : w.req = some r) (ha : r.addresses = some a)
    (hn : r.next_address = a.naddrs) :
    next_address P w = .ok { req := none, pollset_set := w.pollset_set.erase r.pollset,
                             armed := w.armed, trace := w.trace ++ finish_actions P r 0 } := by
  unfold next_address
  simp only [h, ha, hn, if_true]
  exact finish_ok P w r 0 h

theorem next_address_connect (P : Externals σ) (w : World σ) (r : internal_request σ)
    (a : grpc_resolved_addresses) (addr : grpc_resolved_address)
    (h : w.req = some r) (ha : r.addresses = some a)
    (hg : a.addrs.get? r.next_address = some addr) :
    next_address P w =
      .ok { req := some { r with next_address := r.next_address + 1 }
            pollset_set := w.pollset_set
            armed := w.armed ++ [Op.connect]
            trace := w.trace ++ [Action.grpc_tcp_client_connect r.context addr r.deadline] } := by
  have hlt : r.next_address < a.addrs.length := by
    rcases Nat.lt_or_ge r.next_address a.addrs.length with h1 | h1
    · exact h1
    · rw [List.get?_eq_none.mpr h1] at hg; cases hg
  unfold next_address
  simp only [h, ha, hg, grpc_resolved_addresses.naddrs, Nat.ne_of_lt hlt, if_false]

theorem connect_failures (P : Externals σ) (rest : List grpc_resolved_address) :
    ∀ (tried : List grpc_resolved_address) (w : World σ) (r : internal_request σ),
      w.req = some r → w.armed = [] → r.addresses = some ⟨tried ++ rest⟩ →
      r.next_address = tried.length →
      then_run P (next_address P w) (rest.map (fun _ => Event.on_connected none)) =
        .ok { req := none, pollset_set := w.pollset_set.erase r.pollset, armed := []
              trace := w.trace ++
                rest.map (fun addr => Action.grpc_tcp_client_connect r.context addr r.deadline) ++
                finish_actions P { r with next_address := (tried ++ rest).length } 0 } := by
  induction rest with
  | nil =>
    intro tried w r h harm ha hn
    rw [next_address_exhausted P w r ⟨tried ++ []⟩ h ha (by simp [grpc_resolved_addresses.naddrs, hn])]
    simp only [then_run, List.map_nil, run, List.append_nil, harm]
    rw [← hn]
  | cons x xs ih =>
    intro tried w r h harm ha hn
    have hg : (tried ++ x :: xs).get? r.next_address = some x := by
      rw [hn, List.get?_eq_getElem?, List.getElem?_append_right (Nat.le_refl _)]; simp
    rw [next_address_connect P w r ⟨tried ++ x :: xs⟩ x h ha hg]
    simp only [then_run, List.map_cons, run, step, Event.op, harm, List.nil_append,
      List.mem_singleton, if_true, List.erase_cons_head, on_connected]
    have := ih (tried ++ [x])
      { req := some { r with next_address := r.next_address + 1 }
        pollset_set := w.pollset_set, armed := []
        trace := w.trace ++ [Action.grpc_tcp_client_connect r.context x r.deadline] }
      { r with next_address := r.next_address + 1 } rfl rfl (by simp [ha]) (by simp [hn])
    simp only [then_run] at this
    cases hna : next_address P
      { req := some { r with next_address := r.next_address + 1 }
        pollset_set := w.pollset_set, armed := []
        trace := w.trace ++ [Action.grpc_tcp_client_connect r.context x r.deadline] } with
    | error f => rw [hna] at this; simp at this
    | ok w1 =>
      rw [hna] at this
      simp only [] at this ⊢
      rw [this]
      simp

theorem connects_append (a b : List Action) : connects (a ++ b) = connects a ++ connects b := by
  induction a with
  | nil => rfl
  | cons x xs ih => cases x <;> simp [connects, ih]

theorem responses_append (a b : List Action) :
    responses (a ++ b) = responses a ++ responses b := by
  induction a with
  | nil => rfl
  | cons x xs ih => cases x <;> simp [responses, ih]

theorem connects_finish_actions (P : Externals σ) (r : internal_request σ) (s : Int) :
    connects (finish_actions P r s) = [] := by
  unfold finish_actions
  cases r.addresses <;> cases r.ep <;> rfl

theorem responses_finish_actions (P : Externals σ) (r : internal_request σ) (s : Int) :
    responses (finish_actions P r s) = [if s ≠ 0 then some (P.parser_r r.parser) else none] := by
  unfold finish_actions
  cases r.addresses <;> cases r.ep <;> rfl

theorem stream_calls_finish_actions (P : Externals σ) (r : internal_request σ) (s : Int) :
    (finish_actions P r s).countP Action.is_stream_call = 0 := by
  unfold finish_actions
  cases r.addresses <;> cases r.ep <;> rfl

theorem connects_map (c : Nat) (d : gpr_timespec) (l : List grpc_resolved_address) :
    connects (l.map (fun addr => Action.grpc_tcp_client_connect c addr d)) = l := by
  induction l with
  | nil => rfl
  | cons x xs ih => simp [connects, ih]

theorem responses_map_connect (c : Nat) (d : gpr_timespec) (l : List grpc_resolved_address) :
    responses (l.map (fun addr => Action.grpc_tcp_client_connect c addr d)) = [] := by
  induction l with
  | nil => rfl
  | cons x xs ih => simp [responses, ih]

theorem stream_calls_map_connect (c : Nat) (d : gpr_timespec) (l : List grpc_resolved_address) :
    (l.map (fun addr => Action.grpc_tcp_client_connect c addr d)).countP
      Action.is_stream_call = 0 := by
  induction l with
  | nil => rfl
  | cons x xs ih => simp [List.countP_cons, Action.is_stream_call]

/-- C2. A request whose resolver answers with the list `a` of `N` candidates
(`N` may be 0) and whose every connect attempt completes with a null stream:
after the resolution and the `N` failed connects the run has ended, and the
calls the engine made are exactly `N` calls of `grpc_tcp_client_connect`, to
`addrs[0]`, ..., `addrs[N-1]` in that order, followed by the calls of
`finish(req, 0)`. So the addresses connected to are the list itself, the
callback is invoked once, with a null response, and no stream is handed to
the handshaker, written to or read from. -/
theorem C2_all_connects_fail (P : Externals σ) (w0 : World σ) (r0 : internal_request σ)
    (h0 : Started P w0) (hr : w0.req = some r0) (a : grpc_resolved_addresses) :
    run P w0 (Event.on_resolved (some a) :: a.addrs.map (fun _ => Event.on_connected none)) =
      .ok { req := none, pollset_set := w0.pollset_set.erase r0.pollset, armed := []
            trace := w0.trace ++
              (a.addrs.map (fun addr =>
                  Action.grpc_tcp_client_connect r0.context addr r0.deadline) ++
               finish_actions P { r0 with addresses := some a, next_address := a.naddrs } 0) } ∧
    connects (a.addrs.map (fun addr =>
          Action.grpc_tcp_client_connect r0.context addr r0.deadline) ++
        finish_actions P { r0 with addresses := some a, next_address := a.naddrs } 0) =
      a.addrs ∧
    responses (a.addrs.map (fun addr =>
          Action.grpc_tcp_client_connect r0.context addr r0.deadline) ++
        finish_actions P { r0 with addresses := some a, next_address := a.naddrs } 0) =
      [none] ∧
    (a.addrs.map (fun addr =>
          Action.grpc_tcp_client_connect r0.context addr r0.deadline) ++
        finish_actions P { r0 with addresses := some a, next_address := a.naddrs } 0).countP
      Action.is_stream_call = 0 := by
  obtain ⟨r, hr2, harm, _⟩ := h0.req
  rw [hr] at hr2
  cases hr2
  refine ⟨?_, ?_, ?_, ?_⟩
  · have := connect_failures P a.addrs []
      { req := some { r0 with addresses := some a, next_address := 0 }
        pollset_set := w0.pollset_set, armed := [], trace := w0.trace }
      { r0 with addresses := some a, next_address := 0 } rfl rfl rfl rfl
    simp only [run, step, Event.op, harm, List.mem_singleton, if_true, List.erase_cons_head,
      on_resolved, hr]
    simp only [then_run] at this
    cases hna : next_address P
      { req := some { r0 with addresses := some a, next_address := 0 }
        pollset_set := w0.pollset_set, armed := [], trace := w0.trace } with
    | error f => rw [hna] at this; simp at this
    | ok w1 =>
      rw [hna] at this
      simp only [] at this ⊢
      rw [this]
      simp [grpc_resolved_addresses.naddrs]
  · rw [connects_append, connects_map, connects_finish_actions, List.append_nil]
  · rw [responses_append, responses_map_connect, responses_finish_actions]
    simp
  · rw [List.countP_append, stream_calls_map_connect, stream_calls_finish_actions]

theorem C2_all_connects_fail_witness :
    Started Ex.P Ex.w0 ∧
    (final (run Ex.P Ex.w0
      [Event.on_resolved (some ⟨[Ex.a1, Ex.a2]⟩), Event.on_connected none,
       Event.on_connected none])).trace =
      Ex.w0.trace ++
        [ Action.grpc_tcp_client_connect 1 Ex.a1 Ex.deadline,
          Action.grpc_tcp_client_connect 1 Ex.a2 Ex.deadline,
          Action.grpc_pollset_set_del_pollset 1 9,
          Action.on_response 11 12 none,
          Action.grpc_httpcli_parser_destroy,
          Action.grpc_resolved_addresses_destroy,
          Action.gpr_slice_unref [71],
          Action.gpr_free_host "h",
          Action.grpc_iomgr_unregister_object "HTTP:GET:h:/p",
          Action.gpr_free_req ] :=
  ⟨Ex.started,
    congrArg (fun x => (final x).trace)
      (C2_all_connects_fail Ex.P Ex.w0 _ Ex.started rfl ⟨[Ex.a1, Ex.a2]⟩).1⟩

theorem step_done_write_failed (P : Externals σ) (w : World σ)
    (status : grpc_endpoint_cb_status) (harm : w.armed = [Op.write])
    (hs : status ≠ GRPC_ENDPOINT_CB_OK) :
    step P w (Event.done_write status) = next_address P { w with armed := [] } := by
  simp only [step, Event.op, harm, List.mem_singleton, if_true, List.erase_cons_head]
  cases status
  · exact absurd rfl hs
  all_goals rfl

/-- C3 as stated fails: with two candidates, the write to the first pending
and then completed with status ERROR, the engine connects to the second
candidate and the callback is not invoked. -/
theorem C3_counterexample :
    run Ex.P Ex.w_writing [Event.done_write GRPC_ENDPOINT_CB_ERROR] =
      .ok (final (run Ex.P Ex.w_writing [Event.done_write GRPC_ENDPOINT_CB_ERROR])) ∧
    (final (run Ex.P Ex.w_writing [Event.done_write GRPC_ENDPOINT_CB_ERROR])).trace =
      Ex.w_writing.trace ++ [Action.grpc_tcp_client_connect 1 Ex.a2 Ex.deadline] ∧
    (final (run Ex.P Ex.w_writing [Event.done_write GRPC_ENDPOINT_CB_ERROR])).armed =
      [Op.connect] ∧
    callbacks (final (run Ex.P Ex.w_writing [Event.done_write GRPC_ENDPOINT_CB_ERROR])).trace =
      0 := by
  refine ⟨rfl, ?_, ?_, ?_⟩ <;> decide

/-- C3, amended. A write of the request that fails is handled in two ways.
When `grpc_endpoint_write` itself returns `GRPC_ENDPOINT_WRITE_ERROR` (the
write is attempted when the handshake completes, be it later or within
`on_connected`), the engine runs `finish(req, 0)` at once: the callback gets
a null response and no connect is issued, whatever candidates remain. When
the failure is delivered to `done_write` (status EOF, SHUTDOWN or ERROR), the
engine calls `next_address`, as after a failed connect: it finishes with a
null response when the cursor has reached the end of the list, and otherwise
connects to the next candidate and does not invoke the callback. -/
theorem C3_write_failure (P : Externals σ) (w : World σ) (r : internal_request σ)
    (hreq : w.req = some r) :
    (∀ ep : grpc_endpoint, w.armed = [Op.handshake] →
      ep.write_status = GRPC_ENDPOINT_WRITE_ERROR →
      step P w (Event.on_handshake_done (some ep)) =
        .ok { req := none, pollset_set := w.pollset_set.erase r.pollset, armed := []
              trace := w.trace ++
                [Action.gpr_slice_ref r.request_text,
                 Action.grpc_endpoint_write ep r.request_text] ++
                finish_actions P { r with ep := some ep } 0 }) ∧
    (∀ tcp ep : grpc_endpoint, w.armed = [Op.connect] →
      r.handshaker.handshake tcp r.host = handshake_result.done (some ep) →
      ep.write_status = GRPC_ENDPOINT_WRITE_ERROR →
      step P w (Event.on_connected (some tcp)) =
        .ok { req := none, pollset_set := w.pollset_set.erase r.pollset, armed := []
              trace := w.trace ++ [Action.handshake r.handshaker.default_port tcp r.host] ++
                [Action.gpr_slice_ref r.request_text,
                 Action.grpc_endpoint_write ep r.request_text] ++
                finish_actions P { r with ep := some ep } 0 }) ∧
    (∀ (ep : grpc_endpoint),
      connects ([Action.gpr_slice_ref r.request_text,
                 Action.grpc_endpoint_write ep r.request_text] ++
                finish_actions P { r with ep := some ep } 0) = [] ∧
      responses ([Action.gpr_slice_ref r.request_text,
                 Action.grpc_endpoint_write ep r.request_text] ++
                finish_actions P { r with ep := some ep } 0) = [none]) ∧
    (∀ (status : grpc_endpoint_cb_status) (a : grpc_resolved_addresses),
      w.armed = [Op.write] → status ≠ GRPC_ENDPOINT_CB_OK → r.addresses = some a →
      (r.next_address = a.naddrs →
        step P w (Event.done_write status) =
          .ok { req := none, pollset_set := w.pollset_set.erase r.pollset, armed := []
                trace := w.trace ++ finish_actions P r 0 }) ∧
      (∀ addr : grpc_resolved_address, a.addrs.get? r.next_address = some addr →
        step P w (Event.done_write status) =
          .ok { req := some { r with next_address := r.next_address + 1 }
                pollset_set := w.pollset_set, armed := [Op.connect]
                trace := w.trace ++
                  [Action.grpc_tcp_client_connect r.context addr r.deadline] })) := by
  refine ⟨?_, ?_, ?_, ?_⟩
  · intro ep harm hw
    simp [step, Event.op, harm, on_handshake_done, hreq, start_write, hw, finish]
  · intro tcp ep harm hh hw
    simp [step, Event.op, harm, on_connected, hh, on_handshake_done, hreq, start_write, hw,
      finish]
  · intro ep
    rw [connects_append, responses_append, connects_finish_actions, responses_finish_actions]
    exact ⟨rfl, rfl⟩
  · intro status a harm hs ha
    rw [step_done_write_failed P w status harm hs]
    constructor
    · intro hn
      exact next_address_exhausted P { w with armed := [] } r a hreq ha hn
    · intro addr hg
      exact next_address_connect P { w with armed := [] } r a addr hreq ha hg

theorem C3_write_failure_witness :
    Ex.w_handshaking.armed = [Op.handshake] ∧
    Ex.ep_error.write_status = GRPC_ENDPOINT_WRITE_ERROR ∧
    responses (final (step Ex.P Ex.w_handshaking
      (Event.on_handshake_done (some Ex.ep_error)))).trace = [none] ∧
    Ex.w_writing.armed = [Op.write] ∧
    (final (step Ex.P Ex.w_writing (Event.done_write GRPC_ENDPOINT_CB_EOF))).armed =
      [Op.connect] :=
  ⟨rfl, rfl,
    (congrArg (fun x => responses (final x).trace)
      ((C3_write_failure Ex.P Ex.w_handshaking _ rfl).1 Ex.ep_error rfl rfl)).trans (by decide),
    rfl,
    congrArg (fun x => (final x).armed)
      (((C3_write_failure Ex.P Ex.w_writing _ rfl).2.2.2 GRPC_ENDPOINT_CB_EOF ⟨[Ex.a1, Ex.a2]⟩
        rfl (by decide) rfl).2 Ex.a2 rfl)⟩

/-- C4, the code at two failing inputs. In both runs a stream is stored as
the current stream of the first candidate (`req->ep` holds it after two
completions), the engine then moves on to the second candidate (after a
zero-byte end of stream in the first run, after a failed pending write in
the second), whose stream replaces the stored one in `on_handshake_done`.
The run ends, the callback having been invoked once, and the only stream
passed to `grpc_endpoint_destroy` is the second: the first is never
destroyed. -/
theorem C4_stream_leaked :
    ((final (run Ex.P Ex.w0 (Ex.evs_leak_eof.take 2))).req.bind (fun r => r.ep) =
        some Ex.ep_done ∧
      run Ex.P Ex.w0 Ex.evs_leak_eof = .ok (final (run Ex.P Ex.w0 Ex.evs_leak_eof)) ∧
      (final (run Ex.P Ex.w0 Ex.evs_leak_eof)).armed = [] ∧
      callbacks (final (run Ex.P Ex.w0 Ex.evs_leak_eof)).trace = 1 ∧
      destroyed (final (run Ex.P Ex.w0 Ex.evs_leak_eof)).trace = [Ex.ep_error]) ∧
    ((final (run Ex.P Ex.w0 (Ex.evs_leak_write.take 2))).req.bind (fun r => r.ep) =
        some Ex.ep_pending ∧
      run Ex.P Ex.w0 Ex.evs_leak_write = .ok (final (run Ex.P Ex.w0 Ex.evs_leak_write)) ∧
      (final (run Ex.P Ex.w0 Ex.evs_leak_write)).armed = [] ∧
      callbacks (final (run Ex.P Ex.w0 Ex.evs_leak_write)).trace = 1 ∧
      destroyed (final (run Ex.P Ex.w0 Ex.evs_leak_write)).trace = [Ex.ep_error]) := by
  refine ⟨⟨?_, rfl, ?_, ?_, ?_⟩, ⟨?_, rfl, ?_, ?_, ?_⟩⟩ <;> decide

theorem step_on_read (P : Externals σ) (w : World σ) (slices : List gpr_slice)
    (status : grpc_endpoint_cb_status) (harm : w.armed = [Op.read]) :
    step P w (Event.on_read slices status) = on_read P { w with armed := [] } slices status := by
  simp only [step, Event.op, harm, List.mem_singleton, if_true, List.erase_cons_head]

theorem on_read_of_loop (P : Externals σ) (w : World σ) (r : internal_request σ)
    (slices : List gpr_slice) (status : grpc_endpoint_cb_status)
    (failed : Bool) (p : σ) (b : Int) (acts : List Action)
    (hreq : w.req = some r)
    (hloop : on_read_loop P r.parser r.have_read_byte slices = (failed, p, b, acts)) :
    on_read P w slices status =
      if failed then
        (finish P { w with req := some { r with parser := p, have_read_byte := b }
                           trace := w.trace ++ acts } 0).map (unref_slices slices)
      else
        match status with
        | GRPC_ENDPOINT_CB_OK =>
          (on_written { w with req := some { r with parser := p, have_read_byte := b }
                               trace := w.trace ++ acts }).map (unref_slices slices)
        | _ =>
          if b = 0 then
            (next_address P { w with req := some { r with parser := p, have_read_byte := b }
                                     trace := w.trace ++ acts }).map (unref_slices slices)
          else
            (finish P { w with req := some { r with parser := p, have_read_byte := b }
                               trace := w.trace ++ acts ++ [Action.grpc_httpcli_parser_eof] }
              (P.grpc_httpcli_parser_eof p)).map (unref_slices slices) := by
  unfold on_read
  simp only [hreq, hloop]

theorem on_read_loop_accepted (P : Externals σ) (sl : List gpr_slice) :
    ∀ (p : σ) (b : Int) (p1 : σ), feed P p sl = some p1 →
      on_read_loop P p b sl =
        (false, p1, if nonempty_chunks sl = [] then b else 1,
          (nonempty_chunks sl).map Action.grpc_httpcli_parser_parse) := by
  induction sl with
  | nil =>
    intro p b p1 h
    simp only [feed, Option.some.injEq] at h
    subst h
    rfl
  | cons s rest ih =>
    intro p b p1 h
    by_cases h1 : GPR_SLICE_LENGTH s = 0
    · rw [feed, if_pos h1] at h
      rw [on_read_loop_skip P p b s rest h1, ih p b p1 h]
      simp [nonempty_chunks, h1]
    · rw [feed, if_neg h1] at h
      by_cases h2 : (P.grpc_httpcli_parser_parse p s).1 = 0
      · rw [if_pos h2] at h; cases h
      · rw [if_neg h2] at h
        rw [on_read_loop_accept P p b s rest h1 h2, ih _ 1 p1 h]
        simp [nonempty_chunks, h1]

theorem on_read_loop_rejected (P : Externals σ) (pre : List gpr_slice) (bad : gpr_slice)
    (post : List gpr_slice) :
    ∀ (p : σ) (b : Int) (p1 : σ), feed P p pre = some p1 → GPR_SLICE_LENGTH bad ≠ 0 →
      (P.grpc_httpcli_parser_parse p1 bad).1 = 0 →
      on_read_loop P p b (pre ++ bad :: post) =
        (true, (P.grpc_httpcli_parser_parse p1 bad).2, 1,
          (nonempty_chunks pre).map Action.grpc_httpcli_parser_parse ++
            [Action.grpc_httpcli_parser_parse bad]) := by
  induction pre with
  | nil =>
    intro p b p1 h hb hr
    simp only [feed, Option.some.injEq] at h
    subst h
    rw [List.nil_append, on_read_loop_reject P p b bad post hb hr]
    rfl
  | cons s rest ih =>
    intro p b p1 h hb hr
    by_cases h1 : GPR_SLICE_LENGTH s = 0
    · rw [feed, if_pos h1] at h
      rw [List.cons_append, on_read_loop_skip P p b s _ h1, ih p b p1 h hb hr]
      simp [nonempty_chunks, h1]
    · rw [feed, if_neg h1] at h
      by_cases h2 : (P.grpc_httpcli_parser_parse p s).1 = 0
      · rw [if_pos h2] at h; cases h
      · rw [if_neg h2] at h
        rw [List.cons_append, on_read_loop_accept P p b s _ h1 h2, ih _ 1 p1 h hb hr]
        simp [nonempty_chunks, h1]

/-- C7. The loop of `on_read` feeds the chunks of a read to the parser in
order, skipping exactly the empty ones: when the parser accepts them all, the
parser calls made are those for the non-empty chunks, in order, and the
parser ends in the state `feed` gives. When the parser rejects a chunk `bad`
(non-empty, and so fed) after the chunks `pre`, the engine runs
`finish(req, 0)` right after that call: the chunks `post` behind it are not
parsed, no read is armed, no connect is issued, the callback gets a null
response, and the run has ended. This holds for every status of the read
and every value of `have_read_byte`. -/
theorem C7_parse_failure (P : Externals σ) (w : World σ) (r : internal_request σ)
    (hreq : w.req = some r) (harm : w.armed = [Op.read]) :
    (∀ (slices : List gpr_slice) (p1 : σ), feed P r.parser slices = some p1 →
      on_read_loop P r.parser r.have_read_byte slices =
        (false, p1, if nonempty_chunks slices = [] then r.have_read_byte else 1,
          (nonempty_chunks slices).map Action.grpc_httpcli_parser_parse)) ∧
    (∀ (pre : List gpr_slice) (bad : gpr_slice) (post : List gpr_slice)
      (status : grpc_endpoint_cb_status) (p1 : σ),
      feed P r.parser pre = some p1 → GPR_SLICE_LENGTH bad ≠ 0 →
      (P.grpc_httpcli_parser_parse p1 bad).1 = 0 →
      step P w (Event.on_read (pre ++ bad :: post) status) =
        .ok { req := none, pollset_set := w.pollset_set.erase r.pollset, armed := []
              trace := w.trace ++
                ((nonempty_chunks pre).map Action.grpc_httpcli_parser_parse ++
                  [Action.grpc_httpcli_parser_parse bad]) ++
                finish_actions P
                  { r with parser := (P.grpc_httpcli_parser_parse p1 bad).2
                           have_read_byte := 1 } 0 ++
                (pre ++ bad :: post).map Action.gpr_slice_unref } ∧
      responses (finish_actions P
                  { r with parser := (P.grpc_httpcli_parser_parse p1 bad).2
                           have_read_byte := 1 } 0) = [none] ∧
      connects (finish_actions P
                  { r with parser := (P.grpc_httpcli_parser_parse p1 bad).2
                           have_read_byte := 1 } 0) = [] ∧
      (finish_actions P
                  { r with parser := (P.grpc_httpcli_parser_parse p1 bad).2
                           have_read_byte := 1 } 0).countP Action.is_stream_call = 0) := by
  refine ⟨fun slices p1 h => on_read_loop_accepted P slices r.parser r.have_read_byte p1 h, ?_⟩
  intro pre bad post status p1 hfeed hbad hrej
  refine ⟨?_, ?_, connects_finish_actions P _ 0, stream_calls_finish_actions P _ 0⟩
  · rw [step_on_read P w _ status harm,
      on_read_of_loop P { w with armed := [] } r _ status _ _ _ _ hreq
        (on_read_loop_rejected P pre bad post r.parser r.have_read_byte p1 hfeed hbad hrej)]
    simp [finish, Except.map, unref_slices]
  · rw [responses_finish_actions]; rfl

theorem C7_parse_failure_witness :
    Ex.w_reading.armed = [Op.read] ∧
    feed Ex.P 0 [[], [1]] = some 1 ∧
    (final (step Ex.P Ex.w_reading
        (Event.on_read [[], [1], [255, 0], [2]] GRPC_ENDPOINT_CB_OK))).trace =
      Ex.w_reading.trace ++
        [ Action.grpc_httpcli_parser_parse [1], Action.grpc_httpcli_parser_parse [255, 0],
          Action.grpc_pollset_set_del_pollset 1 9,
          Action.on_response 11 12 none,
          Action.grpc_httpcli_parser_destroy,
          Action.grpc_resolved_addresses_destroy,
          Action.grpc_endpoint_destroy Ex.ep_done,
          Action.gpr_slice_unref [71],
          Action.gpr_free_host "h",
          Action.grpc_iomgr_unregister_object "HTTP:GET:h:/p",
          Action.gpr_free_req,
          Action.gpr_slice_unref [], Action.gpr_slice_unref [1],
          Action.gpr_slice_unref [255, 0], Action.gpr_slice_unref [2] ] :=
  ⟨rfl, rfl,
    (congrArg (fun x => (final x).trace)
      ((C7_parse_failure Ex.P Ex.w_reading _ rfl rfl).2 [[], [1]] [255, 0] [[2]]
        GRPC_ENDPOINT_CB_OK 1 rfl (by decide) rfl).1).trans (by decide)⟩

theorem Started.connects {P : Externals σ} {w0 : World σ} (h : Started P w0) :
    connects w0.trace = [] := by
  obtain ⟨g, ps, ctx, pollset, request, deadline, cb, ud, h | ⟨body, h⟩⟩ := h
  · obtain ⟨hc, rfl⟩ := h
    unfold grpc_httpcli_get
    simp only [hc]
    unfold get_override_check idle
    cases g.g_get_override <;> rfl
  · obtain ⟨hc, rfl⟩ := h
    unfold grpc_httpcli_post
    simp only [hc]
    unfold post_override_check idle
    cases g.g_post_override <;> rfl

theorem run_finished (P : Externals σ) (w : World σ) (e : Event) (evs : List Event)
    (h : w.armed = []) : run P w (e :: evs) = .error Fault.not_armed := by
  simp [run, step, h]

/-- C8. When the resolver completes with a null address list, the engine
runs `finish(req, 0)` at once; when it completes with a list of zero
addresses, `next_address` finds the cursor at the end and does the same. In
both cases the callback is invoked once, with a null response, no connect
has been issued, and the run has ended: nothing is armed, so that no later
completion is handled. -/
theorem C8_resolution_failure (P : Externals σ) (w0 : World σ) (r0 : internal_request σ)
    (h0 : Started P w0) (hr : w0.req = some r0) :
    run P w0 [Event.on_resolved none] =
      .ok { req := none, pollset_set := w0.pollset_set.erase r0.pollset, armed := []
            trace := w0.trace ++ finish_actions P r0 0 } ∧
    run P w0 [Event.on_resolved (some ⟨[]⟩)] =
      .ok { req := none, pollset_set := w0.pollset_set.erase r0.pollset, armed := []
            trace := w0.trace ++
              finish_actions P { r0 with addresses := some ⟨[]⟩, next_address := 0 } 0 } ∧
    (∀ r : internal_request σ,
      responses (w0.trace ++ finish_actions P r 0) = responses w0.trace ++ [none] ∧
      callbacks (w0.trace ++ finish_actions P r 0) = 1 ∧
      connects (w0.trace ++ finish_actions P r 0) = []) ∧
    (∀ (e : Event) (evs : List Event),
      run P w0 (Event.on_resolved none :: e :: evs) = .error Fault.not_armed ∧
      run P w0 (Event.on_resolved (some ⟨[]⟩) :: e :: evs) = .error Fault.not_armed) := by
  obtain ⟨r, hr2, harm, _, _, _, _, hcb⟩ := h0.req
  rw [hr] at hr2
  cases hr2
  have e1 : step P w0 (Event.on_resolved none) =
      .ok { req := none, pollset_set := w0.pollset_set.erase r0.pollset, armed := []
            trace := w0.trace ++ finish_actions P r0 0 } := by
    simp [step, Event.op, harm, on_resolved, finish, hr]
  have e2 : step P w0 (Event.on_resolved (some ⟨[]⟩)) =
      .ok { req := none, pollset_set := w0.pollset_set.erase r0.pollset, armed := []
            trace := w0.trace ++
              finish_actions P { r0 with addresses := some ⟨[]⟩, next_address := 0 } 0 } := by
    simp [step, Event.op, harm, on_resolved, hr, next_address, finish,
      grpc_resolved_addresses.naddrs]
  refine ⟨?_, ?_, ?_, ?_⟩
  · simp only [run, e1]
  · simp only [run, e2]
  · intro r
    refine ⟨?_, ?_, ?_⟩
    · rw [responses_append, responses_finish_actions]; rfl
    · rw [callbacks_append, hcb, callbacks_finish_actions]
    · rw [connects_append, h0.connects, connects_finish_actions]; rfl
  · intro e evs
    constructor
    · rw [run, e1]
      exact run_finished P _ e evs rfl
    · rw [run, e2]
      exact run_finished P _ e evs rfl

theorem C8_resolution_failure_witness :
    Started Ex.P Ex.w0 ∧
    (final (run Ex.P Ex.w0 [Event.on_resolved none])).trace =
      Ex.w0.trace ++
        [ Action.grpc_pollset_set_del_pollset 1 9,
          Action.on_response 11 12 none,
          Action.grpc_httpcli_parser_destroy,
          Action.gpr_slice_unref [71],
          Action.gpr_free_host "h",
          Action.grpc_iomgr_unregister_object "HTTP:GET:h:/p",
          Action.gpr_free_req ] ∧
    (final (run Ex.P Ex.w0 [Event.on_resolved (some ⟨[]⟩)])).trace =
      Ex.w0.trace ++
        [ Action.grpc_pollset_set_del_pollset 1 9,
          Action.on_response 11 12 none,
          Action.grpc_httpcli_parser_destroy,
          Action.grpc_resolved_addresses_destroy,
          Action.gpr_slice_unref [71],
          Action.gpr_free_host "h",
          Action.grpc_iomgr_unregister_object "HTTP:GET:h:/p",
          Action.gpr_free_req ] :=
  ⟨Ex.started,
    congrArg (fun x => (final x).trace) (C8_resolution_failure Ex.P Ex.w0 _ Ex.started rfl).1,
    congrArg (fun x => (final x).trace)
      (C8_resolution_failure Ex.P Ex.w0 _ Ex.started rfl).2.1⟩

/-- C10. When the GET (resp. POST) hook is set and returns non-zero,
`grpc_httpcli_get` (resp. `grpc_httpcli_post`) does nothing but call the
hook: the in-flight state is not allocated, the pollset set of the context
and the armed operations are as before, and neither `gpr_malloc` nor
`grpc_iomgr_register_object`, `grpc_pollset_set_add_pollset` or
`grpc_resolve_address` is called. When the hook is unset, or set and
returning zero, the engine is started (`start_engine`, after the call of the
hook if there is one). `grpc_httpcli_set_override` sets the two hooks to the
two values given. -/
theorem C10_override_hooks (P : Externals σ) (g : Globals) (w : World σ)
    (context pollset : Nat) (request : grpc_httpcli_request) (body_bytes : List Nat)
    (deadline : gpr_timespec) (on_response user_data : Nat) :
    (∀ hook, g.g_get_override = some hook →
      hook request deadline on_response user_data ≠ 0 →
      grpc_httpcli_get P g w context pollset request deadline on_response user_data =
        { req := w.req, pollset_set := w.pollset_set, armed := w.armed
          trace := w.trace ++ [Action.g_get_override] }) ∧
    (∀ hook, g.g_post_override = some hook →
      hook request body_bytes deadline on_response user_data ≠ 0 →
      grpc_httpcli_post P g w context pollset request body_bytes deadline on_response
          user_data =
        { req := w.req, pollset_set := w.pollset_set, armed := w.armed
          trace := w.trace ++ [Action.g_post_override] }) ∧
    (g.g_get_override = none →
      grpc_httpcli_get P g w context pollset request deadline on_response user_data =
        start_engine P w (P.grpc_httpcli_format_get_request request)
          Action.grpc_httpcli_format_get_request context pollset request deadline
          on_response user_data) ∧
    (∀ hook, g.g_get_override = some hook →
      hook request deadline on_response user_data = 0 →
      grpc_httpcli_get P g w context pollset request deadline on_response user_data =
        start_engine P { w with trace := w.trace ++ [Action.g_get_override] }
          (P.grpc_httpcli_format_get_request request)
          Action.grpc_httpcli_format_get_request context pollset request deadline
          on_response user_data) ∧
    (g.g_post_override = none →
      grpc_httpcli_post P g w context pollset request body_bytes deadline on_response
          user_data =
        start_engine P w (P.grpc_httpcli_format_post_request request body_bytes)
          Action.grpc_httpcli_format_post_request context pollset request deadline
          on_response user_data) ∧
    (∀ hook, g.g_post_override = some hook →
      hook request body_bytes deadline on_response user_data = 0 →
      grpc_httpcli_post P g w context pollset request body_bytes deadline on_response
          user_data =
        start_engine P { w with trace := w.trace ++ [Action.g_post_override] }
          (P.grpc_httpcli_format_post_request request body_bytes)
          Action.grpc_httpcli_format_post_request context pollset request deadline
          on_response user_data) ∧
    (∀ get post,
      (grpc_httpcli_set_override g get post).g_get_override = get ∧
      (grpc_httpcli_set_override g get post).g_post_override = post) := by
  refine ⟨?_, ?_, ?_, ?_, ?_, ?_, fun _ _ => ⟨rfl, rfl⟩⟩
  · intro hook hg hne
    simp [grpc_httpcli_get, get_override_check, hg, hne]
  · intro hook hg hne
    simp [grpc_httpcli_post, post_override_check, hg, hne]
  · intro hg
    simp only [grpc_httpcli_get, get_override_check, hg, start_engine]
    cases request.handshaker <;> rfl
  · intro hook hg hz
    simp only [grpc_httpcli_get, get_override_check, hg, hz, start_engine]
    cases request.handshaker <;> rfl
  · intro hg
    simp only [grpc_httpcli_post, post_override_check, hg, start_engine]
    cases request.handshaker <;> rfl
  · intro hook hg hz
    simp only [grpc_httpcli_post, post_override_check, hg, hz, start_engine]
    cases request.handshaker <;> rfl

theorem C10_override_hooks_witness :
    (grpc_httpcli_get Ex.P Ex.g_claims (idle [7]) 1 9 Ex.request Ex.deadline 11 12).req.isNone =
      true ∧
    (grpc_httpcli_get Ex.P Ex.g_claims (idle [7]) 1 9 Ex.request Ex.deadline 11 12).trace =
      [Action.g_get_override] ∧
    (grpc_httpcli_get Ex.P Ex.g_claims (idle [7]) 1 9 Ex.request Ex.deadline 11
      12).pollset_set = [7] ∧
    (grpc_httpcli_post Ex.P Ex.g_declines (idle [7]) 1 9 Ex.request [1, 2] Ex.deadline 11
      12).trace =
      [ Action.g_post_override, Action.gpr_malloc, Action.grpc_httpcli_format_post_request,
        Action.grpc_httpcli_parser_init, Action.grpc_iomgr_register_object "HTTP:GET:h:/p",
        Action.grpc_pollset_set_add_pollset 1 9, Action.grpc_resolve_address "h" "http" ] :=
  ⟨congrArg (fun x => x.req.isNone)
      ((C10_override_hooks Ex.P Ex.g_claims (idle [7]) 1 9 Ex.request [] Ex.deadline 11 12).1
        (fun _ _ _ _ => 1) rfl (by decide)),
    congrArg (fun x => x.trace)
      ((C10_override_hooks Ex.P Ex.g_claims (idle [7]) 1 9 Ex.request [] Ex.deadline 11 12).1
        (fun _ _ _ _ => 1) rfl (by decide)),
    congrArg (fun x => x.pollset_set)
      ((C10_override_hooks Ex.P Ex.g_claims (idle [7]) 1 9 Ex.request [] Ex.deadline 11 12).1
        (fun _ _ _ _ => 1) rfl (by decide)),
    (congrArg (fun x => x.trace)
      ((C10_override_hooks Ex.P Ex.g_declines (idle [7]) 1 9 Ex.request [1, 2] Ex.deadline 11
        12).2.2.2.2.2.1 (fun _ _ _ _ _ => 0) rfl rfl)).trans (by decide)⟩

theorem on_read_loop_spec (P : Externals σ) (sl : List gpr_slice) :
    ∀ (p : σ) (b : Int),
      (b ≠ 0 → (on_read_loop P p b sl).2.2.1 ≠ 0) ∧
      ∀ a ∈ (on_read_loop P p b sl).2.2.2, ∃ s, a = Action.grpc_httpcli_parser_parse s := by
  induction sl with
  | nil => intro p b; exact ⟨fun h => h, fun a ha => by simp [on_read_loop] at ha⟩
  | cons s rest ih =>
    intro p b
    by_cases h1 : GPR_SLICE_LENGTH s = 0
    · rw [on_read_loop_skip P p b s rest h1]
      exact ih p b
    · by_cases h2 : (P.grpc_httpcli_parser_parse p s).1 = 0
      · rw [on_read_loop_reject P p b s rest h1 h2]
        refine ⟨fun _ => one_ne_zero, fun a ha => ⟨s, by simpa using ha⟩⟩
      · rw [on_read_loop_accept P p b s rest h1 h2]
        obtain ⟨i1, i2⟩ := ih (P.grpc_httpcli_parser_parse p s).2 1
        refine ⟨fun _ => i1 one_ne_zero, fun a ha => ?_⟩
        simp only [List.mem_cons] at ha
        rcases ha with ha | ha
        · exact ⟨s, ha⟩
        · exact i2 a ha

theorem after_commit_finish_actions (P : Externals σ) (r : internal_request σ) (s : Int)
    (ep : grpc_endpoint) : ∀ a ∈ finish_actions P r s, Action.after_commit ep a = true := by
  have h : (finish_actions P r s).all (Action.after_commit ep) = true := by
    unfold finish_actions
    cases r.addresses <;> cases r.ep <;> rfl
  exact fun a ha => List.all_eq_true.mp h a ha

theorem connects_of_after_commit (ep : grpc_endpoint) (acts : List Action)
    (h : ∀ a ∈ acts, Action.after_commit ep a = true) : connects acts = [] := by
  induction acts with
  | nil => rfl
  | cons x xs ih =>
    have hx := h x (List.mem_cons_self _ _)
    have := ih (fun a ha => h a (List.mem_cons_of_mem _ ha))
    cases x <;> simp [Action.after_commit] at hx <;> simpa [connects] using this

theorem step_committed (P : Externals σ) (ep : grpc_endpoint) (t1 : List Action)
    (w w1 : World σ) (e : Event) (hC : CommittedTo ep t1 w) (hs : step P w e = .ok w1) :
    CommittedTo ep t1 w1 := by
  obtain ⟨⟨acts0, ht0, hall0⟩, hst⟩ := hC
  rcases hst with ⟨_, harm⟩ | ⟨r, hreq, hb, hep, harm⟩
  · simp [step, harm] at hs
  · have hop : e.op = Op.read := by
      by_contra hne
      simp [step, harm, hne] at hs
    cases e with
    | on_read sl st =>
      rw [step_on_read P w sl st harm] at hs
      obtain ⟨hb1, hacts⟩ := on_read_loop_spec P sl r.parser r.have_read_byte
      rcases hl : on_read_loop P r.parser r.have_read_byte sl with ⟨failed, p, b, acts⟩
      rw [hl] at hb1 hacts
      simp only at hb1 hacts
      have hb2 : b ≠ 0 := hb1 hb
      have hparse : ∀ a ∈ acts, Action.after_commit ep a = true := by
        intro a ha
        obtain ⟨s, rfl⟩ := hacts a ha
        rfl
      have hunref : ∀ a ∈ sl.map Action.gpr_slice_unref, Action.after_commit ep a = true := by
        intro a ha
        obtain ⟨s, _, rfl⟩ := List.mem_map.mp ha
        rfl
      rw [on_read_of_loop P { w with armed := [] } r sl st failed p b acts hreq hl] at hs
      cases failed with
      | true =>
        simp only [if_true, finish, Except.map, unref_slices, Except.ok.injEq] at hs
        subst hs
        refine ⟨⟨acts0 ++ acts ++ finish_actions P { r with parser := p, have_read_byte := b } 0 ++
            sl.map Action.gpr_slice_unref,
          by simp [ht0], ?_⟩, Or.inl ⟨rfl, rfl⟩⟩
        intro a ha
        simp only [List.mem_append] at ha
        rcases ha with ((ha | ha) | ha) | ha
        · exact hall0 a ha
        · exact hparse a ha
        · exact after_commit_finish_actions P _ 0 ep a ha
        · exact hunref a ha
      | false =>
        cases st with
        | GRPC_ENDPOINT_CB_OK =>
          simp only [Bool.false_eq_true, if_false, on_written, hep, Except.map, unref_slices,
            Except.ok.injEq] at hs
          subst hs
          refine ⟨⟨acts0 ++ acts ++ [Action.grpc_endpoint_notify_on_read ep] ++
            sl.map Action.gpr_slice_unref, by simp [ht0], ?_⟩,
            Or.inr ⟨_, rfl, hb2, rfl, rfl⟩⟩
          intro a ha
          simp only [List.mem_append, List.mem_singleton] at ha
          rcases ha with ((ha | ha) | ha) | ha
          · exact hall0 a ha
          · exact hparse a ha
          · subst ha; simp [Action.after_commit]
          · exact hunref a ha
        | _ =>
          simp only [Bool.false_eq_true, if_false, if_neg hb2, finish, Except.map, unref_slices,
            Except.ok.injEq] at hs
          subst hs
          refine ⟨⟨acts0 ++ acts ++ [Action.grpc_httpcli_parser_eof] ++
            finish_actions P { r with parser := p, have_read_byte := b }
              (P.grpc_httpcli_parser_eof p) ++
            sl.map Action.gpr_slice_unref, by simp [ht0], ?_⟩, Or.inl ⟨rfl, rfl⟩⟩
          intro a ha
          simp only [List.mem_append, List.mem_singleton] at ha
          rcases ha with (((ha | ha) | ha) | ha) | ha
          · exact hall0 a ha
          · exact hparse a ha
          · subst ha; rfl
          · exact after_commit_finish_actions P _ _ ep a ha
          · exact hunref a ha
    | _ => simp [Event.op] at hop

theorem run_committed (P : Externals σ) (ep : grpc_endpoint) (t1 : List Action)
    (evs : List Event) :
    ∀ (w w1 : World σ), CommittedTo ep t1 w → run P w evs = .ok w1 → CommittedTo ep t1 w1 := by
  induction evs with
  | nil =>
    intro w w1 hC h
    simp only [run, Except.ok.injEq] at h
    exact h ▸ hC
  | cons e es ih =>
    intro w w1 hC h
    rw [run] at h
    cases hs : step P w e with
    | error f => rw [hs] at h; cases h
    | ok w2 =>
      rw [hs] at h
      exact ih w2 w1 (step_committed P ep t1 w w2 e hC hs) h

/-- C9. In a run of a request, once `have_read_byte` is set in the in-flight
state, a read on the current stream is the one armed operation, and from
then on, whatever completions follow: no connect is issued (the addresses
connected to stay the same); the only calls the engine makes are parser
calls, arming a read on that same stream, the calls of `finish` and the
release of read slices; and the engine has either finished or has a read
armed on that same stream, `have_read_byte` still set. -/
theorem C9_no_connect_after_first_byte (P : Externals σ) (w0 w1 : World σ)
    (r1 : internal_request σ) (evs1 : List Event) (h0 : Started P w0)
    (h1 : run P w0 evs1 = .ok w1) (hr : w1.req = some r1) (hb : r1.have_read_byte ≠ 0) :
    r1.ep ≠ none ∧ w1.armed = [Op.read] ∧
      ∀ (evs2 : List Event) (w2 : World σ), run P w1 evs2 = .ok w2 →
        connects w2.trace = connects w1.trace ∧
        (∃ acts, w2.trace = w1.trace ++ acts ∧
          ∀ ep, r1.ep = some ep → ∀ a ∈ acts, Action.after_commit ep a = true) ∧
        ((w2.req = none ∧ w2.armed = []) ∨
          (∃ r2, w2.req = some r2 ∧ r2.have_read_byte ≠ 0 ∧ r2.ep = r1.ep ∧
            w2.armed = [Op.read])) := by
  have hG := (run_good P evs1 w0 h0.good).2 w1 h1
  have hI := hG.1
  unfold Inv at hI
  simp only [hr] at hI
  obtain ⟨op, hop, hinv⟩ := hI
  cases op with
  | read =>
    obtain ⟨_, hep⟩ := hinv
    cases hep1 : r1.ep with
    | none => exact absurd hep1 hep
    | some ep =>
      refine ⟨by simp, hop, fun evs2 w2 h2 => ?_⟩
      have hC : CommittedTo ep w1.trace w1 :=
        ⟨⟨[], by simp, by simp⟩, Or.inr ⟨r1, hr, hb, hep1, hop⟩⟩
      obtain ⟨⟨acts, ht, hall⟩, hst⟩ := run_committed P ep w1.trace evs2 w1 w2 hC h2
      refine ⟨?_, ⟨acts, ht, fun e he => ?_⟩, hst⟩
      · rw [ht, connects_append, connects_of_after_commit ep acts hall, List.append_nil]
      · cases he
        exact hall
  | resolve => exact absurd hinv.2.2 hb
  | connect => exact absurd hinv.2 hb
  | handshake => exact absurd hinv.2 hb
  | write => exact absurd hinv.2.1 hb

theorem C9_no_connect_after_first_byte_witness :
    Started Ex.P Ex.w0 ∧
    connects (final (run Ex.P Ex.w_committed
        [Event.on_read [] GRPC_ENDPOINT_CB_OK, Event.on_read [] GRPC_ENDPOINT_CB_EOF])).trace =
      [Ex.a1] :=
  ⟨Ex.started,
    ((C9_no_connect_after_first_byte Ex.P Ex.w0 Ex.w_committed _
        [ Event.on_resolved (some ⟨[Ex.a1, Ex.a2]⟩), Event.on_connected (some Ex.ep_done),
          Event.on_read [[1, 2]] GRPC_ENDPOINT_CB_OK ]
        Ex.started rfl rfl (by decide)).2.2
      [Event.on_read [] GRPC_ENDPOINT_CB_OK, Event.on_read [] GRPC_ENDPOINT_CB_EOF] _ rfl).1.trans
      (by decide)⟩

theorem SameRequest.refl (r : internal_request σ) : SameRequest r r :=
  ⟨rfl, rfl, rfl, rfl, rfl, rfl, rfl, rfl, rfl⟩

theorem SameRequest.trans {r r1 r2 : internal_request σ} (h1 : SameRequest r r1)
    (h2 : SameRequest r1 r2) : SameRequest r r2 :=
  ⟨h2.request_text.trans h1.request_text, h2.host.trans h1.host,
    h2.deadline.trans h1.deadline, h2.handshaker.trans h1.handshaker,
    h2.on_response.trans h1.on_response, h2.user_data.trans h1.user_data,
    h2.context.trans h1.context, h2.pollset.trans h1.pollset,
    h2.iomgr_obj.trans h1.iomgr_obj⟩

theorem Quiet.nil : Quiet [] := rfl

theorem Quiet.append {a b : List Action} (ha : Quiet a) (hb : Quiet b) : Quiet (a ++ b) := by
  unfold Quiet at *
  rw [List.all_append, ha, hb]; rfl

theorem Quiet.unref (sl : List gpr_slice) : Quiet (sl.map Action.gpr_slice_unref) := by
  unfold Quiet
  induction sl with
  | nil => rfl
  | cons s rest ih => simp [Action.quiet]

theorem Quiet.on_read_loop (P : Externals σ) (sl : List gpr_slice) (p : σ) (b : Int) :
    Quiet (on_read_loop P p b sl).2.2.2 := by
  unfold Quiet
  rw [List.all_eq_true]
  intro x hx
  obtain ⟨s, rfl⟩ := (on_read_loop_spec P sl p b).2 x hx
  rfl

theorem finish_shape (P : Externals σ) {t0 : List Action} {ps : List Nat}
    {r r1 : internal_request σ} {w : World σ}
    (s : Int) (a0 : grpc_resolved_addresses) (k0 : Nat)
    (hreq : w.req = some r1) (harm : w.armed = []) (hsame : SameRequest r r1)
    (hps : w.pollset_set = ps) (ht : ∃ pre, w.trace = t0 ++ pre ∧ Quiet pre) :
    ∃ w1, finish P w s = .ok w1 ∧ Shape P t0 ps r a0 k0 [] w1 := by
  obtain ⟨pre, ht, hq⟩ := ht
  refine ⟨_, finish_ok P w r1 s hreq, Or.inr (Or.inr ⟨r1, s, pre, rfl, harm, hsame, ?_, ?_, hq⟩)⟩
  · simp [hps, hsame.pollset]
  · simp [ht]

theorem next_address_shape (P : Externals σ) {t0 : List Action} {ps : List Nat}
    {r r1 : internal_request σ} {a : grpc_resolved_addresses} {k : Nat} {w : World σ}
    (h : Entry t0 ps r a k w r1) :
    ∃ w1, next_address P w = .ok w1 ∧ Shape P t0 ps r a k [] w1 := by
  by_cases he : r1.next_address = a.naddrs
  · rw [next_address_exhausted P w r1 a h.req h.addresses he]
    obtain ⟨w1, h1, h2⟩ := finish_shape (r := r) P 0 a k h.req h.armed h.same h.pollset_set h.trace
    rw [finish_ok P w r1 0 h.req] at h1
    exact ⟨w1, h1, h2⟩
  · have hlt : k < a.addrs.length := by
      have := h.bound
      rw [← h.cursor] at this ⊢
      exact lt_of_le_of_ne this he
    have hg : a.addrs.get? r1.next_address = some (a.addrs.get ⟨k, hlt⟩) := by
      rw [h.cursor, List.get?_eq_get hlt]
    rw [next_address_connect P w r1 a _ h.req h.addresses hg]
    obtain ⟨pre, ht, hq⟩ := h.trace
    refine ⟨_, rfl, Or.inr (Or.inl ⟨_, a.addrs.get ⟨k, hlt⟩, pre, [], rfl, ?_, h.addresses, ?_,
      ?_, h.pollset_set, ?_, hq, Quiet.nil⟩)⟩
    · exact ⟨h.same.request_text, h.same.host, h.same.deadline, h.same.handshaker,
        h.same.on_response, h.same.user_data, h.same.context, h.same.pollset, h.same.iomgr_obj⟩
    · simp [h.cursor]
    · rw [List.get?_eq_get hlt]
    · simp [ht, h.same.context, h.same.deadline]

theorem on_written_shape (P : Externals σ) {t0 : List Action} {ps : List Nat}
    {r r1 : internal_request σ} {a : grpc_resolved_addresses} {k : Nat} {w : World σ}
    (h : Entry t0 ps r a k w r1) (he : r1.ep ≠ none) :
    ∃ w1, on_written w = .ok w1 ∧ Shape P t0 ps r a k [] w1 := by
  unfold on_written
  simp only [h.req]
  cases hep : r1.ep with
  | none => exact absurd hep he
  | some ep =>
    obtain ⟨pre, ht, hq⟩ := h.trace
    refine ⟨_, rfl, Or.inl ⟨r1, pre ++ [Action.grpc_endpoint_notify_on_read ep], rfl, h.same,
      h.addresses, h.cursor, h.pollset_set, by simp [ht], Quiet.append hq rfl⟩⟩

theorem Entry.push {t0 : List Action} {ps : List Nat} {r r1 : internal_request σ}
    {a : grpc_resolved_addresses} {k : Nat} {w : World σ} (h : Entry t0 ps r a k w r1)
    (r2 : internal_request σ) (acts : List Action) (hs : SameRequest r1 r2)
    (ha : r2.addresses = r1.addresses) (hk : r2.next_address = r1.next_address)
    (hq : Quiet acts) :
    Entry t0 ps r a k
      { req := some r2, pollset_set := w.pollset_set, armed := [], trace := w.trace ++ acts }
      r2 := by
  obtain ⟨pre, ht, hq0⟩ := h.trace
  exact ⟨rfl, rfl, h.same.trans hs, ha.trans h.addresses, hk.trans h.cursor, h.bound,
    h.pollset_set, pre ++ acts, by simp [ht], Quiet.append hq0 hq⟩

theorem start_write_shape (P : Externals σ) {t0 : List Action} {ps : List Nat}
    {r r1 : internal_request σ} {a : grpc_resolved_addresses} {k : Nat} {w : World σ}
    (h : Entry t0 ps r a k w r1) (he : r1.ep ≠ none) :
    ∃ w1, start_write P w = .ok w1 ∧ Shape P t0 ps r a k [] w1 := by
  unfold start_write
  simp only [h.req]
  cases hep : r1.ep with
  | none => exact absurd hep he
  | some ep =>
    simp only []
    have h2 := h.push r1 [Action.gpr_slice_ref r1.request_text,
      Action.grpc_endpoint_write ep r1.request_text] (SameRequest.refl r1) rfl rfl rfl
    cases ep.write_status with
    | GRPC_ENDPOINT_WRITE_DONE =>
      simp only [h.armed]
      exact on_written_shape P h2 he
    | GRPC_ENDPOINT_WRITE_PENDING =>
      obtain ⟨pre, ht, hq⟩ := h2.trace
      exact ⟨_, rfl, Or.inl ⟨r1, pre, rfl, h.same, h.addresses, h.cursor, h.pollset_set, ht, hq⟩⟩
    | GRPC_ENDPOINT_WRITE_ERROR =>
      simp only [h.armed]
      exact finish_shape P 0 a k h2.req h2.armed h2.same h2.pollset_set h2.trace

theorem on_handshake_done_shape (P : Externals σ) {t0 : List Action} {ps : List Nat}
    {r r1 : internal_request σ} {a : grpc_resolved_addresses} {k : Nat} {w : World σ}
    (h : Entry t0 ps r a k w r1) (ep : Option grpc_endpoint) :
    ∃ w1, on_handshake_done P w ep = .ok w1 ∧ Shape P t0 ps r a k [] w1 := by
  unfold on_handshake_done
  cases ep with
  | none => exact next_address_shape P h
  | some e =>
    simp only [h.req]
    have h2 := h.push { r1 with ep := some e } [] ⟨rfl, rfl, rfl, rfl, rfl, rfl, rfl, rfl, rfl⟩
      rfl rfl Quiet.nil
    simp only [List.append_nil] at h2
    rw [← h.armed] at h2
    exact start_write_shape P h2 (by simp)

theorem on_connected_shape (P : Externals σ) {t0 : List Action} {ps : List Nat}
    {r r1 : internal_request σ} {a : grpc_resolved_addresses} {k : Nat} {w : World σ}
    (h : Entry t0 ps r a k w r1) (tcp : Option grpc_endpoint) :
    ∃ w1, on_connected P w tcp = .ok w1 ∧ Shape P t0 ps r a k [] w1 := by
  unfold on_connected
  cases tcp with
  | none => exact next_address_shape P h
  | some t =>
    simp only [h.req]
    have h2 := h.push r1 [Action.handshake r1.handshaker.default_port t r1.host]
      (SameRequest.refl r1) rfl rfl rfl
    cases r1.handshaker.handshake t r1.host with
    | done ep =>
      simp only [h.armed]
      exact on_handshake_done_shape P h2 ep
    | pending =>
      obtain ⟨pre, ht, hq⟩ := h2.trace
      exact ⟨_, rfl, Or.inl ⟨r1, pre, rfl, h.same, h.addresses, h.cursor, h.pollset_set, ht, hq⟩⟩

theorem done_write_shape (P : Externals σ) {t0 : List Action} {ps : List Nat}
    {r r1 : internal_request σ} {a : grpc_resolved_addresses} {k : Nat} {w : World σ}
    (h : Entry t0 ps r a k w r1) (he : r1.ep ≠ none) (s : grpc_endpoint_cb_status) :
    ∃ w1, done_write P w s = .ok w1 ∧ Shape P t0 ps r a k [] w1 := by
  cases s
  · exact on_written_shape P h he
  all_goals exact next_address_shape P h

theorem Shape.after_unref {P : Externals σ} {t0 : List Action} {ps : List Nat}
    {r : internal_request σ} {a : grpc_resolved_addresses} {k : Nat} (sl : List gpr_slice)
    (x : Except Fault (World σ)) (h : ∃ w1, x = .ok w1 ∧ Shape P t0 ps r a k [] w1) :
    ∃ w1, x.map (unref_slices sl) = .ok w1 ∧ Shape P t0 ps r a k sl w1 := by
  obtain ⟨w1, rfl, hs⟩ := h
  refine ⟨unref_slices sl w1, rfl, ?_⟩
  rcases hs with ⟨r1, acts, h1, h2, h3, h4, h5, h6, h7⟩ |
    ⟨r1, addr, pre, post, h1, h2, h3, h4, h5, h6, h7, h8, h9⟩ |
    ⟨r1, s, pre, h1, h2, h3, h4, h5, h6⟩
  · exact Or.inl ⟨r1, acts ++ sl.map Action.gpr_slice_unref, h1, h2, h3, h4, h5,
      by simp [unref_slices, h6], Quiet.append h7 (Quiet.unref sl)⟩
  · exact Or.inr (Or.inl ⟨r1, addr, pre, post ++ sl.map Action.gpr_slice_unref, h1, h2, h3, h4,
      h5, h6, by simp [unref_slices, h7], h8, Quiet.append h9 (Quiet.unref sl)⟩)
  · exact Or.inr (Or.inr ⟨r1, s, pre, h1, h2, h3, h4, by simp [unref_slices, h5], h6⟩)

theorem on_read_shape (P : Externals σ) {t0 : List Action} {ps : List Nat}
    {r r1 : internal_request σ} {a : grpc_resolved_addresses} {k : Nat} {w : World σ}
    (h : Entry t0 ps r a k w r1) (he : r1.ep ≠ none) (sl : List gpr_slice)
    (s : grpc_endpoint_cb_status) :
    ∃ w1, on_read P w sl s = .ok w1 ∧ Shape P t0 ps r a k sl w1 := by
  rcases hl : on_read_loop P r1.parser r1.have_read_byte sl with ⟨failed, p, b, acts⟩
  have hq : Quiet acts := by
    have := Quiet.on_read_loop P sl r1.parser r1.have_read_byte
    rw [hl] at this
    exact this
  rw [on_read_of_loop P w r1 sl s failed p b acts h.req hl]
  have h2 := h.push { r1 with parser := p, have_read_byte := b } acts
    ⟨rfl, rfl, rfl, rfl, rfl, rfl, rfl, rfl, rfl⟩ rfl rfl hq
  rw [← h.armed] at h2
  cases failed with
  | true =>
    simp only [if_true]
    exact Shape.after_unref sl _ (finish_shape P 0 a k h2.req h2.armed h2.same h2.pollset_set h2.trace)
  | false =>
    cases s with
    | GRPC_ENDPOINT_CB_OK =>
      simp only [Bool.false_eq_true, if_false]
      exact Shape.after_unref sl _ (on_written_shape P h2 he)
    | _ =>
      simp only [Bool.false_eq_true, if_false]
      split
      · exact Shape.after_unref sl _ (next_address_shape P h2)
      · have h3 := h2.push { r1 with parser := p, have_read_byte := b }
          [Action.grpc_httpcli_parser_eof] (SameRequest.refl _) rfl rfl rfl
        simp only [h.armed] at h3 ⊢
        simp only [List.append_assoc] at h3 ⊢
        exact Shape.after_unref sl _
          (finish_shape P _ a k h3.req h3.armed h3.same h3.pollset_set h3.trace)

theorem step_shape (P : Externals σ) (w : World σ) (e : Event) (r : internal_request σ)
    (hI : Inv w) (hr : w.req = some r) (ha : e.op ∈ w.armed) :
    ∃ w1 a k, step P w e = .ok w1 ∧ Shape P w.trace w.pollset_set r a k e.slices w1 ∧
      ((r.addresses = some a ∧ r.next_address = k) ∨
        (r.addresses = none ∧ e = Event.on_resolved (some a) ∧ k = 0) ∨
        (r.addresses = none ∧ e = Event.on_resolved none)) := by
  unfold Inv at hI
  simp only [hr] at hI
  obtain ⟨op, hop, hinv⟩ := hI
  have hop2 : e.op = op := by simpa [hop] using ha
  have hn : w.armed.erase e.op = [] := by simp [hop, hop2]
  have entry : ∀ a, r.addresses = some a → r.next_address ≤ a.naddrs →
      Entry w.trace w.pollset_set r a r.next_address
        { req := w.req, pollset_set := w.pollset_set, armed := [], trace := w.trace } r :=
    fun a h1 h2 => ⟨hr, rfl, SameRequest.refl r, h1, rfl, h2, rfl, [], by simp, Quiet.nil⟩
  unfold step
  simp only [ha, if_true, hn]
  cases e with
  | on_resolved x =>
    subst hop2
    cases x with
    | none =>
      obtain ⟨w1, h1, h2⟩ := @finish_shape σ P w.trace w.pollset_set r r
        { req := w.req, pollset_set := w.pollset_set, armed := [], trace := w.trace } 0
        ⟨[]⟩ 0 hr rfl (SameRequest.refl r) rfl ⟨[], by simp, Quiet.nil⟩
      exact ⟨w1, ⟨[]⟩, 0, h1, h2, Or.inr (Or.inr ⟨hinv.1, rfl⟩)⟩
    | some a =>
      simp only [on_resolved, hr]
      have hE : Entry w.trace w.pollset_set r a 0
          { req := some { r with addresses := some a, next_address := 0 }
            pollset_set := w.pollset_set, armed := [], trace := w.trace }
          { r with addresses := some a, next_address := 0 } :=
        ⟨rfl, rfl, ⟨rfl, rfl, rfl, rfl, rfl, rfl, rfl, rfl, rfl⟩, rfl, rfl, Nat.zero_le _, rfl,
          [], by simp, Quiet.nil⟩
      obtain ⟨w1, h1, h2⟩ := next_address_shape P hE
      exact ⟨w1, a, 0, h1, h2, Or.inr (Or.inl ⟨hinv.1, rfl, rfl⟩)⟩
  | on_connected t =>
    subst hop2
    obtain ⟨⟨a, h1, h2⟩, _⟩ := hinv
    obtain ⟨w1, h3, h4⟩ := on_connected_shape P (entry a h1 h2) t
    exact ⟨w1, a, _, h3, h4, Or.inl ⟨h1, rfl⟩⟩
  | on_handshake_done ep =>
    subst hop2
    obtain ⟨⟨a, h1, h2⟩, _⟩ := hinv
    obtain ⟨w1, h3, h4⟩ := on_handshake_done_shape P (entry a h1 h2) ep
    exact ⟨w1, a, _, h3, h4, Or.inl ⟨h1, rfl⟩⟩
  | done_write s =>
    subst hop2
    obtain ⟨⟨a, h1, h2⟩, _, he⟩ := hinv
    obtain ⟨w1, h3, h4⟩ := done_write_shape P (entry a h1 h2) he s
    exact ⟨w1, a, _, h3, h4, Or.inl ⟨h1, rfl⟩⟩
  | on_read sl s =>
    subst hop2
    obtain ⟨⟨a, h1, h2⟩, he⟩ := hinv
    obtain ⟨w1, h3, h4⟩ := on_read_shape P (entry a h1 h2) he sl s
    exact ⟨w1, a, _, h3, h4, Or.inl ⟨h1, rfl⟩⟩

theorem run_invariant (P : Externals σ) (Q : World σ → Prop)
    (hstep : ∀ (w w1 : World σ) (e : Event) (r : internal_request σ), Good P w → Q w →
      w.req = some r → e.op ∈ w.armed → step P w e = .ok w1 → Q w1)
    (evs : List Event) :
    ∀ (w w1 : World σ), Good P w → Q w → run P w evs = .ok w1 → Q w1 := by
  induction evs with
  | nil =>
    intro w w1 _ hQ h
    simp only [run, Except.ok.injEq] at h
    exact h ▸ hQ
  | cons e es ih =>
    intro w w1 hG hQ h
    by_cases ha : e.op ∈ w.armed
    · obtain ⟨w2, h2, hG2⟩ := step_good P w e hG ha
      simp only [run, h2] at h
      have hl : w.req ≠ none := hG.1.live_of_armed (List.ne_nil_of_mem ha)
      cases hr : w.req with
      | none => exact absurd hr hl
      | some r => exact ih w2 w1 hG2 (hstep w w2 e r hG hQ hr ha h2) h
    · simp [run, step_not_armed P w e ha] at h

theorem StartedWith.to_started {P : Externals σ} {ps : List Nat} {context pollset : Nat}
    {request : grpc_httpcli_request} {deadline : gpr_timespec} {on_response user_data : Nat}
    {w0 : World σ}
    (h : StartedWith P ps context pollset request deadline on_response user_data w0) :
    Started P w0 := by
  obtain ⟨g, h⟩ := h
  exact ⟨g, ps, context, pollset, request, deadline, on_response, user_data, h⟩

theorem get_start_engine_none (P : Externals σ) (g : Globals) (w : World σ)
    (context pollset : Nat) (request : grpc_httpcli_request) (deadline : gpr_timespec)
    (on_response user_data : Nat) (hg : g.g_get_override = none) :
    grpc_httpcli_get P g w context pollset request deadline on_response user_data =
      start_engine P w (P.grpc_httpcli_format_get_request request)
        Action.grpc_httpcli_format_get_request context pollset request deadline
        on_response user_data := by
  simp only [grpc_httpcli_get, get_override_check, hg, start_engine]
  cases request.handshaker <;> rfl

theorem get_start_engine_some (P : Externals σ) (g : Globals) (w : World σ)
    (context pollset : Nat) (request : grpc_httpcli_request) (deadline : gpr_timespec)
    (on_response user_data : Nat)
    (hook : grpc_httpcli_request → gpr_timespec → Nat → Nat → Int)
    (hg : g.g_get_override = some hook)
    (hz : hook request deadline on_response user_data = 0) :
    grpc_httpcli_get P g w context pollset request deadline on_response user_data =
      start_engine P { w with trace := w.trace ++ [Action.g_get_override] }
        (P.grpc_httpcli_format_get_request request)
        Action.grpc_httpcli_format_get_request context pollset request deadline
        on_response user_data := by
  simp only [grpc_httpcli_get, get_override_check, hg, hz, start_engine]
  cases request.handshaker <;> rfl

theorem post_start_engine_none (P : Externals σ) (g : Globals) (w : World σ)
    (context pollset : Nat) (request : grpc_httpcli_request) (body_bytes : List Nat)
    (deadline : gpr_timespec) (on_response user_data : Nat) (hg : g.g_post_override = none) :
    grpc_httpcli_post P g w context pollset request body_bytes deadline on_response user_data =
      start_engine P w (P.grpc_httpcli_format_post_request request body_bytes)
        Action.grpc_httpcli_format_post_request context pollset request deadline
        on_response user_data := by
  simp only [grpc_httpcli_post, post_override_check, hg, start_engine]
  cases request.handshaker <;> rfl

theorem post_start_engine_some (P : Externals σ) (g : Globals) (w : World σ)
    (context pollset : Nat) (request : grpc_httpcli_request) (body_bytes : List Nat)
    (deadline : gpr_timespec) (on_response user_data : Nat)
    (hook : grpc_httpcli_request → List Nat → gpr_timespec → Nat → Nat → Int)
    (hg : g.g_post_override = some hook)
    (hz : hook request body_bytes deadline on_response user_data = 0) :
    grpc_httpcli_post P g w context pollset request body_bytes deadline on_response user_data =
      start_engine P { w with trace := w.trace ++ [Action.g_post_override] }
        (P.grpc_httpcli_format_post_request request body_bytes)
        Action.grpc_httpcli_format_post_request context pollset request deadline
        on_response user_data := by
  simp only [grpc_httpcli_post, post_override_check, hg, hz, start_engine]
  cases request.handshaker <;> rfl

theorem StartedWith.spec {P : Externals σ} {ps : List Nat} {context pollset : Nat}
    {request : grpc_httpcli_request} {deadline : gpr_timespec} {on_response user_data : Nat}
    {w0 : World σ}
    (h : StartedWith P ps context pollset request deadline on_response user_data w0) :
    ∃ (text : gpr_slice) (fmt : Action) (hook : List Action),
      (hook = [] ∨ hook = [Action.g_get_override] ∨ hook = [Action.g_post_override]) ∧
      (fmt = Action.grpc_httpcli_format_get_request ∨
        fmt = Action.grpc_httpcli_format_post_request) ∧
      w0 = start_engine P { req := none, pollset_set := ps, armed := [], trace := hook }
        text fmt context pollset request deadline on_response user_data := by
  obtain ⟨g, ⟨hc, rfl⟩ | ⟨body, hc, rfl⟩⟩ := h
  · cases hg : g.g_get_override with
    | none =>
      exact ⟨_, _, [], Or.inl rfl, Or.inl rfl,
        get_start_engine_none P g (idle ps) context pollset request deadline on_response
          user_data hg⟩
    | some hook =>
      have hz : hook request deadline on_response user_data = 0 := by
        simpa [get_override_check, hg] using hc
      exact ⟨_, _, [Action.g_get_override], Or.inr (Or.inl rfl), Or.inl rfl,
        get_start_engine_some P g (idle ps) context pollset request deadline on_response
          user_data hook hg hz⟩
  · cases hg : g.g_post_override with
    | none =>
      exact ⟨_, _, [], Or.inl rfl, Or.inr rfl,
        post_start_engine_none P g (idle ps) context pollset request body deadline on_response
          user_data hg⟩
    | some hook =>
      have hz : hook request body deadline on_response user_data = 0 := by
        simpa [post_override_check, hg] using hc
      exact ⟨_, _, [Action.g_post_override], Or.inr (Or.inr rfl), Or.inr rfl,
        post_start_engine_some P g (idle ps) context pollset request body deadline on_response
          user_data hook hg hz⟩

theorem filterMap_quiet {α : Type} (f : Action → Option α)
    (hf : ∀ a, Action.quiet a = true → f a = none) (acts : List Action) (h : Quiet acts) :
    acts.filterMap f = [] := by
  unfold Quiet at h
  rw [List.all_eq_true] at h
  rw [List.filterMap_eq_nil_iff]
  exact fun a ha => hf a (h a ha)

theorem pollset_adds_quiet (acts : List Action) (h : Quiet acts) : pollset_adds acts = [] :=
  filterMap_quiet _ (fun a ha => by cases a <;> first | rfl | cases ha) acts h

theorem pollset_dels_quiet (acts : List Action) (h : Quiet acts) : pollset_dels acts = [] :=
  filterMap_quiet _ (fun a ha => by cases a <;> first | rfl | cases ha) acts h

theorem pollset_adds_finish_actions (P : Externals σ) (r : internal_request σ) (s : Int) :
    pollset_adds (finish_actions P r s) = [] := by
  unfold finish_actions
  cases r.addresses <;> cases r.ep <;> rfl

theorem pollset_dels_finish_actions (P : Externals σ) (r : internal_request σ) (s : Int) :
    pollset_dels (finish_actions P r s) = [(r.context, r.pollset)] := by
  unfold finish_actions
  cases r.addresses <;> cases r.ep <;> rfl

theorem pollset_adds_append (a b : List Action) :
    pollset_adds (a ++ b) = pollset_adds a ++ pollset_adds b := by
  simp [pollset_adds, List.filterMap_append]

theorem pollset_dels_append (a b : List Action) :
    pollset_dels (a ++ b) = pollset_dels a ++ pollset_dels b := by
  simp [pollset_dels, List.filterMap_append]

theorem step_balanced (P : Externals σ) (ps : List Nat) (context pollset : Nat)
    (w w1 : World σ) (e : Event) (r : internal_request σ) (hG : Good P w)
    (hB : Balanced ps context pollset w) (hr : w.req = some r) (ha : e.op ∈ w.armed)
    (hs : step P w e = .ok w1) : Balanced ps context pollset w1 := by
  obtain ⟨w2, a, k, h2, hshape, _⟩ := step_shape P w e r hG.1 hr ha
  rw [hs] at h2
  cases h2
  obtain ⟨hadd, hlive, _⟩ := hB
  obtain ⟨hc, hp, hps, hdel⟩ := hlive r hr
  rcases hshape with ⟨r1, acts, h1, h2, _, _, h5, h6, h7⟩ |
    ⟨r1, addr, pre, post, h1, h2, _, _, _, h6, h7, h8, h9⟩ |
    ⟨r1, s, pre, h1, _, h3, h4, h5, h6⟩
  · refine ⟨?_, fun r' hr' => ?_, fun hn => ?_⟩
    · rw [h6, pollset_adds_append, hadd, pollset_adds_quiet acts h7, List.append_nil]
    · rw [h1] at hr'
      cases hr'
      refine ⟨h2.context.trans hc, h2.pollset.trans hp, h5.trans hps, ?_⟩
      rw [h6, pollset_dels_append, hdel, pollset_dels_quiet acts h7]; rfl
    · rw [h1] at hn; cases hn
  · refine ⟨?_, fun r' hr' => ?_, fun hn => ?_⟩
    · rw [h7, pollset_adds_append, pollset_adds_append, pollset_adds_append, hadd,
        pollset_adds_quiet pre h8, pollset_adds_quiet post h9]; rfl
    · rw [h1] at hr'
      cases hr'
      refine ⟨h2.context.trans hc, h2.pollset.trans hp, h6.trans hps, ?_⟩
      rw [h7, pollset_dels_append, pollset_dels_append, pollset_dels_append, hdel,
        pollset_dels_quiet pre h8, pollset_dels_quiet post h9]; rfl
    · rw [h1] at hn; cases hn
  · refine ⟨?_, fun r' hr' => ?_, fun _ => ⟨?_, ?_⟩⟩
    · rw [h5, pollset_adds_append, pollset_adds_append, pollset_adds_append, hadd,
        pollset_adds_quiet pre h6, pollset_adds_finish_actions,
        pollset_adds_quiet _ (Quiet.unref _)]; rfl
    · rw [h1] at hr'; cases hr'
    · rw [h4, hps, hp]; simp
    · rw [h5, pollset_dels_append, pollset_dels_append, pollset_dels_append, hdel,
        pollset_dels_quiet pre h6, pollset_dels_finish_actions,
        pollset_dels_quiet _ (Quiet.unref _), h3.context, h3.pollset, hc, hp]; rfl

theorem StartedWith.balanced {P : Externals σ} {ps : List Nat} {context pollset : Nat}
    {request : grpc_httpcli_request} {deadline : gpr_timespec} {on_response user_data : Nat}
    {w0 : World σ}
    (h : StartedWith P ps context pollset request deadline on_response user_data w0) :
    Balanced ps context pollset w0 := by
  obtain ⟨text, fmt, hook, hh, hf, rfl⟩ := h.spec
  refine ⟨?_, fun r hr => ?_, fun hn => ?_⟩
  · rcases hh with rfl | rfl | rfl <;> rcases hf with rfl | rfl <;> rfl
  · simp only [start_engine, Option.some.injEq] at hr
    subst hr
    refine ⟨rfl, rfl, rfl, ?_⟩
    rcases hh with rfl | rfl | rfl <;> rcases hf with rfl | rfl <;> rfl
  · simp [start_engine] at hn

/-- C11. A request not claimed by an override hook, started while the
pollset set of the context is `ps`: `grpc_httpcli_get` / `grpc_httpcli_post`
adds the pollset to the set and then issues the resolve, these being its last
two calls, with no add or remove before. In every run of completions the
pollset has been added exactly once. While an operation is armed the set is
`pollset :: ps` and nothing has been removed; once the request has completed
(nothing armed) the pollset has been removed exactly once and the set is `ps`
again, as before the request, whether the request succeeded or failed. -/
theorem C11_pollset_balanced (P : Externals σ) (ps : List Nat) (context pollset : Nat)
    (request : grpc_httpcli_request) (deadline : gpr_timespec) (on_response user_data : Nat)
    (w0 : World σ)
    (h0 : StartedWith P ps context pollset request deadline on_response user_data w0)
    (evs : List Event) (w : World σ) (hrun : run P w0 evs = .ok w) :
    (∃ pre, w0.trace = pre ++
        [ Action.grpc_pollset_set_add_pollset context pollset,
          Action.grpc_resolve_address request.host
            (request.handshaker.getD grpc_httpcli_plaintext).default_port ] ∧
      pollset_adds pre = [] ∧ pollset_dels pre = [] ∧
      w0.pollset_set = pollset :: ps) ∧
    pollset_adds w.trace = [(context, pollset)] ∧
    (w.armed ≠ [] → w.pollset_set = pollset :: ps ∧ pollset_dels w.trace = []) ∧
    (w.armed = [] → w.pollset_set = ps ∧ pollset_dels w.trace = [(context, pollset)]) := by
  have hG := (run_good P evs w0 h0.to_started.good).2 w hrun
  have hB := run_invariant P (Balanced ps context pollset)
    (fun w w1 e r hG hQ hr ha hs => step_balanced P ps context pollset w w1 e r hG hQ hr ha hs)
    evs w0 w h0.to_started.good h0.balanced hrun
  refine ⟨?_, hB.1, fun ha => ?_, fun ha => ?_⟩
  · obtain ⟨text, fmt, hook, hh, hf, rfl⟩ := h0.spec
    refine ⟨hook ++ [Action.gpr_malloc, fmt, Action.grpc_httpcli_parser_init,
      Action.grpc_iomgr_register_object ("HTTP:GET:" ++ request.host ++ ":" ++ request.path)],
      ?_, ?_, ?_, rfl⟩
    · simp [start_engine]
    · rcases hh with rfl | rfl | rfl <;> rcases hf with rfl | rfl <;> rfl
    · rcases hh with rfl | rfl | rfl <;> rcases hf with rfl | rfl <;> rfl
  · have hl := hG.1.live_of_armed ha
    cases hr : w.req with
    | none => exact absurd hr hl
    | some r => exact ⟨(hB.2.1 r hr).2.2.1, (hB.2.1 r hr).2.2.2⟩
  · have hn : w.req = none := by
      by_contra hne
      exact hG.1.armed_of_live hne ha
    exact hB.2.2 hn

theorem C11_pollset_balanced_witness :
    StartedWith Ex.P [7] 1 9 Ex.request Ex.deadline 11 12 Ex.w0 ∧
    (final (run Ex.P Ex.w0 Ex.evs_ok)).pollset_set = [7] ∧
    pollset_dels (final (run Ex.P Ex.w0 Ex.evs_ok)).trace = [(1, 9)] :=
  ⟨⟨Ex.g, Or.inl ⟨rfl, rfl⟩⟩,
    ((C11_pollset_balanced Ex.P [7] 1 9 Ex.request Ex.deadline 11 12 Ex.w0
      ⟨Ex.g, Or.inl ⟨rfl, rfl⟩⟩ Ex.evs_ok (final (run Ex.P Ex.w0 Ex.evs_ok)) rfl).2.2.2 rfl).1,
    ((C11_pollset_balanced Ex.P [7] 1 9 Ex.request Ex.deadline 11 12 Ex.w0
      ⟨Ex.g, Or.inl ⟨rfl, rfl⟩⟩ Ex.evs_ok (final (run Ex.P Ex.w0 Ex.evs_ok)) rfl).2.2.2 rfl).2⟩

/-- C12. While a handshake is pending, its completion with a null stream is
handled exactly as a connect completion with a null stream would be in the
same state: `next_address` runs. The same holds when the handshaker reports
the null stream before it returns, within `on_connected` (after the call of
the handshaker). When a candidate is left under the cursor the engine
connects to it, the callback is not invoked and the current-stream field is
as it was; only when the cursor has reached the end of the list does the
engine finish, with a null response. -/
theorem C12_handshake_failure (P : Externals σ) (w : World σ) (r : internal_request σ)
    (a : grpc_resolved_addresses) (hreq : w.req = some r) (ha : r.addresses = some a) :
    (w.armed = [Op.handshake] →
      step P w (Event.on_handshake_done none) =
        step P { w with armed := [Op.connect] } (Event.on_connected none) ∧
      (∀ addr : grpc_resolved_address, a.addrs.get? r.next_address = some addr →
        step P w (Event.on_handshake_done none) =
          .ok { req := some { r with next_address := r.next_address + 1 }
                pollset_set := w.pollset_set, armed := [Op.connect]
                trace := w.trace ++
                  [Action.grpc_tcp_client_connect r.context addr r.deadline] }) ∧
      (r.next_address = a.naddrs →
        step P w (Event.on_handshake_done none) =
          .ok { req := none, pollset_set := w.pollset_set.erase r.pollset, armed := []
                trace := w.trace ++ finish_actions P r 0 })) ∧
    (∀ tcp : grpc_endpoint, w.armed = [Op.connect] →
      r.handshaker.handshake tcp r.host = handshake_result.done none →
      (∀ addr : grpc_resolved_address, a.addrs.get? r.next_address = some addr →
        step P w (Event.on_connected (some tcp)) =
          .ok { req := some { r with next_address := r.next_address + 1 }
                pollset_set := w.pollset_set, armed := [Op.connect]
                trace := w.trace ++ [Action.handshake r.handshaker.default_port tcp r.host] ++
                  [Action.grpc_tcp_client_connect r.context addr r.deadline] }) ∧
      (r.next_address = a.naddrs →
        step P w (Event.on_connected (some tcp)) =
          .ok { req := none, pollset_set := w.pollset_set.erase r.pollset, armed := []
                trace := w.trace ++ [Action.handshake r.handshaker.default_port tcp r.host] ++
                  finish_actions P r 0 })) ∧
    ({ r with next_address := r.next_address + 1 } : internal_request σ).ep = r.ep ∧
    responses (finish_actions P r 0) = [none] := by
  refine ⟨fun harm => ?_, fun tcp harm hh => ?_, rfl, ?_⟩
  · have e1 : step P w (Event.on_handshake_done none) = next_address P { w with armed := [] } := by
      simp [step, Event.op, harm, on_handshake_done]
    refine ⟨?_, fun addr hg => ?_, fun hn => ?_⟩
    · rw [e1]; simp [step, Event.op, on_connected]
    · rw [e1]; exact next_address_connect P { w with armed := [] } r a addr hreq ha hg
    · rw [e1]; exact next_address_exhausted P { w with armed := [] } r a hreq ha hn
  · have e1 : step P w (Event.on_connected (some tcp)) =
        next_address P { req := some r, pollset_set := w.pollset_set, armed := []
                         trace := w.trace ++
                           [Action.handshake r.handshaker.default_port tcp r.host] } := by
      simp [step, Event.op, harm, on_connected, hreq, hh, on_handshake_done]
    refine ⟨fun addr hg => ?_, fun hn => ?_⟩
    · rw [e1]; exact next_address_connect P _ r a addr rfl ha hg
    · rw [e1]; exact next_address_exhausted P _ r a rfl ha hn
  · rw [responses_finish_actions]; rfl

theorem C12_handshake_failure_witness :
    Ex.w_handshaking.armed = [Op.handshake] ∧
    (final (step Ex.P Ex.w_handshaking (Event.on_handshake_done none))).trace =
      Ex.w_handshaking.trace ++ [Action.grpc_tcp_client_connect 1 Ex.a2 Ex.deadline] ∧
    callbacks (final (step Ex.P Ex.w_handshaking (Event.on_handshake_done none))).trace = 0 :=
  ⟨rfl,
    congrArg (fun x => (final x).trace)
      (((C12_handshake_failure Ex.P Ex.w_handshaking _ ⟨[Ex.a1, Ex.a2]⟩ rfl rfl).1 rfl).2.1
        Ex.a2 rfl),
    by decide⟩

theorem step_keeps (P : Externals σ) (r0 : internal_request σ)
    (w w1 : World σ) (e : Event) (r : internal_request σ) (hG : Good P w)
    (hK : Keeps r0 w) (hr : w.req = some r) (ha : e.op ∈ w.armed)
    (hs : step P w e = .ok w1) : Keeps r0 w1 := by
  obtain ⟨w2, a, k, h2, hshape, _⟩ := step_shape P w e r hG.1 hr ha
  rw [hs] at h2
  cases h2
  intro r' hr'
  rcases hshape with ⟨r1, acts, h1, h2, _⟩ | ⟨r1, addr, pre, post, h1, h2, _⟩ |
    ⟨r1, s, pre, h1, _⟩
  · rw [h1] at hr'; cases hr'; exact (hK r hr).trans h2
  · rw [h1] at hr'; cases hr'; exact (hK r hr).trans h2
  · rw [h1] at hr'; cases hr'

theorem run_keeps (P : Externals σ) (w0 w : World σ) (r0 r : internal_request σ)
    (evs : List Event) (h0 : Started P w0) (hr0 : w0.req = some r0)
    (hrun : run P w0 evs = .ok w) (hr : w.req = some r) : SameRequest r0 r := by
  have hK : Keeps r0 w0 := by
    intro r' hr'
    rw [hr0] at hr'
    cases hr'
    exact SameRequest.refl r0
  exact run_invariant P (Keeps r0)
    (fun w w1 e r hG hQ hr ha hs => step_keeps P r0 w w1 e r hG hQ hr ha hs)
    evs w0 w h0.good hK hrun r hr

theorem handshakes_append (a b : List Action) :
    handshakes (a ++ b) = handshakes a ++ handshakes b := by
  simp [handshakes, List.filterMap_append]

theorem handshakes_finish_actions (P : Externals σ) (r : internal_request σ) (s : Int) :
    handshakes (finish_actions P r s) = [] := by
  unfold finish_actions
  cases r.addresses <;> cases r.ep <;> rfl

theorem handshakes_finish (P : Externals σ) (w w1 : World σ) (s : Int)
    (h : finish P w s = .ok w1) : handshakes w1.trace = handshakes w.trace := by
  unfold finish at h
  cases hr : w.req with
  | none => simp [hr] at h
  | some r =>
    simp only [hr, Except.ok.injEq] at h
    subst h
    simp [handshakes_append, handshakes_finish_actions]

theorem handshakes_next_address (P : Externals σ) (w w1 : World σ)
    (h : next_address P w = .ok w1) : handshakes w1.trace = handshakes w.trace := by
  unfold next_address at h
  cases hr : w.req with
  | none => simp [hr] at h
  | some r =>
    simp only [hr] at h
    cases ha : r.addresses with
    | none => simp [ha] at h
    | some a =>
      simp only [ha] at h
      split at h
      · exact handshakes_finish P w w1 0 h
      · cases hg : a.addrs.get? r.next_address with
        | none => rw [hg] at h; cases h
        | some addr =>
          rw [hg] at h
          simp only [Except.ok.injEq] at h
          subst h
          simp [handshakes_append, handshakes]

theorem handshakes_on_written (w w1 : World σ)
    (h : on_written w = .ok w1) : handshakes w1.trace = handshakes w.trace := by
  unfold on_written at h
  cases hr : w.req with
  | none => simp [hr] at h
  | some r =>
    simp only [hr] at h
    cases he : r.ep with
    | none => simp [he] at h
    | some ep =>
      simp only [he, Except.ok.injEq] at h
      subst h
      simp [handshakes_append, handshakes]

theorem handshakes_start_write (P : Externals σ) (w w1 : World σ)
    (h : start_write P w = .ok w1) : handshakes w1.trace = handshakes w.trace := by
  unfold start_write at h
  cases hr : w.req with
  | none => simp [hr] at h
  | some r =>
    simp only [hr] at h
    cases he : r.ep with
    | none => simp [he] at h
    | some ep =>
      simp only [he] at h
      cases hw : ep.write_status with
      | GRPC_ENDPOINT_WRITE_DONE =>
        simp only [hw] at h
        rw [handshakes_on_written _ w1 h]
        simp [handshakes_append, handshakes]
      | GRPC_ENDPOINT_WRITE_PENDING =>
        simp only [hw, Except.ok.injEq] at h
        subst h
        simp [handshakes_append, handshakes]
      | GRPC_ENDPOINT_WRITE_ERROR =>
        simp only [hw] at h
        rw [handshakes_finish P _ w1 0 h]
        simp [handshakes_append, handshakes]

theorem handshakes_on_handshake_done (P : Externals σ) (w w1 : World σ)
    (ep : Option grpc_endpoint)
    (h : on_handshake_done P w ep = .ok w1) : handshakes w1.trace = handshakes w.trace := by
  unfold on_handshake_done at h
  cases ep with
  | none => exact handshakes_next_address P w w1 h
  | some e =>
    simp only at h
    cases hr : w.req with
    | none => simp [hr] at h
    | some r =>
      simp only [hr] at h
      have := handshakes_start_write P _ w1 h
      exact this

theorem step_on_connected (P : Externals σ) (w : World σ) (r : internal_request σ)
    (tcp : grpc_endpoint) (hreq : w.req = some r) (harm : w.armed = [Op.connect]) :
    step P w (Event.on_connected (some tcp)) =
      match r.handshaker.handshake tcp r.host with
      | handshake_result.done ep =>
        on_handshake_done P
          { req := some r, pollset_set := w.pollset_set, armed := []
            trace := w.trace ++ [Action.handshake r.handshaker.default_port tcp r.host] } ep
      | handshake_result.pending =>
        .ok { req := some r, pollset_set := w.pollset_set, armed := [Op.handshake]
              trace := w.trace ++ [Action.handshake r.handshaker.default_port tcp r.host] } := by
  simp only [step, Event.op, harm, List.mem_singleton, if_true, List.erase_cons_head,
    on_connected, hreq]
  cases r.handshaker.handshake tcp r.host <;> rfl

theorem chosen_handshaker_eq (request : grpc_httpcli_request) :
    request.handshaker.getD grpc_httpcli_plaintext = chosen_handshaker request := by
  unfold chosen_handshaker
  cases request.handshaker <;> rfl

theorem StartedWith.request_shape {P : Externals σ} {ps : List Nat} {context pollset : Nat}
    {request : grpc_httpcli_request} {deadline : gpr_timespec} {on_response user_data : Nat}
    {w0 : World σ}
    (h : StartedWith P ps context pollset request deadline on_response user_data w0) :
    ∃ r0, w0.req = some r0 ∧ r0.handshaker = chosen_handshaker request ∧
      r0.host = request.host ∧ r0.deadline = deadline ∧ r0.context = context ∧
      r0.pollset = pollset ∧ r0.on_response = on_response ∧ r0.user_data = user_data ∧
      r0.iomgr_obj = "HTTP:GET:" ++ request.host ++ ":" ++ request.path ∧
      resolves w0.trace = [(request.host, (chosen_handshaker request).default_port)] := by
  obtain ⟨text, fmt, hook, hh, hf, rfl⟩ := h.spec
  refine ⟨_, rfl, chosen_handshaker_eq request, rfl, rfl, rfl, rfl, rfl, rfl, rfl, ?_⟩
  rw [← chosen_handshaker_eq]
  rcases hh with rfl | rfl | rfl <;> rcases hf with rfl | rfl <;> rfl

/-- C13. For a request not claimed by an override hook: the handshaker in
the in-flight state is the own handshaker of the request when one is given
and `grpc_httpcli_plaintext` otherwise, and the one resolve issued is for the
host of the request and the default port of that handshaker. In every run
the handshaker and the host stay those, and a connect completion with a
stream calls that handshaker once, with the connected stream and the host
of the request; what follows is `on_handshake_done` with the stream the
handshaker reports, at once or later. `plaintext_handshake` reports at once
the very stream it was given, so that with the plaintext handshaker the
stream stored is the connected one and the write that `start_write` issues
next is a write to it. -/
theorem C13_handshaker (P : Externals σ) (ps : List Nat) (context pollset : Nat)
    (request : grpc_httpcli_request) (deadline : gpr_timespec) (on_response user_data : Nat)
    (w0 : World σ)
    (h0 : StartedWith P ps context pollset request deadline on_response user_data w0) :
    (∃ r0, w0.req = some r0 ∧ r0.handshaker = chosen_handshaker request ∧
      r0.host = request.host) ∧
    resolves w0.trace = [(request.host, (chosen_handshaker request).default_port)] ∧
    (∀ (evs : List Event) (w : World σ) (r : internal_request σ),
      run P w0 evs = .ok w → w.req = some r →
      r.handshaker = chosen_handshaker request ∧ r.host = request.host ∧
      ∀ tcp : grpc_endpoint, w.armed = [Op.connect] →
        (step P w (Event.on_connected (some tcp)) =
          match (chosen_handshaker request).handshake tcp request.host with
          | handshake_result.done ep =>
            on_handshake_done P
              { req := some r, pollset_set := w.pollset_set, armed := []
                trace := w.trace ++
                  [Action.handshake (chosen_handshaker request).default_port tcp
                    request.host] } ep
          | handshake_result.pending =>
            .ok { req := some r, pollset_set := w.pollset_set, armed := [Op.handshake]
                  trace := w.trace ++
                    [Action.handshake (chosen_handshaker request).default_port tcp
                      request.host] }) ∧
        (∀ w1, step P w (Event.on_connected (some tcp)) = .ok w1 →
          handshakes w1.trace =
            handshakes w.trace ++
              [((chosen_handshaker request).default_port, tcp, request.host)])) ∧
    (∀ (endpoint : grpc_endpoint) (host : String),
      plaintext_handshake endpoint host = handshake_result.done (some endpoint)) ∧
    grpc_httpcli_plaintext.handshake = plaintext_handshake ∧
    grpc_httpcli_plaintext.default_port = "http" ∧
    (request.handshaker = none →
      ∀ (evs : List Event) (w : World σ) (r : internal_request σ) (tcp : grpc_endpoint),
        run P w0 evs = .ok w → w.req = some r → w.armed = [Op.connect] →
        step P w (Event.on_connected (some tcp)) =
          start_write P
            { req := some { r with ep := some tcp }, pollset_set := w.pollset_set, armed := []
              trace := w.trace ++ [Action.handshake "http" tcp request.host] } ∧
        ∃ w1 rest, step P w (Event.on_connected (some tcp)) = .ok w1 ∧
          w1.trace = w.trace ++
            [ Action.handshake "http" tcp request.host,
              Action.gpr_slice_ref r.request_text,
              Action.grpc_endpoint_write tcp r.request_text ] ++ rest ∧
          handshakes rest = []) := by
  obtain ⟨r0, hr0, hh0, hhost0, _, _, _, _, _, _, hres⟩ := h0.request_shape
  have keep : ∀ (evs : List Event) (w : World σ) (r : internal_request σ),
      run P w0 evs = .ok w → w.req = some r →
      r.handshaker = chosen_handshaker request ∧ r.host = request.host := by
    intro evs w r hrun hr
    have hs := run_keeps P w0 w r0 r evs h0.to_started hr0 hrun hr
    exact ⟨hs.handshaker.trans hh0, hs.host.trans hhost0⟩
  refine ⟨⟨r0, hr0, hh0, hhost0⟩, hres, ?_, fun _ _ => rfl, rfl, rfl, ?_⟩
  · intro evs w r hrun hr
    obtain ⟨k1, k2⟩ := keep evs w r hrun hr
    refine ⟨k1, k2, fun tcp harm => ?_⟩
    have e1 := step_on_connected P w r tcp hr harm
    rw [k1, k2] at e1
    refine ⟨e1, fun w1 h1 => ?_⟩
    rw [e1] at h1
    cases hh : (chosen_handshaker request).handshake tcp request.host with
    | done ep =>
      rw [hh] at h1
      simp only at h1
      rw [handshakes_on_handshake_done P _ w1 ep h1]
      simp [handshakes_append, handshakes]
    | pending =>
      rw [hh] at h1
      simp only [Except.ok.injEq] at h1
      subst h1
      simp [handshakes_append, handshakes]
  · intro hnone evs w r tcp hrun hr harm
    obtain ⟨k1, k2⟩ := keep evs w r hrun hr
    have hc : chosen_handshaker request = grpc_httpcli_plaintext := by
      simp [chosen_handshaker, hnone]
    rw [hc] at k1
    have e1 := step_on_connected P w r tcp hr harm
    rw [k1, k2] at e1
    have e2 : step P w (Event.on_connected (some tcp)) =
        start_write P
          { req := some { r with ep := some tcp }, pollset_set := w.pollset_set, armed := []
            trace := w.trace ++ [Action.handshake "http" tcp request.host] } := by
      rw [e1]
      rfl
    refine ⟨e2, ?_⟩
    rw [e2]
    unfold start_write
    simp only []
    cases tcp.write_status with
    | GRPC_ENDPOINT_WRITE_DONE =>
      exact ⟨_, [Action.grpc_endpoint_notify_on_read tcp], rfl, by simp, rfl⟩
    | GRPC_ENDPOINT_WRITE_PENDING =>
      exact ⟨_, [], rfl, by simp, rfl⟩
    | GRPC_ENDPOINT_WRITE_ERROR =>
      exact ⟨_, finish_actions P { r with ep := some tcp } 0, rfl, by simp,
        handshakes_finish_actions P _ 0⟩

theorem C13_handshaker_witness :
    StartedWith Ex.P [7] 1 9 Ex.request Ex.deadline 11 12 Ex.w0 ∧
    resolves Ex.w0.trace = [("h", "http")] ∧
    Ex.w_connecting.armed = [Op.connect] ∧
    handshakes (final (step Ex.P Ex.w_connecting
        (Event.on_connected (some Ex.ep_pending)))).trace =
      [("http", Ex.ep_pending, "h")] :=
  ⟨⟨Ex.g, Or.inl ⟨rfl, rfl⟩⟩,
    (C13_handshaker Ex.P [7] 1 9 Ex.request Ex.deadline 11 12 Ex.w0
      ⟨Ex.g, Or.inl ⟨rfl, rfl⟩⟩).2.1,
    rfl,
    ((((C13_handshaker Ex.P [7] 1 9 Ex.request Ex.deadline 11 12 Ex.w0
        ⟨Ex.g, Or.inl ⟨rfl, rfl⟩⟩).2.2.1 [Event.on_resolved (some ⟨[Ex.a1, Ex.a2]⟩)]
        Ex.w_connecting _ rfl rfl).2.2 Ex.ep_pending rfl).2
      (final (step Ex.P Ex.w_connecting (Event.on_connected (some Ex.ep_pending)))) rfl).trans
      (by decide)⟩

theorem connect_calls_append (a b : List Action) :
    connect_calls (a ++ b) = connect_calls a ++ connect_calls b := by
  simp [connect_calls, List.filterMap_append]

theorem connect_calls_quiet (acts : List Action) (h : Quiet acts) : connect_calls acts = [] :=
  filterMap_quiet _ (fun a ha => by cases a <;> first | rfl | cases ha) acts h

theorem connect_calls_finish_actions (P : Externals σ) (r : internal_request σ) (s : Int) :
    connect_calls (finish_actions P r s) = [] := by
  unfold finish_actions
  cases r.addresses <;> cases r.ep <;> rfl

theorem connects_eq_connect_calls (t : List Action) :
    connects t = (connect_calls t).map (fun x => x.2.1) := by
  induction t with
  | nil => rfl
  | cons x xs ih => cases x <;> simp [connects, connect_calls, ih]

theorem take_succ_map {α β : Type} (f : α → β) (l : List α) (n : Nat) (x : α)
    (h : l.get? n = some x) :
    (l.take (n + 1)).map f = (l.take n).map f ++ [f x] := by
  rw [List.take_succ, List.map_append]
  rw [List.get?_eq_getElem?] at h
  simp [h]

theorem shape_in_order (P : Externals σ) (a : grpc_resolved_addresses) (c : Nat)
    (d : gpr_timespec) (w w1 : World σ) (r : internal_request σ) (n : Nat)
    (sl : List gpr_slice) (hn : n ≤ a.naddrs)
    (hc : connect_calls w.trace = (a.addrs.take n).map (fun x => (c, x, d)))
    (hctx : r.context = c) (hd : r.deadline = d)
    (hshape : Shape P w.trace w.pollset_set r a n sl w1) : InOrder a c d w1 := by
  rcases hshape with ⟨r1, acts, h1, h2, h3, h4, _, h6, h7⟩ |
    ⟨r1, addr, pre, post, h1, h2, h3, h4, h5, _, h7, h8, h9⟩ |
    ⟨r1, s, pre, h1, _, _, _, h5, h6⟩
  · refine ⟨n, hn, ?_, fun r' hr' => ?_⟩
    · rw [h6, connect_calls_append, hc, connect_calls_quiet acts h7, List.append_nil]
    · rw [h1] at hr'; cases hr'
      exact ⟨h3, h4, h2.context.trans hctx, h2.deadline.trans hd⟩
  · have hlt : n < a.addrs.length := by
      rcases Nat.lt_or_ge n a.addrs.length with h | h
      · exact h
      · rw [List.get?_eq_none.mpr h] at h5; cases h5
    refine ⟨n + 1, hlt, ?_, fun r' hr' => ?_⟩
    · rw [h7, connect_calls_append, connect_calls_append, connect_calls_append, hc,
        connect_calls_quiet pre h8, connect_calls_quiet post h9,
        take_succ_map _ a.addrs n addr h5, hctx, hd]
      simp [connect_calls]
    · rw [h1] at hr'; cases hr'
      exact ⟨h3, h4, h2.context.trans hctx, h2.deadline.trans hd⟩
  · refine ⟨n, hn, ?_, fun r' hr' => ?_⟩
    · rw [h5, connect_calls_append, connect_calls_append, connect_calls_append, hc,
        connect_calls_quiet pre h6, connect_calls_finish_actions,
        connect_calls_quiet _ (Quiet.unref _)]
      simp
    · rw [h1] at hr'; cases hr'

theorem step_in_order (P : Externals σ) (a : grpc_resolved_addresses) (c : Nat)
    (d : gpr_timespec) (w w1 : World σ) (e : Event) (r : internal_request σ) (hG : Good P w)
    (hB : InOrder a c d w) (hr : w.req = some r) (ha : e.op ∈ w.armed)
    (hs : step P w e = .ok w1) : InOrder a c d w1 := by
  obtain ⟨w2, a', k, h2, hshape, hcase⟩ := step_shape P w e r hG.1 hr ha
  rw [hs] at h2
  cases h2
  obtain ⟨n, hn, hc, hlive⟩ := hB
  obtain ⟨hadd, hcur, hctx, hd⟩ := hlive r hr
  rcases hcase with ⟨h1, h2⟩ | ⟨h1, _⟩ | ⟨h1, _⟩
  · rw [hadd] at h1
    cases h1
    rw [hcur] at h2
    subst h2
    exact shape_in_order P a c d w w1 r n e.slices hn hc hctx hd hshape
  · rw [hadd] at h1; cases h1
  · rw [hadd] at h1; cases h1

theorem StartedWith.connect_calls {P : Externals σ} {ps : List Nat} {context pollset : Nat}
    {request : grpc_httpcli_request} {deadline : gpr_timespec} {on_response user_data : Nat}
    {w0 : World σ}
    (h : StartedWith P ps context pollset request deadline on_response user_data w0) :
    connect_calls w0.trace = [] := by
  obtain ⟨text, fmt, hook, hh, hf, rfl⟩ := h.spec
  rcases hh with rfl | rfl | rfl <;> rcases hf with rfl | rfl <;> rfl

theorem armed_le_one {w : World σ} (hI : Inv w) : w.armed.length ≤ 1 := by
  unfold Inv at hI
  cases hr : w.req with
  | none => simp only [hr] at hI; simp [hI]
  | some r =>
    simp only [hr] at hI
    obtain ⟨op, hop, _⟩ := hI
    simp [hop]

theorem first_event {w0 : World σ} (P : Externals σ) (harm : w0.armed = [Op.resolve])
    (e : Event) (w1 : World σ) (h : step P w0 e = .ok w1) : ∃ x, e = Event.on_resolved x := by
  cases e with
  | on_resolved x => exact ⟨x, rfl⟩
  | _ => simp [step, Event.op, harm] at h

/-- C15. In every run of a request not claimed by an override hook, at most
one operation is armed at a time (so at most one connect is outstanding). A
run starts with the completion of the resolve. When that brings the address
list `a`, then, whatever completions follow (connect, handshake and write
failures, zero-byte closes), the calls of `grpc_tcp_client_connect` made so
far are exactly those to the first `n` candidates of `a`, in list order, for
some `n` at most the number of candidates, each with the context of the
request and the deadline the caller supplied; while the request is in
flight `n` is its cursor. So the addresses connected to are a prefix of the
list: none twice, none skipped, at most as many as there are candidates.
When the resolve brings no list, no connect is ever issued. -/
theorem C15_failover_in_order (P : Externals σ) (ps : List Nat) (context pollset : Nat)
    (request : grpc_httpcli_request) (deadline : gpr_timespec) (on_response user_data : Nat)
    (w0 : World σ)
    (h0 : StartedWith P ps context pollset request deadline on_response user_data w0)
    (evs : List Event) (w : World σ) (hrun : run P w0 evs = .ok w) :
    w.armed.length ≤ 1 ∧
    (evs = [] ∨ ∃ x rest, evs = Event.on_resolved x :: rest) ∧
    ((evs = [] ∨ ∃ rest, evs = Event.on_resolved none :: rest) → connect_calls w.trace = []) ∧
    (∀ a rest, evs = Event.on_resolved (some a) :: rest →
      ∃ n, n ≤ a.naddrs ∧
        connect_calls w.trace = (a.addrs.take n).map (fun x => (context, x, deadline)) ∧
        connects w.trace = a.addrs.take n ∧
        connects w.trace <+: a.addrs ∧
        (∀ r, w.req = some r → r.next_address = n)) := by
  have hG0 := h0.to_started.good
  have hG := (run_good P evs w0 hG0).2 w hrun
  obtain ⟨r0, hr0, harm0, hadd0, _, _, _, _⟩ := h0.to_started.req
  obtain ⟨r0', hr0', _, _, hd0, hc0, _⟩ := h0.request_shape
  rw [hr0] at hr0'
  cases hr0'
  have hcc := h0.connect_calls
  refine ⟨armed_le_one hG.1, ?_⟩
  cases evs with
  | nil =>
    simp only [run, Except.ok.injEq] at hrun
    subst hrun
    exact ⟨Or.inl rfl, fun _ => hcc, fun a rest h => by cases h⟩
  | cons e rest =>
    rw [run] at hrun
    cases hs : step P w0 e with
    | error f => rw [hs] at hrun; cases hrun
    | ok w1 =>
      rw [hs] at hrun
      simp only at hrun
      obtain ⟨x, rfl⟩ := first_event P harm0 e w1 hs
      have ha : (Event.on_resolved x).op ∈ w0.armed := by simp [harm0, Event.op]
      obtain ⟨w2, a', k, h2, hshape, hcase⟩ := step_shape P w0 _ r0 hG0.1 hr0 ha
      rw [hs] at h2
      cases h2
      obtain ⟨_, hG1⟩ := step_good P w0 _ hG0 ha
      rw [hs] at hG1
      have hG1' : Good P w1 := by
        obtain ⟨h, hg⟩ := hG1
        cases h
        exact hg
      refine ⟨Or.inr ⟨x, rest, rfl⟩, ?_, ?_⟩
      · rintro (h | ⟨rest', h⟩)
        · cases h
        · simp only [List.cons.injEq, Event.on_resolved.injEq] at h
          obtain ⟨hx, hrest⟩ := h
          subst hx
          subst hrest
          rcases hcase with ⟨h1, _⟩ | ⟨_, h1, _⟩ | _
          · rw [hadd0] at h1; cases h1
          · cases h1
          · have hI : InOrder ⟨[]⟩ context deadline w1 := by
              rcases hshape with ⟨r1, acts, h1, _⟩ | ⟨r1, addr, pre, post, h1, _⟩ |
                ⟨r1, s, pre, h1, _, _, _, h5, h6⟩
              · exfalso
                have : step P w0 (Event.on_resolved none) =
                    .ok { req := none, pollset_set := w0.pollset_set.erase r0.pollset
                          armed := [], trace := w0.trace ++ finish_actions P r0 0 } := by
                  simp [step, Event.op, harm0, on_resolved, finish, hr0]
                rw [this] at hs
                cases hs
                cases h1
              · exfalso
                have : step P w0 (Event.on_resolved none) =
                    .ok { req := none, pollset_set := w0.pollset_set.erase r0.pollset
                          armed := [], trace := w0.trace ++ finish_actions P r0 0 } := by
                  simp [step, Event.op, harm0, on_resolved, finish, hr0]
                rw [this] at hs
                cases hs
                cases h1
              · refine ⟨0, Nat.zero_le _, ?_, fun r' hr' => ?_⟩
                · rw [h5, connect_calls_append, connect_calls_append, connect_calls_append, hcc,
                    connect_calls_quiet pre h6, connect_calls_finish_actions,
                    connect_calls_quiet _ (Quiet.unref _)]
                  rfl
                · rw [h1] at hr'; cases hr'
            have hI2 := run_invariant P (InOrder ⟨[]⟩ context deadline)
              (fun w w1 e r hG hQ hr ha hs =>
                step_in_order P ⟨[]⟩ context deadline w w1 e r hG hQ hr ha hs)
              rest w1 w hG1' hI hrun
            obtain ⟨n, _, hc, _⟩ := hI2
            rw [hc]
            simp
      · intro a rest' h
        simp only [List.cons.injEq, Event.on_resolved.injEq] at h
        obtain ⟨hx, hrest⟩ := h
        subst hx
        subst hrest
        rcases hcase with ⟨h1, _⟩ | ⟨_, h1, hk⟩ | ⟨_, h1⟩
        · rw [hadd0] at h1; cases h1
        · simp only [Event.on_resolved.injEq, Option.some.injEq] at h1
          subst h1
          subst hk
          have hI : InOrder a context deadline w1 :=
            shape_in_order P a context deadline w0 w1 r0 0 _ (Nat.zero_le _)
              (by rw [hcc]; rfl) hc0 hd0 hshape
          obtain ⟨n, hn, hc, hlive⟩ := run_invariant P (InOrder a context deadline)
            (fun w w1 e r hG hQ hr ha hs =>
              step_in_order P a context deadline w w1 e r hG hQ hr ha hs)
            rest w1 w hG1' hI hrun
          have hcs : connects w.trace = a.addrs.take n := by
            rw [connects_eq_connect_calls, hc, List.map_map]
            have : ((fun x : Nat × grpc_resolved_address × gpr_timespec => x.2.1) ∘
                fun x => (context, x, deadline)) = id := rfl
            rw [this, List.map_id]
          exact ⟨n, hn, hc, hcs, hcs ▸ List.take_prefix n a.addrs, fun r hr => (hlive r hr).2.1⟩
        · cases h1

theorem C15_failover_in_order_witness :
    StartedWith Ex.P [7] 1 9 Ex.request Ex.deadline 11 12 Ex.w0 ∧
    connects (final (run Ex.P Ex.w0 Ex.evs_leak_write)).trace <+: [Ex.a1, Ex.a2] ∧
    connect_calls (final (run Ex.P Ex.w0 Ex.evs_leak_write)).trace =
      [(1, Ex.a1, Ex.deadline), (1, Ex.a2, Ex.deadline)] :=
  ⟨⟨Ex.g, Or.inl ⟨rfl, rfl⟩⟩,
    Exists.elim
      ((C15_failover_in_order Ex.P [7] 1 9 Ex.request Ex.deadline 11 12 Ex.w0
        ⟨Ex.g, Or.inl ⟨rfl, rfl⟩⟩ Ex.evs_leak_write
        (final (run Ex.P Ex.w0 Ex.evs_leak_write)) rfl).2.2.2 ⟨[Ex.a1, Ex.a2]⟩
        [ Event.on_connected (some Ex.ep_pending), Event.done_write GRPC_ENDPOINT_CB_ERROR,
          Event.on_connected (some Ex.ep_error) ] rfl)
      (fun _ h => h.2.2.2.1),
    by decide⟩

theorem finish_actions_eq_done_calls (P : Externals σ) (r : internal_request σ) (s : Int) :
    finish_actions P r s = done_calls P r s := by
  unfold finish_actions done_calls
  by_cases hs : s = 0 <;> cases r.addresses <;> cases r.ep <;> simp [hs]

/-- C17. `finish` makes its calls in this order, for every request and both
values of `success`: `grpc_pollset_set_del_pollset`, the callback, then the
release of the parser, of the address list if there is one, of the stream if
there is one, of the request buffer reference, of the host string and of the
diagnostic object, then of the in-flight state. The callback is handed the
response of the parser as it stands (the parser is released after the call)
when `success` is non-zero, and a null response when it is zero. In every
completed run of a request the trace ends with these calls, followed only by
the release of the slices of a read, and the callback is invoked nowhere
else. -/
theorem C17_finish_order (P : Externals σ) (w : World σ) (r : internal_request σ)
    (success : Int) (hreq : w.req = some r) :
    finish P w success =
      .ok { req := none, pollset_set := w.pollset_set.erase r.pollset, armed := w.armed
            trace := w.trace ++
              ([ Action.grpc_pollset_set_del_pollset r.context r.pollset,
                 Action.on_response r.on_response r.user_data
                   (if success = 0 then none else some (P.parser_r r.parser)),
                 Action.grpc_httpcli_parser_destroy ] ++
               r.addresses.toList.map (fun _ => Action.grpc_resolved_addresses_destroy) ++
               r.ep.toList.map Action.grpc_endpoint_destroy ++
               [ Action.gpr_slice_unref r.request_text,
                 Action.gpr_free_host r.host,
                 Action.grpc_iomgr_unregister_object r.iomgr_obj,
                 Action.gpr_free_req ]) } ∧
    (∀ (w0 w1 : World σ) (evs : List Event), Started P w0 → run P w0 evs = .ok w1 →
      w1.armed = [] →
      ∃ (pre : List Action) (r1 : internal_request σ) (s : Int) (slices : List gpr_slice),
        callbacks pre = 0 ∧
        w1.trace = pre ++ done_calls P r1 s ++ slices.map Action.gpr_slice_unref) := by
  constructor
  · rw [finish_ok P w r success hreq, finish_actions_eq_done_calls]
    rfl
  · intro w0 w1 evs h0 hrun harm
    have hG := (run_good P evs w0 h0.good).2 w1 hrun
    rcases hG.2 with h | ⟨_, pre, r1, s, sl, hc, ht⟩
    · exact absurd harm (hG.1.armed_of_live h.1)
    · exact ⟨pre, r1, s, sl, hc, by rw [ht, finish_actions_eq_done_calls]⟩

theorem C17_finish_order_witness :
    Ex.w_committed.armed = [Op.read] ∧
    (final (step Ex.P Ex.w_committed (Event.on_read [[3]] GRPC_ENDPOINT_CB_EOF))).trace =
      Ex.w_committed.trace ++
        [ Action.grpc_httpcli_parser_parse [3], Action.grpc_httpcli_parser_eof,
          Action.grpc_pollset_set_del_pollset 1 9,
          Action.on_response 11 12 (some { status := 200, hdrs := [], body := [3] }),
          Action.grpc_httpcli_parser_destroy,
          Action.grpc_resolved_addresses_destroy,
          Action.grpc_endpoint_destroy Ex.ep_done,
          Action.gpr_slice_unref [71],
          Action.gpr_free_host "h",
          Action.grpc_iomgr_unregister_object "HTTP:GET:h:/p",
          Action.gpr_free_req,
          Action.gpr_slice_unref [3] ] ∧
    (final (finish Ex.P Ex.w_committed 0)).trace =
      Ex.w_committed.trace ++
        [ Action.grpc_pollset_set_del_pollset 1 9,
          Action.on_response 11 12 none,
          Action.grpc_httpcli_parser_destroy,
          Action.grpc_resolved_addresses_destroy,
          Action.grpc_endpoint_destroy Ex.ep_done,
          Action.gpr_slice_unref [71],
          Action.gpr_free_host "h",
          Action.grpc_iomgr_unregister_object "HTTP:GET:h:/p",
          Action.gpr_free_req ] :=
  ⟨rfl, by decide,
    (congrArg (fun x => (final x).trace)
      (C17_finish_order Ex.P Ex.w_committed _ 0 rfl).1).trans (by decide)⟩

theorem map_unref_nil (x : Except Fault (World σ)) : x.map (unref_slices []) = x := by
  cases x with
  | error f => rfl
  | ok w => simp [Except.map, unref_slices]

theorem next_address_call_step (P : Externals σ) (w wn : World σ) (e : Event)
    (ha : e.op ∈ w.armed) (h : next_address_call P w e = some wn) :
    step P w e = (next_address P wn).map (unref_slices e.slices) := by
  unfold next_address_call at h
  cases hr : w.req with
  | none => simp [hr] at h
  | some r =>
    simp only [hr] at h
    unfold step
    simp only [ha, if_true]
    cases e with
    | on_resolved x =>
      cases x with
      | none => simp at h
      | some a =>
        simp only [Option.some.injEq] at h
        subst h
        simp only [on_resolved, hr, Event.slices, map_unref_nil]
    | on_connected t =>
      cases t with
      | none =>
        simp only [Option.some.injEq] at h
        subst h
        simp only [on_connected, Event.slices, map_unref_nil, hr]
      | some t =>
        simp only at h
        cases hh : r.handshaker.handshake t r.host with
        | pending => simp [hh] at h
        | done ep =>
          cases ep with
          | some e => simp [hh] at h
          | none =>
            simp only [hh, Option.some.injEq] at h
            subst h
            simp only [on_connected, hr, hh, on_handshake_done, Event.slices, map_unref_nil]
    | on_handshake_done ep =>
      cases ep with
      | some e => simp at h
      | none =>
        simp only [Option.some.injEq] at h
        subst h
        simp only [on_handshake_done, Event.slices, map_unref_nil, hr]
    | done_write s =>
      cases s with
      | GRPC_ENDPOINT_CB_OK => simp at h
      | _ =>
        simp only [Option.some.injEq] at h
        subst h
        simp only [done_write, Event.slices, map_unref_nil, hr]
    | on_read sl st =>
      simp only at h
      rcases hl : on_read_loop P r.parser r.have_read_byte sl with ⟨failed, p, b, acts⟩
      rw [hl] at h
      simp only at h
      simp only []
      rw [on_read_of_loop P { w with armed := w.armed.erase (Event.on_read sl st).op } r sl st
        failed p b acts hr hl]
      cases failed with
      | true => simp at h
      | false =>
        simp only [Bool.false_eq_true, if_false] at h ⊢
        cases st with
        | GRPC_ENDPOINT_CB_OK => simp at h
        | _ =>
          simp only at h ⊢
          by_cases hb : b = 0
          · rw [if_pos hb] at h ⊢
            simp only [Option.some.injEq] at h
            subst h
            rfl
          · rw [if_neg hb] at h
            cases h

theorem next_address_call_req (P : Externals σ) (w wn : World σ) (e : Event)
    (r : internal_request σ) (hr : w.req = some r)
    (h : next_address_call P w e = some wn) :
    ∃ rn, wn.req = some rn ∧
      ((rn.addresses = r.addresses ∧ rn.next_address = r.next_address ∧ e.op ≠ Op.resolve) ∨
        (∃ a, rn.addresses = some a ∧ rn.next_address = 0)) := by
  unfold next_address_call at h
  simp only [hr] at h
  cases e with
  | on_resolved x =>
    cases x with
    | none => simp at h
    | some a =>
      simp only [Option.some.injEq] at h
      subst h
      exact ⟨_, rfl, Or.inr ⟨a, rfl, rfl⟩⟩
  | on_connected t =>
    cases t with
    | none =>
      simp only [Option.some.injEq] at h
      subst h
      exact ⟨r, rfl, Or.inl ⟨rfl, rfl, by simp [Event.op]⟩⟩
    | some t =>
      simp only at h
      cases hh : r.handshaker.handshake t r.host with
      | pending => simp [hh] at h
      | done ep =>
        cases ep with
        | some e => simp [hh] at h
        | none =>
          simp only [hh, Option.some.injEq] at h
          subst h
          exact ⟨r, rfl, Or.inl ⟨rfl, rfl, by simp [Event.op]⟩⟩
  | on_handshake_done ep =>
    cases ep with
    | some e => simp at h
    | none =>
      simp only [Option.some.injEq] at h
      subst h
      exact ⟨r, rfl, Or.inl ⟨rfl, rfl, by simp [Event.op]⟩⟩
  | done_write s =>
    cases s with
    | GRPC_ENDPOINT_CB_OK => simp at h
    | _ =>
      simp only [Option.some.injEq] at h
      subst h
      exact ⟨r, rfl, Or.inl ⟨rfl, rfl, by simp [Event.op]⟩⟩
  | on_read sl st =>
    simp only at h
    split at h
    · cases h
    · cases st with
      | GRPC_ENDPOINT_CB_OK => simp at h
      | _ =>
        simp only at h
        split at h
        · simp only [Option.some.injEq] at h
          subst h
          exact ⟨_, rfl, Or.inl ⟨rfl, rfl, by simp [Event.op]⟩⟩
        · cases h

theorem cursor_ok_of_armed {w : World σ} {r : internal_request σ} {op : Op} (hI : Inv w)
    (hr : w.req = some r) (ha : op ∈ w.armed) (hne : op ≠ Op.resolve) : CursorOk r := by
  unfold Inv at hI
  simp only [hr] at hI
  obtain ⟨op', hop, hinv⟩ := hI
  have : op = op' := by simpa [hop] using ha
  subst this
  cases op with
  | resolve => exact absurd rfl hne
  | connect => exact hinv.1
  | handshake => exact hinv.1
  | write => exact hinv.1
  | read => exact hinv.1

theorem next_address_ok_iff (P : Externals σ) (w : World σ) :
    (∃ w1, next_address P w = .ok w1) ↔
      ∃ r a, w.req = some r ∧ r.addresses = some a ∧ r.next_address ≤ a.naddrs := by
  constructor
  · rintro ⟨w1, h⟩
    unfold next_address at h
    cases hr : w.req with
    | none => rw [hr] at h; cases h
    | some r =>
      rw [hr] at h
      simp only at h
      cases had : r.addresses with
      | none => rw [had] at h; cases h
      | some a =>
        rw [had] at h
        simp only at h
        refine ⟨r, a, rfl, had, ?_⟩
        by_cases he : r.next_address = a.naddrs
        · exact Nat.le_of_eq he
        · rw [if_neg he] at h
          cases hg : a.addrs.get? r.next_address with
          | none => rw [hg] at h; cases h
          | some addr =>
            have hlt : r.next_address < a.addrs.length := by
              rcases Nat.lt_or_ge r.next_address a.addrs.length with h1 | h1
              · exact h1
              · rw [List.get?_eq_none.mpr h1] at hg; cases hg
            exact Nat.le_of_lt hlt
  · rintro ⟨r, a, hr, had, hle⟩
    by_cases he : r.next_address = a.naddrs
    · exact ⟨_, next_address_exhausted P w r a hr had he⟩
    · have hlt : r.next_address < a.addrs.length := lt_of_le_of_ne hle he
      exact ⟨_, next_address_connect P w r a _ hr had (List.get?_eq_get hlt)⟩

theorem reachable_cursor {w : World σ} (hI : Inv w) (r : internal_request σ)
    (hr : w.req = some r) :
    (r.addresses = none ∧ w.armed = [Op.resolve]) ∨
      ∃ a, r.addresses = some a ∧ r.next_address ≤ a.naddrs := by
  unfold Inv at hI
  simp only [hr] at hI
  obtain ⟨op, hop, hinv⟩ := hI
  cases op with
  | resolve => exact Or.inl ⟨hinv.1, hop⟩
  | connect => exact Or.inr hinv.1
  | handshake => exact Or.inr hinv.1
  | write => exact Or.inr hinv.1
  | read => exact Or.inr hinv.1

/-- C18. In a run of a request, every completion of an armed operation is
handled without a fault. `next_address` returns without a fault exactly
when the address list is non-null and the cursor is at most `naddrs` (a null
list and an index outside `addrs` are faults of the embedding), so no
execution of `next_address`, whichever handler it comes from, sees a null
list or a cursor beyond `naddrs`. Between completions the list is null only
while the resolution is outstanding, and otherwise the cursor is at most
`naddrs`. Where the handler calls `next_address` (the world it is called on
is given by `next_address_call`, and the handler does nothing else but
release the slices of the read), the address list is non-null and the
cursor is at most `naddrs`: when the cursor is not equal to `naddrs` it is
below it and `addrs[next_address]` is an element of the list; `next_address`
returns without a fault, and the cursor it leaves is again at most
`naddrs`. -/
theorem C18_cursor_in_bounds (P : Externals σ) (w0 w : World σ) (evs : List Event)
    (e : Event) (h0 : Started P w0) (hrun : run P w0 evs = .ok w) (ha : e.op ∈ w.armed) :
    (∃ w1, step P w e = .ok w1) ∧
    (∀ wx : World σ, (∃ w1, next_address P wx = .ok w1) ↔
      ∃ r a, wx.req = some r ∧ r.addresses = some a ∧ r.next_address ≤ a.naddrs) ∧
    (∀ r, w.req = some r →
      (r.addresses = none ∧ w.armed = [Op.resolve]) ∨
        ∃ a, r.addresses = some a ∧ r.next_address ≤ a.naddrs) ∧
    (∀ wn, next_address_call P w e = some wn →
      step P w e = (next_address P wn).map (unref_slices e.slices) ∧
      ∃ r a, wn.req = some r ∧ r.addresses = some a ∧ r.next_address ≤ a.naddrs ∧
        (r.next_address ≠ a.naddrs →
          r.next_address < a.naddrs ∧ ∃ addr, a.addrs.get? r.next_address = some addr) ∧
        ∃ w1, next_address P wn = .ok w1 ∧
          ∀ r1, w1.req = some r1 → r1.addresses = some a ∧ r1.next_address ≤ a.naddrs) := by
  have hG := (run_good P evs w0 h0.good).2 w hrun
  obtain ⟨w1, hs, _⟩ := step_good P w e hG ha
  refine ⟨⟨w1, hs⟩, next_address_ok_iff P, fun r hr => reachable_cursor hG.1 r hr,
    fun wn hcall => ⟨next_address_call_step P w wn e ha hcall, ?_⟩⟩
  have hl : w.req ≠ none := hG.1.live_of_armed (List.ne_nil_of_mem ha)
  cases hr : w.req with
  | none => exact absurd hr hl
  | some r =>
    obtain ⟨rn, hrn, hcase⟩ := next_address_call_req P w wn e r hr hcall
    have hc : CursorOk rn := by
      rcases hcase with ⟨h1, h2, h3⟩ | ⟨a, h1, h2⟩
      · obtain ⟨a, h4, h5⟩ := cursor_ok_of_armed hG.1 hr ha h3
        exact ⟨a, h1.trans h4, h2 ▸ h5⟩
      · exact ⟨a, h1, h2 ▸ Nat.zero_le _⟩
    obtain ⟨a, h1, h2⟩ := hc
    refine ⟨rn, a, hrn, h1, h2, fun hne => ?_, ?_⟩
    · have hlt : rn.next_address < a.addrs.length := lt_of_le_of_ne h2 hne
      exact ⟨hlt, a.addrs.get ⟨_, hlt⟩, List.get?_eq_get hlt⟩
    · by_cases he : rn.next_address = a.naddrs
      · refine ⟨_, next_address_exhausted P wn rn a hrn h1 he, fun r1 hr1 => ?_⟩
        cases hr1
      · have hlt : rn.next_address < a.addrs.length := lt_of_le_of_ne h2 he
        refine ⟨_, next_address_connect P wn rn a _ hrn h1 (List.get?_eq_get hlt),
          fun r1 hr1 => ?_⟩
        simp only [Option.some.injEq] at hr1
        subst hr1
        exact ⟨h1, hlt⟩

theorem C18_cursor_in_bounds_witness :
    Started Ex.P Ex.w0 ∧
    run Ex.P Ex.w0 Ex.evs_writing = .ok Ex.w_writing ∧
    (Event.done_write GRPC_ENDPOINT_CB_ERROR).op ∈ Ex.w_writing.armed ∧
    (∃ w1, step Ex.P Ex.w_writing (Event.done_write GRPC_ENDPOINT_CB_ERROR) = .ok w1) ∧
    next_address_call Ex.P Ex.w_writing (Event.done_write GRPC_ENDPOINT_CB_ERROR) =
      some { Ex.w_writing with armed := [] } ∧
    step Ex.P Ex.w_writing (Event.done_write GRPC_ENDPOINT_CB_ERROR) =
      (next_address Ex.P { Ex.w_writing with armed := [] }).map (unref_slices []) :=
  ⟨Ex.started, rfl, by decide,
    (C18_cursor_in_bounds Ex.P Ex.w0 Ex.w_writing Ex.evs_writing (Event.done_write GRPC_ENDPOINT_CB_ERROR)
      Ex.started rfl (by decide)).1,
    rfl,
    ((C18_cursor_in_bounds Ex.P Ex.w0 Ex.w_writing Ex.evs_writing (Event.done_write GRPC_ENDPOINT_CB_ERROR)
      Ex.started rfl (by decide)).2.2.2 { Ex.w_writing with armed := [] } rfl).1⟩

theorem same_calls_refl (tg tp : gpr_slice) (l : List Action) :
    List.Forall₂ (SameCall tg tp) l l := by
  induction l with
  | nil => exact List.Forall₂.nil
  | cons x xs ih => exact List.Forall₂.cons (SameCall.same x) ih

theorem same_calls_append {tg tp : gpr_slice} {a a' b b' : List Action}
    (h1 : List.Forall₂ (SameCall tg tp) a a') (h2 : List.Forall₂ (SameCall tg tp) b b') :
    List.Forall₂ (SameCall tg tp) (a ++ b) (a' ++ b') := by
  induction h1 with
  | nil => exact h2
  | cons h _ ih => exact List.Forall₂.cons h ih

theorem same_calls_finish_actions (P : Externals σ) (tg tp : gpr_slice)
    (r : internal_request σ) (s : Int) (h : r.request_text = tg) :
    List.Forall₂ (SameCall tg tp) (finish_actions P r s) (finish_actions P (set_text tp r) s) := by
  subst h
  unfold finish_actions set_text
  apply same_calls_append
  · exact same_calls_refl _ _ _
  · exact List.Forall₂.cons SameCall.unref (same_calls_refl _ _ _)

theorem Twin.mk_ok {tg tp : gpr_slice} {t0 t0' ag ap : List Action} {w : World σ}
    (ht : ∀ r, w.req = some r → r.request_text = tg) (hw : w.trace = t0 ++ ag)
    (hrel : List.Forall₂ (SameCall tg tp) ag ap) :
    TwinR tg tp t0 t0' (.ok w) (.ok (twin tp (t0' ++ ap) w)) :=
  ⟨ht, ag, ap, hw, rfl, hrel⟩

theorem finish_twin (P : Externals σ) (tg tp : gpr_slice) (t0 t0' ag ap : List Action)
    (w : World σ) (s : Int) (ht : ∀ r, w.req = some r → r.request_text = tg)
    (hw : w.trace = t0 ++ ag) (hrel : List.Forall₂ (SameCall tg tp) ag ap) :
    TwinR tg tp t0 t0' (finish P w s) (finish P (twin tp (t0' ++ ap) w) s) := by
  obtain ⟨req, ps, armed, trace⟩ := w
  cases req with
  | none => exact rfl
  | some r =>
    simp only at hw
    subst hw
    exact ⟨(fun r' hr' => by cases hr'), ag ++ finish_actions P r s,
      ap ++ finish_actions P (set_text tp r) s, by simp, by simp [twin, set_text],
      same_calls_append hrel (same_calls_finish_actions P tg tp r s (ht r rfl))⟩

theorem next_address_twin (P : Externals σ) (tg tp : gpr_slice) (t0 t0' ag ap : List Action)
    (w : World σ) (ht : ∀ r, w.req = some r → r.request_text = tg)
    (hw : w.trace = t0 ++ ag) (hrel : List.Forall₂ (SameCall tg tp) ag ap) :
    TwinR tg tp t0 t0' (next_address P w) (next_address P (twin tp (t0' ++ ap) w)) := by
  have hf := finish_twin P tg tp t0 t0' ag ap w 0 ht hw hrel
  obtain ⟨req, ps, armed, trace⟩ := w
  cases req with
  | none => exact rfl
  | some r =>
    simp only at hw
    subst hw
    have htg : r.request_text = tg := ht r rfl
    obtain ⟨text, parser, addresses, cursor, ep, host, dl, hrb, hs, cb, ud, ctx, pollset, obj⟩ := r
    unfold next_address
    simp only [twin, Option.map_some', set_text] at hf ⊢
    cases addresses with
    | none => exact rfl
    | some a =>
      simp only []
      split
      · exact hf
      · cases hg : a.addrs.get? cursor with
        | none => exact rfl
        | some addr =>
          exact ⟨(fun r' hr' => by cases hr'; exact htg),
            ag ++ [Action.grpc_tcp_client_connect ctx addr dl],
            ap ++ [Action.grpc_tcp_client_connect ctx addr dl], by simp,
            by simp [twin, set_text],
            same_calls_append hrel (same_calls_refl _ _ _)⟩

theorem on_written_twin (tg tp : gpr_slice) (t0 t0' ag ap : List Action)
    (w : World σ) (ht : ∀ r, w.req = some r → r.request_text = tg)
    (hw : w.trace = t0 ++ ag) (hrel : List.Forall₂ (SameCall tg tp) ag ap) :
    TwinR tg tp t0 t0' (on_written w) (on_written (twin tp (t0' ++ ap) w)) := by
  obtain ⟨req, ps, armed, trace⟩ := w
  cases req with
  | none => exact rfl
  | some r =>
    simp only at hw
    subst hw
    have htg : r.request_text = tg := ht r rfl
    obtain ⟨text, parser, addresses, cursor, ep, host, dl, hrb, hs, cb, ud, ctx, pollset, obj⟩ := r
    unfold on_written
    simp only [twin, Option.map_some', set_text]
    cases ep with
    | none => exact rfl
    | some e =>
      exact ⟨(fun r' hr' => by cases hr'; exact htg),
        ag ++ [Action.grpc_endpoint_notify_on_read e],
        ap ++ [Action.grpc_endpoint_notify_on_read e], by simp, by simp [twin, set_text],
        same_calls_append hrel (same_calls_refl _ _ _)⟩

theorem start_write_twin (P : Externals σ) (tg tp : gpr_slice) (t0 t0' ag ap : List Action)
    (w : World σ) (ht : ∀ r, w.req = some r → r.request_text = tg)
    (hw : w.trace = t0 ++ ag) (hrel : List.Forall₂ (SameCall tg tp) ag ap) :
    TwinR tg tp t0 t0' (start_write P w) (start_write P (twin tp (t0' ++ ap) w)) := by
  obtain ⟨req, ps, armed, trace⟩ := w
  cases req with
  | none => exact rfl
  | some r =>
    simp only at hw
    subst hw
    have htg : r.request_text = tg := ht r rfl
    obtain ⟨text, parser, addresses, cursor, ep, host, dl, hrb, hs, cb, ud, ctx, pollset, obj⟩ := r
    simp only at htg
    subst htg
    unfold start_write
    simp only [twin, Option.map_some', set_text]
    cases ep with
    | none => exact rfl
    | some e =>
      simp only []
      have hrel2 : List.Forall₂ (SameCall text tp)
          (ag ++ [Action.gpr_slice_ref text, Action.grpc_endpoint_write e text])
          (ap ++ [Action.gpr_slice_ref tp, Action.grpc_endpoint_write e tp]) :=
        same_calls_append hrel
          (List.Forall₂.cons SameCall.ref
            (List.Forall₂.cons (SameCall.write e) List.Forall₂.nil))
      cases e.write_status with
      | GRPC_ENDPOINT_WRITE_DONE =>
        have := on_written_twin text tp t0 t0' _ _
          { req := some ⟨text, parser, addresses, cursor, some e, host, dl, hrb, hs, cb, ud, ctx,
              pollset, obj⟩
            pollset_set := ps, armed := armed
            trace := t0 ++ ag ++ [Action.gpr_slice_ref text, Action.grpc_endpoint_write e text] }
          ht (by simp) hrel2
        simpa [twin, set_text, List.append_assoc] using this
      | GRPC_ENDPOINT_WRITE_PENDING =>
        exact ⟨(fun r' hr' => by cases hr'; rfl), _, _,
          (List.append_assoc _ _ _), by simp [twin, set_text], hrel2⟩
      | GRPC_ENDPOINT_WRITE_ERROR =>
        have := finish_twin P text tp t0 t0' _ _
          { req := some ⟨text, parser, addresses, cursor, some e, host, dl, hrb, hs, cb, ud, ctx,
              pollset, obj⟩
            pollset_set := ps, armed := armed
            trace := t0 ++ ag ++ [Action.gpr_slice_ref text, Action.grpc_endpoint_write e text] }
          0 ht (by simp) hrel2
        simpa [twin, set_text, List.append_assoc] using this

theorem on_handshake_done_twin (P : Externals σ) (tg tp : gpr_slice)
    (t0 t0' ag ap : List Action) (w : World σ) (e : Option grpc_endpoint)
    (ht : ∀ r, w.req = some r → r.request_text = tg)
    (hw : w.trace = t0 ++ ag) (hrel : List.Forall₂ (SameCall tg tp) ag ap) :
    TwinR tg tp t0 t0' (on_handshake_done P w e)
      (on_handshake_done P (twin tp (t0' ++ ap) w) e) := by
  unfold on_handshake_done
  cases e with
  | none => exact next_address_twin P tg tp t0 t0' ag ap w ht hw hrel
  | some e =>
    obtain ⟨req, ps, armed, trace⟩ := w
    cases req with
    | none => exact rfl
    | some r =>
      simp only at hw
      subst hw
      have htg : r.request_text = tg := ht r rfl
      obtain ⟨text, parser, addresses, cursor, ep, host, dl, hrb, hs, cb, ud, ctx, pollset, obj⟩ := r
      have := start_write_twin P tg tp t0 t0' ag ap
        { req := some ⟨text, parser, addresses, cursor, some e, host, dl, hrb, hs, cb, ud, ctx,
            pollset, obj⟩
          pollset_set := ps, armed := armed, trace := t0 ++ ag }
        (fun r' hr' => by cases hr'; exact htg) rfl hrel
      simpa [twin, set_text] using this

theorem on_connected_twin (P : Externals σ) (tg tp : gpr_slice)
    (t0 t0' ag ap : List Action) (w : World σ) (t : Option grpc_endpoint)
    (ht : ∀ r, w.req = some r → r.request_text = tg)
    (hw : w.trace = t0 ++ ag) (hrel : List.Forall₂ (SameCall tg tp) ag ap) :
    TwinR tg tp t0 t0' (on_connected P w t) (on_connected P (twin tp (t0' ++ ap) w) t) := by
  unfold on_connected
  cases t with
  | none => exact next_address_twin P tg tp t0 t0' ag ap w ht hw hrel
  | some t =>
    obtain ⟨req, ps, armed, trace⟩ := w
    cases req with
    | none => exact rfl
    | some r =>
      simp only at hw
      subst hw
      have htg : r.request_text = tg := ht r rfl
      obtain ⟨text, parser, addresses, cursor, ep, host, dl, hrb, hs, cb, ud, ctx, pollset, obj⟩ := r
      simp only [twin, Option.map_some', set_text]
      have hrel2 : List.Forall₂ (SameCall tg tp)
          (ag ++ [Action.handshake hs.default_port t host])
          (ap ++ [Action.handshake hs.default_port t host]) :=
        same_calls_append hrel (same_calls_refl _ _ _)
      cases hs.handshake t host with
      | done e =>
        have := on_handshake_done_twin P tg tp t0 t0' _ _
          { req := some ⟨text, parser, addresses, cursor, ep, host, dl, hrb, hs, cb, ud, ctx,
              pollset, obj⟩
            pollset_set := ps, armed := armed
            trace := t0 ++ ag ++ [Action.handshake hs.default_port t host] } e
          (fun r' hr' => by cases hr'; exact htg) (by simp) hrel2
        simpa [twin, set_text, List.append_assoc] using this
      | pending =>
        exact ⟨(fun r' hr' => by cases hr'; exact htg), _, _,
          (List.append_assoc _ _ _), by simp [twin, set_text], hrel2⟩

theorem on_resolved_twin (P : Externals σ) (tg tp : gpr_slice)
    (t0 t0' ag ap : List Action) (w : World σ) (x : Option grpc_resolved_addresses)
    (ht : ∀ r, w.req = some r → r.request_text = tg)
    (hw : w.trace = t0 ++ ag) (hrel : List.Forall₂ (SameCall tg tp) ag ap) :
    TwinR tg tp t0 t0' (on_resolved P w x) (on_resolved P (twin tp (t0' ++ ap) w) x) := by
  unfold on_resolved
  cases x with
  | none => exact finish_twin P tg tp t0 t0' ag ap w 0 ht hw hrel
  | some a =>
    obtain ⟨req, ps, armed, trace⟩ := w
    cases req with
    | none => exact rfl
    | some r =>
      simp only at hw
      subst hw
      have htg : r.request_text = tg := ht r rfl
      obtain ⟨text, parser, addresses, cursor, ep, host, dl, hrb, hs, cb, ud, ctx, pollset, obj⟩ := r
      have := next_address_twin P tg tp t0 t0' ag ap
        { req := some ⟨text, parser, some a, 0, ep, host, dl, hrb, hs, cb, ud, ctx,
            pollset, obj⟩
          pollset_set := ps, armed := armed, trace := t0 ++ ag }
        (fun r' hr' => by cases hr'; exact htg) rfl hrel
      simpa [twin, set_text] using this

theorem done_write_twin (P : Externals σ) (tg tp : gpr_slice)
    (t0 t0' ag ap : List Action) (w : World σ) (s : grpc_endpoint_cb_status)
    (ht : ∀ r, w.req = some r → r.request_text = tg)
    (hw : w.trace = t0 ++ ag) (hrel : List.Forall₂ (SameCall tg tp) ag ap) :
    TwinR tg tp t0 t0' (done_write P w s) (done_write P (twin tp (t0' ++ ap) w) s) := by
  cases s
  · exact on_written_twin tg tp t0 t0' ag ap w ht hw hrel
  all_goals exact next_address_twin P tg tp t0 t0' ag ap w ht hw hrel

theorem map_unref_twin (tg tp : gpr_slice) (t0 t0' : List Action) (sl : List gpr_slice)
    (x y : Except Fault (World σ)) (h : TwinR tg tp t0 t0' x y) :
    TwinR tg tp t0 t0' (x.map (unref_slices sl)) (y.map (unref_slices sl)) := by
  cases x with
  | error f =>
    cases y with
    | error f' => exact h
    | ok w' => exact h
  | ok w =>
    cases y with
    | error f' => exact h
    | ok w' =>
      obtain ⟨ht, ag, ap, hw, hw', hrel⟩ := h
      subst hw'
      exact ⟨ht, ag ++ sl.map Action.gpr_slice_unref, ap ++ sl.map Action.gpr_slice_unref,
        by simp [unref_slices, hw], by simp [unref_slices, twin],
        same_calls_append hrel (same_calls_refl _ _ _)⟩

theorem on_read_twin (P : Externals σ) (tg tp : gpr_slice)
    (t0 t0' ag ap : List Action) (w : World σ) (sl : List gpr_slice)
    (s : grpc_endpoint_cb_status)
    (ht : ∀ r, w.req = some r → r.request_text = tg)
    (hw : w.trace = t0 ++ ag) (hrel : List.Forall₂ (SameCall tg tp) ag ap) :
    TwinR tg tp t0 t0' (on_read P w sl s) (on_read P (twin tp (t0' ++ ap) w) sl s) := by
  obtain ⟨req, ps, armed, trace⟩ := w
  cases req with
  | none => exact rfl
  | some r =>
    simp only at hw
    subst hw
    have htg : r.request_text = tg := ht r rfl
    obtain ⟨text, parser, addresses, cursor, ep, host, dl, hrb, hs, cb, ud, ctx, pollset, obj⟩ := r
    rcases hl : on_read_loop P parser hrb sl with ⟨failed, p, b, acts⟩
    rw [on_read_of_loop P _ _ sl s failed p b acts rfl hl,
      on_read_of_loop P
        (twin tp (t0' ++ ap)
          { req := some ⟨text, parser, addresses, cursor, ep, host, dl, hrb, hs, cb, ud, ctx,
              pollset, obj⟩
            pollset_set := ps, armed := armed, trace := t0 ++ ag })
        ⟨tp, parser, addresses, cursor, ep, host, dl, hrb, hs, cb, ud, ctx, pollset, obj⟩
        sl s failed p b acts rfl hl]
    have hrel2 : List.Forall₂ (SameCall tg tp) (ag ++ acts) (ap ++ acts) :=
      same_calls_append hrel (same_calls_refl _ _ _)
    have hrel3 : List.Forall₂ (SameCall tg tp) (ag ++ acts ++ [Action.grpc_httpcli_parser_eof])
        (ap ++ acts ++ [Action.grpc_httpcli_parser_eof]) :=
      same_calls_append hrel2 (same_calls_refl _ _ _)
    have ht2 : ∀ (t : List Action) (r' : internal_request σ),
        ({ req := some ⟨text, p, addresses, cursor, ep, host, dl, b, hs, cb, ud, ctx,
              pollset, obj⟩
           pollset_set := ps, armed := armed, trace := t } : World σ).req = some r' →
        r'.request_text = tg := fun t r' hr' => by cases hr'; exact htg
    simp only [twin, Option.map_some', set_text]
    cases failed with
    | true =>
      simp only [if_true]
      apply map_unref_twin
      have := finish_twin P tg tp t0 t0' _ _ _ 0 (ht2 (t0 ++ ag ++ acts)) (by simp) hrel2
      simpa [twin, set_text, List.append_assoc] using this
    | false =>
      cases s with
      | GRPC_ENDPOINT_CB_OK =>
        simp only [Bool.false_eq_true, if_false]
        apply map_unref_twin
        have := on_written_twin tg tp t0 t0' _ _ _ (ht2 (t0 ++ ag ++ acts)) (by simp) hrel2
        simpa [twin, set_text, List.append_assoc] using this
      | _ =>
        simp only [Bool.false_eq_true, if_false]
        by_cases hb : b = 0
        · simp only [hb, if_true]
          subst hb
          apply map_unref_twin
          have := next_address_twin P tg tp t0 t0' _ _ _ (ht2 (t0 ++ ag ++ acts)) (by simp) hrel2
          simpa [twin, set_text, List.append_assoc] using this
        · simp only [hb, if_false]
          apply map_unref_twin
          have := finish_twin P tg tp t0 t0' _ _ _ (P.grpc_httpcli_parser_eof p)
            (ht2 (t0 ++ ag ++ acts ++ [Action.grpc_httpcli_parser_eof])) (by simp) hrel3
          simpa [twin, set_text, List.append_assoc] using this

theorem step_twin (P : Externals σ) (tg tp : gpr_slice) (t0 t0' : List Action)
    (w w' : World σ) (e : Event) (h : Twin tg tp t0 t0' w w') :
    TwinR tg tp t0 t0' (step P w e) (step P w' e) := by
  obtain ⟨ht, ag, ap, hw, rfl, hrel⟩ := h
  unfold step
  have e1 : (twin tp (t0' ++ ap) w).armed = w.armed := rfl
  rw [e1]
  by_cases ha : e.op ∈ w.armed
  · simp only [ha, if_true]
    have e2 : ({ twin tp (t0' ++ ap) w with armed := w.armed.erase e.op } : World σ) =
        twin tp (t0' ++ ap) { w with armed := w.armed.erase e.op } := rfl
    rw [e2]
    cases e with
    | on_resolved x => exact on_resolved_twin P tg tp t0 t0' ag ap _ x ht hw hrel
    | on_connected t => exact on_connected_twin P tg tp t0 t0' ag ap _ t ht hw hrel
    | on_handshake_done ep => exact on_handshake_done_twin P tg tp t0 t0' ag ap _ ep ht hw hrel
    | done_write s => exact done_write_twin P tg tp t0 t0' ag ap _ s ht hw hrel
    | on_read sl s => exact on_read_twin P tg tp t0 t0' ag ap _ sl s ht hw hrel
  · simp only [ha, if_false]
    exact rfl

theorem run_twin (P : Externals σ) (tg tp : gpr_slice) (t0 t0' : List Action)
    (evs : List Event) :
    ∀ (w w' : World σ), Twin tg tp t0 t0' w w' →
      TwinR tg tp t0 t0' (run P w evs) (run P w' evs) := by
  induction evs with
  | nil => exact fun w w' h => h
  | cons e es ih =>
    intro w w' h
    have hs := step_twin P tg tp t0 t0' w w' e h
    rw [run, run]
    cases h1 : step P w e with
    | error f =>
      cases h2 : step P w' e with
      | error f' => rw [h1, h2] at hs; exact hs
      | ok w2' => rw [h1, h2] at hs; exact hs.elim
    | ok w2 =>
      cases h2 : step P w' e with
      | error f' => rw [h1, h2] at hs; exact hs.elim
      | ok w2' =>
        rw [h1, h2] at hs
        exact ih w2 w2' hs

/-- C19. For the same request, context, pollset, deadline, callback and user
data, no override hook claiming the request: the in-flight states that
`grpc_httpcli_get` and `grpc_httpcli_post` create agree in every field but
`request_text` (the GET text in one, the POST text in the other); in
particular the diagnostic object is registered under
`"HTTP:GET:<host>:<path>"` by both. The pollset set and the armed operation
are the same, and the calls made are the same but for the formatter called
(and the hook consulted, if any): allocation, formatter, parser
initialisation, registration, pollset add, resolve of the host and the
default port. From there the two run the same machine: for every sequence of
completions the two runs fault alike or end in worlds that are the same but
for the request buffer, the calls made corresponding one to one. -/
theorem C19_get_post_same_machine (P : Externals σ) (g : Globals) (ps : List Nat)
    (context pollset : Nat) (request : grpc_httpcli_request) (body_bytes : List Nat)
    (deadline : gpr_timespec) (on_response user_data : Nat)
    (hg : (get_override_check g (idle ps : World σ) request deadline
        on_response user_data).1 = false)
    (hp : (post_override_check g (idle ps : World σ) request body_bytes deadline
        on_response user_data).1 = false) :
    (∃ rg,
      (grpc_httpcli_get P g (idle ps) context pollset request deadline on_response
        user_data).req = some rg ∧
      rg.request_text = P.grpc_httpcli_format_get_request request ∧
      rg.iomgr_obj = "HTTP:GET:" ++ request.host ++ ":" ++ request.path ∧
      (grpc_httpcli_post P g (idle ps) context pollset request body_bytes deadline on_response
        user_data).req =
        some { rg with
          request_text := P.grpc_httpcli_format_post_request request body_bytes }) ∧
    (grpc_httpcli_post P g (idle ps) context pollset request body_bytes deadline on_response
        user_data).pollset_set =
      (grpc_httpcli_get P g (idle ps) context pollset request deadline on_response
        user_data).pollset_set ∧
    (grpc_httpcli_post P g (idle ps) context pollset request body_bytes deadline on_response
        user_data).armed =
      (grpc_httpcli_get P g (idle ps) context pollset request deadline on_response
        user_data).armed ∧
    (∃ hook_get hook_post,
      (hook_get = [] ∨ hook_get = [Action.g_get_override]) ∧
      (hook_post = [] ∨ hook_post = [Action.g_post_override]) ∧
      (grpc_httpcli_get P g (idle ps) context pollset request deadline on_response
        user_data).trace =
        hook_get ++
          [ Action.gpr_malloc, Action.grpc_httpcli_format_get_request,
            Action.grpc_httpcli_parser_init,
            Action.grpc_iomgr_register_object
              ("HTTP:GET:" ++ request.host ++ ":" ++ request.path),
            Action.grpc_pollset_set_add_pollset context pollset,
            Action.grpc_resolve_address request.host
              (chosen_handshaker request).default_port ] ∧
      (grpc_httpcli_post P g (idle ps) context pollset request body_bytes deadline on_response
        user_data).trace =
        hook_post ++
          [ Action.gpr_malloc, Action.grpc_httpcli_format_post_request,
            Action.grpc_httpcli_parser_init,
            Action.grpc_iomgr_register_object
              ("HTTP:GET:" ++ request.host ++ ":" ++ request.path),
            Action.grpc_pollset_set_add_pollset context pollset,
            Action.grpc_resolve_address request.host
              (chosen_handshaker request).default_port ]) ∧
    (∀ evs : List Event,
      TwinR (P.grpc_httpcli_format_get_request request)
        (P.grpc_httpcli_format_post_request request body_bytes)
        (grpc_httpcli_get P g (idle ps) context pollset request deadline on_response
          user_data).trace
        (grpc_httpcli_post P g (idle ps) context pollset request body_bytes deadline
          on_response user_data).trace
        (run P (grpc_httpcli_get P g (idle ps) context pollset request deadline on_response
          user_data) evs)
        (run P (grpc_httpcli_post P g (idle ps) context pollset request body_bytes deadline
          on_response user_data) evs)) := by
  have eg : ∃ hook_get, (hook_get = [] ∨ hook_get = [Action.g_get_override]) ∧
      grpc_httpcli_get P g (idle ps) context pollset request deadline on_response user_data =
        start_engine P { req := none, pollset_set := ps, armed := [], trace := hook_get }
          (P.grpc_httpcli_format_get_request request) Action.grpc_httpcli_format_get_request
          context pollset request deadline on_response user_data := by
    cases h : g.g_get_override with
    | none =>
      exact ⟨[], Or.inl rfl, get_start_engine_none P g (idle ps) context pollset request deadline
        on_response user_data h⟩
    | some hook =>
      have hz : hook request deadline on_response user_data = 0 := by
        simpa [get_override_check, h] using hg
      exact ⟨[Action.g_get_override], Or.inr rfl,
        get_start_engine_some P g (idle ps) context pollset request deadline on_response
          user_data hook h hz⟩
  have ep : ∃ hook_post, (hook_post = [] ∨ hook_post = [Action.g_post_override]) ∧
      grpc_httpcli_post P g (idle ps) context pollset request body_bytes deadline on_response
          user_data =
        start_engine P { req := none, pollset_set := ps, armed := [], trace := hook_post }
          (P.grpc_httpcli_format_post_request request body_bytes)
          Action.grpc_httpcli_format_post_request
          context pollset request deadline on_response user_data := by
    cases h : g.g_post_override with
    | none =>
      exact ⟨[], Or.inl rfl, post_start_engine_none P g (idle ps) context pollset request
        body_bytes deadline on_response user_data h⟩
    | some hook =>
      have hz : hook request body_bytes deadline on_response user_data = 0 := by
        simpa [post_override_check, h] using hp
      exact ⟨[Action.g_post_override], Or.inr rfl,
        post_start_engine_some P g (idle ps) context pollset request body_bytes deadline
          on_response user_data hook h hz⟩
  obtain ⟨hookg, hhg, e1⟩ := eg
  obtain ⟨hookp, hhp, e2⟩ := ep
  rw [e1, e2]
  refine ⟨⟨_, rfl, rfl, rfl, rfl⟩, rfl, rfl, ⟨hookg, hookp, hhg, hhp, ?_, ?_⟩, fun evs => ?_⟩
  · rw [← chosen_handshaker_eq]; rfl
  · rw [← chosen_handshaker_eq]; rfl
  · apply run_twin
    refine ⟨fun r hr => ?_, [], [], by simp, ?_, List.Forall₂.nil⟩
    · simp only [start_engine, Option.some.injEq] at hr
      subst hr
      rfl
    · simp [twin, start_engine, set_text]

theorem C19_get_post_same_machine_witness :
    (get_override_check Ex.g (idle [7] : World Nat) Ex.request Ex.deadline 11 12).1 = false ∧
    (post_override_check Ex.g (idle [7] : World Nat) Ex.request [1, 2] Ex.deadline 11 12).1 =
      false ∧
    TwinR [71] [80, 1, 2] Ex.w0.trace Ex.w0_post.trace
      (run Ex.P Ex.w0 Ex.evs_ok) (run Ex.P Ex.w0_post Ex.evs_ok) :=
  ⟨rfl, rfl,
    (C19_get_post_same_machine Ex.P Ex.g [7] 1 9 Ex.request [1, 2] Ex.deadline 11 12
      rfl rfl).2.2.2.2 Ex.evs_ok⟩

theorem fold_bytes_nil {S : Type} (byte : S → Nat → Option S) (p : Option S) :
    fold_bytes byte p [] = p := by
  cases p <;> rfl

theorem fold_bytes_append {S : Type} (byte : S → Nat → Option S) (p : Option S)
    (a b : List Nat) :
    fold_bytes byte p (a ++ b) = fold_bytes byte (fold_bytes byte p a) b := by
  cases p with
  | none => rfl
  | some st => simp [fold_bytes, List.foldlM_append]

theorem fold_bytes_none {S : Type} (byte : S → Nat → Option S) (b : List Nat) :
    fold_bytes byte none b = none := rfl

theorem fold_loop {S : Type} (init : S) (byte : S → Nat → Option S) (complete : S → Int)
    (resp : S → grpc_httpcli_response) (fg : grpc_httpcli_request → gpr_slice)
    (fp : grpc_httpcli_request → List Nat → gpr_slice) (chunks : List gpr_slice) :
    ∀ (p : Option S) (b : Int),
      ((on_read_loop (parser_as_fold init byte complete resp fg fp) p b chunks).1 = true →
        fold_bytes byte p chunks.flatten = none ∧ chunks.flatten ≠ []) ∧
      ((on_read_loop (parser_as_fold init byte complete resp fg fp) p b chunks).1 = false →
        (on_read_loop (parser_as_fold init byte complete resp fg fp) p b chunks).2.1 =
          fold_bytes byte p chunks.flatten ∧
        (on_read_loop (parser_as_fold init byte complete resp fg fp) p b chunks).2.2.1 =
          if chunks.flatten = [] then b else 1) := by
  induction chunks with
  | nil =>
    intro p b
    refine ⟨fun h => by simp [on_read_loop] at h, fun _ => ?_⟩
    simp [on_read_loop, fold_bytes_nil]
  | cons s rest ih =>
    intro p b
    by_cases h1 : GPR_SLICE_LENGTH s = 0
    · have hs : s = [] := List.length_eq_zero.mp h1
      rw [on_read_loop_skip _ p b s rest h1]
      subst hs
      simpa using ih p b
    · have hs : s ≠ [] := fun h => h1 (by rw [h]; rfl)
      have hj : (s :: rest).flatten ≠ [] := by simp [hs]
      cases hf : fold_bytes byte p s with
      | none =>
        have h2 : ((parser_as_fold init byte complete resp fg fp).grpc_httpcli_parser_parse p s).1
            = 0 := by
          simp [parser_as_fold, hf]
        rw [on_read_loop_reject _ p b s rest h1 h2]
        refine ⟨fun _ => ⟨?_, hj⟩, fun h => by cases h⟩
        rw [List.flatten_cons, fold_bytes_append, hf]
        rfl
      | some st =>
        have h2 : ((parser_as_fold init byte complete resp fg fp).grpc_httpcli_parser_parse p s).1
            ≠ 0 := by
          simp [parser_as_fold, hf]
        have h3 : ((parser_as_fold init byte complete resp fg fp).grpc_httpcli_parser_parse p s).2
            = some st := by
          simp [parser_as_fold, hf]
        rw [on_read_loop_accept _ p b s rest h1 h2, h3]
        obtain ⟨i1, i2⟩ := ih (some st) 1
        refine ⟨fun h => ⟨?_, hj⟩, fun h => ⟨?_, ?_⟩⟩
        · rw [List.flatten_cons, fold_bytes_append, hf]
          exact (i1 h).1
        · rw [List.flatten_cons, fold_bytes_append, hf]
          exact (i2 h).1
        · rw [if_neg hj]
          have := (i2 h).2
          simp only at this ⊢
          rw [this]
          split <;> rfl

theorem connects_quiet (acts : List Action) (h : Quiet acts) : connects acts = [] := by
  unfold Quiet at h
  induction acts with
  | nil => rfl
  | cons x xs ih =>
    rw [List.all_cons, Bool.and_eq_true] at h
    cases x <;> first | exact ih h.2 | cases h.1

theorem responses_quiet (acts : List Action) (h : Quiet acts) : responses acts = [] := by
  unfold Quiet at h
  induction acts with
  | nil => rfl
  | cons x xs ih =>
    rw [List.all_cons, Bool.and_eq_true] at h
    cases x <;> first | exact ih h.2 | cases h.1

theorem observed_quiet (w w1 : World σ) (q : List Action) (hq : Quiet q)
    (hreq : w1.req = w.req) (harm : w1.armed = w.armed)
    (hps : w1.pollset_set = w.pollset_set) (ht : w1.trace = w.trace ++ q) :
    observed w1 = observed w := by
  simp [observed, hreq, harm, hps, ht, responses_append, connects_append,
    connects_quiet q hq, responses_quiet q hq]

theorem next_address_observed (P : Externals σ) (r : internal_request σ) (ps : List Nat)
    (t : List Action) (q : List Action) (hq : Quiet q) (hc : CursorOk r) :
    ∃ w2 w3, next_address P { req := some r, pollset_set := ps, armed := [], trace := t }
        = .ok w2 ∧
      next_address P { req := some r, pollset_set := ps, armed := [], trace := t ++ q }
        = .ok w3 ∧
      observed w3 = observed w2 := by
  obtain ⟨a, ha, hle⟩ := hc
  rcases Nat.eq_or_lt_of_le hle with hk | hk
  · refine ⟨_, _, next_address_exhausted P _ r a rfl ha hk,
      next_address_exhausted P _ r a rfl ha hk, ?_⟩
    simp [observed, responses_append, connects_append, connects_quiet q hq,
      responses_quiet q hq]
  · have hg : a.addrs.get? r.next_address = some (a.addrs.get ⟨r.next_address, hk⟩) :=
      List.get?_eq_get hk
    refine ⟨_, _, next_address_connect P _ r a _ rfl ha hg,
      next_address_connect P _ r a _ rfl ha hg, ?_⟩
    simp [observed, responses_append, connects_append, connects_quiet q hq,
      responses_quiet q hq]

theorem drive_done (P : Externals σ) (w : World σ) (evs : List Event) (h : w.req = none) :
    drive P w evs = .ok w := by
  cases evs with
  | nil => rfl
  | cons e es => simp [drive, h]

theorem drive_cons (P : Externals σ) (w w1 : World σ) (e : Event) (es : List Event)
    (h : w.req ≠ none) (hs : step P w e = .ok w1) :
    drive P w (e :: es) = drive P w1 es := by
  cases hr : w.req with
  | none => exact absurd hr h
  | some r => simp [drive, hr, hs]

theorem drive_single (P : Externals σ) (w : World σ) (e : Event) (h : w.req ≠ none) :
    drive P w [e] = step P w e := by
  cases hr : w.req with
  | none => exact absurd hr h
  | some r =>
    simp only [drive, hr, Option.isNone_some, Bool.false_eq_true, if_false]
    cases step P w e <;> rfl

theorem verdict_fold {S : Type} (byte : S → Nat → Option S) (complete : S → Int)
    (resp : S → grpc_httpcli_response) (p : Option S) (a b : List Nat) :
    verdict byte complete resp (fold_bytes byte p a) b = verdict byte complete resp p (a ++ b) := by
  unfold verdict
  rw [fold_bytes_append]

theorem parser_as_fold_eof {S : Type} (init : S) (byte : S → Nat → Option S) (complete : S → Int)
    (resp : S → grpc_httpcli_response) (fg : grpc_httpcli_request → gpr_slice)
    (fp : grpc_httpcli_request → List Nat → gpr_slice) (p : Option S) :
    (if (parser_as_fold init byte complete resp fg fp).grpc_httpcli_parser_eof p ≠ 0 then
        some ((parser_as_fold init byte complete resp fg fp).parser_r p)
      else none) = verdict byte complete resp p [] := by
  cases p with
  | none => simp [parser_as_fold, verdict, fold_bytes]
  | some st => simp [parser_as_fold, verdict, fold_bytes]

theorem Ends.shift {S : Type} (P : Externals (Option S)) (byte : S → Nat → Option S)
    (complete : S → Int) (resp : S → grpc_httpcli_response) (w w1 w2 : World (Option S))
    (r : internal_request (Option S)) (a b : List Nat) (q : List Action) (hq : Quiet q)
    (hc : CursorOk r) (hps : w1.pollset_set = w.pollset_set) (ht : w1.trace = w.trace ++ q)
    (h : Ends P byte complete resp w1
      { r with parser := fold_bytes byte r.parser a
               have_read_byte := if a = [] then r.have_read_byte else 1 } b w2) :
    Ends P byte complete resp w r (a ++ b) w2 := by
  unfold Ends at h ⊢
  by_cases hb : b = [] ∧ (if a = [] then r.have_read_byte else 1) = 0
  · rw [if_pos hb] at h
    obtain ⟨hb1, hb2⟩ := hb
    have ha : a = [] := by
      by_contra hne
      rw [if_neg hne] at hb2
      exact absurd hb2 (by decide)
    subst ha
    subst hb1
    rw [if_pos rfl] at hb2
    rw [if_pos ⟨rfl, hb2⟩]
    obtain ⟨w3, h3, ho⟩ := h
    simp only [fold_bytes_nil, if_true] at h3
    rw [hps, ht] at h3
    obtain ⟨v2, v3, e2, e3, eo⟩ := next_address_observed P r w.pollset_set w.trace q hq hc
    have e3b : next_address P { req := some r, pollset_set := w.pollset_set, armed := []
                                trace := w.trace ++ q } = .ok v3 := e3
    rw [h3] at e3b
    cases e3b
    exact ⟨v2, e2, ho.trans eo⟩
  · rw [if_neg hb] at h
    have hab : ¬ (a ++ b = [] ∧ r.have_read_byte = 0) := by
      rintro ⟨h1, h2⟩
      obtain ⟨h3, h4⟩ := List.append_eq_nil.mp h1
      exact hb ⟨h4, by rw [if_pos h3]; exact h2⟩
    rw [if_neg hab, h, hps, ht, responses_append, connects_append, connects_quiet q hq,
      responses_quiet q hq, verdict_fold]
    simp

theorem read_ok_step {S : Type} (init : S) (byte : S → Nat → Option S) (complete : S → Int)
    (resp : S → grpc_httpcli_response) (fg : grpc_httpcli_request → gpr_slice)
    (fp : grpc_httpcli_request → List Nat → gpr_slice) (w : World (Option S))
    (r : internal_request (Option S)) (rd : List gpr_slice)
    (hreq : w.req = some r) (harm : w.armed = [Op.read]) (hep : r.ep ≠ none) :
    (∃ w1, step (parser_as_fold init byte complete resp fg fp) w
          (Event.on_read rd GRPC_ENDPOINT_CB_OK) = .ok w1 ∧
        w1.req = none ∧ rd.flatten ≠ [] ∧ fold_bytes byte r.parser rd.flatten = none ∧
        observed w1 = (responses w.trace ++ [none], connects w.trace, [],
          w.pollset_set.erase r.pollset, none)) ∨
    (∃ w1 q, step (parser_as_fold init byte complete resp fg fp) w
          (Event.on_read rd GRPC_ENDPOINT_CB_OK) = .ok w1 ∧
        w1.req = some { r with parser := fold_bytes byte r.parser rd.flatten
                               have_read_byte := if rd.flatten = [] then r.have_read_byte
                                                 else 1 } ∧
        w1.armed = [Op.read] ∧ w1.pollset_set = w.pollset_set ∧ Quiet q ∧
        w1.trace = w.trace ++ q) := by
  obtain ⟨ep, hep1⟩ := Option.ne_none_iff_exists'.mp hep
  have hq := Quiet.on_read_loop (parser_as_fold init byte complete resp fg fp) rd r.parser
    r.have_read_byte
  have hL := fold_loop init byte complete resp fg fp rd r.parser r.have_read_byte
  rcases hl : on_read_loop (parser_as_fold init byte complete resp fg fp) r.parser
    r.have_read_byte rd with ⟨failed, p1, b1, acts⟩
  rw [hl] at hq hL
  simp only at hq hL
  rw [step_on_read _ w rd _ harm,
    on_read_of_loop _ { w with armed := [] } r rd _ failed p1 b1 acts hreq hl]
  cases failed with
  | true =>
    left
    obtain ⟨hf, hne⟩ := hL.1 rfl
    rw [if_pos rfl, finish_ok _ _ _ 0 rfl]
    refine ⟨_, rfl, rfl, hne, hf, ?_⟩
    simp [observed, unref_slices, responses_append, connects_append, connects_quiet _ hq,
      responses_quiet _ hq, connects_quiet _ (Quiet.unref rd), responses_quiet _ (Quiet.unref rd),
      connects_finish_actions, responses_finish_actions]
  | false =>
    right
    obtain ⟨hp, hb⟩ := hL.2 rfl
    subst hp
    subst hb
    simp only [Bool.false_eq_true, if_false, on_written, hep1]
    refine ⟨_, acts ++ [Action.grpc_endpoint_notify_on_read ep] ++
      rd.map Action.gpr_slice_unref, rfl, rfl, rfl, rfl,
      (hq.append (by rfl)).append (Quiet.unref rd), ?_⟩
    simp [unref_slices, Except.map]

theorem read_eof_step {S : Type} (init : S) (byte : S → Nat → Option S) (complete : S → Int)
    (resp : S → grpc_httpcli_response) (fg : grpc_httpcli_request → gpr_slice)
    (fp : grpc_httpcli_request → List Nat → gpr_slice) (w : World (Option S))
    (r : internal_request (Option S)) (rd : List gpr_slice)
    (hreq : w.req = some r) (harm : w.armed = [Op.read]) (hc : CursorOk r) :
    ∃ w1, step (parser_as_fold init byte complete resp fg fp) w
        (Event.on_read rd GRPC_ENDPOINT_CB_EOF) = .ok w1 ∧
      Ends (parser_as_fold init byte complete resp fg fp) byte complete resp w r rd.flatten w1 := by
  have hq := Quiet.on_read_loop (parser_as_fold init byte complete resp fg fp) rd r.parser
    r.have_read_byte
  have hL := fold_loop init byte complete resp fg fp rd r.parser r.have_read_byte
  rcases hl : on_read_loop (parser_as_fold init byte complete resp fg fp) r.parser
    r.have_read_byte rd with ⟨failed, p1, b1, acts⟩
  rw [hl] at hq hL
  simp only at hq hL
  rw [step_on_read _ w rd _ harm,
    on_read_of_loop _ { w with armed := [] } r rd _ failed p1 b1 acts hreq hl]
  cases failed with
  | true =>
    obtain ⟨hf, hne⟩ := hL.1 rfl
    rw [if_pos rfl, finish_ok _ _ _ 0 rfl]
    refine ⟨_, rfl, ?_⟩
    unfold Ends
    rw [if_neg (fun h => hne h.1)]
    simp [observed, unref_slices, responses_append, connects_append, connects_quiet _ hq,
      responses_quiet _ hq, connects_quiet _ (Quiet.unref rd), responses_quiet _ (Quiet.unref rd),
      connects_finish_actions, responses_finish_actions, verdict, hf]
  | false =>
    obtain ⟨hp, hb⟩ := hL.2 rfl
    subst hp
    subst hb
    simp only [Bool.false_eq_true, if_false]
    by_cases h0 : (if rd.flatten = [] then r.have_read_byte else 1) = 0
    · have hnil : rd.flatten = [] := by
        by_contra hne
        rw [if_neg hne] at h0
        exact absurd h0 (by decide)
      have hb0 : r.have_read_byte = 0 := by rw [if_pos hnil] at h0; exact h0
      rw [if_pos h0]
      simp only [hnil, fold_bytes_nil, if_true]
      obtain ⟨v2, v3, e2, e3, eo⟩ := next_address_observed
        (parser_as_fold init byte complete resp fg fp) r w.pollset_set w.trace acts hq hc
      have e3b : next_address (parser_as_fold init byte complete resp fg fp)
          { req := some r, pollset_set := w.pollset_set, armed := []
            trace := w.trace ++ acts } = .ok v3 := e3
      refine ⟨unref_slices rd v3, ?_, ?_⟩
      · exact congrArg (Except.map (unref_slices rd)) e3b
      · unfold Ends
        rw [if_pos ⟨rfl, hb0⟩]
        refine ⟨v2, e2, Eq.trans ?_ eo⟩
        exact observed_quiet v3 (unref_slices rd v3) _ (Quiet.unref rd) rfl rfl rfl rfl
    · rw [if_neg h0, finish_ok _ _ _ _ rfl]
      refine ⟨_, rfl, ?_⟩
      unfold Ends
      have hab : ¬ (rd.flatten = [] ∧ r.have_read_byte = 0) := by
        rintro ⟨h1, h2⟩
        exact h0 (by rw [if_pos h1]; exact h2)
      rw [if_neg hab]
      have hv := parser_as_fold_eof init byte complete resp fg fp
        (fold_bytes byte r.parser rd.flatten)
      rw [verdict_fold, List.append_nil] at hv
      have e1 : ∀ t, responses (Action.grpc_httpcli_parser_eof :: t) = responses t :=
        fun _ => rfl
      have e2 : ∀ t, connects (Action.grpc_httpcli_parser_eof :: t) = connects t :=
        fun _ => rfl
      rw [← hv]
      simp [observed, unref_slices, responses_append, connects_append, connects_quiet _ hq,
        responses_quiet _ hq, connects_quiet _ (Quiet.unref rd),
        responses_quiet _ (Quiet.unref rd), connects_finish_actions, responses_finish_actions,
        e1, e2]

theorem bytes_of_cons (rd : List gpr_slice) (rest : List (List gpr_slice)) :
    bytes_of (rd :: rest) = rd.flatten ++ bytes_of rest := by
  simp [bytes_of]

theorem drive_deliver {S : Type} (init : S) (byte : S → Nat → Option S) (complete : S → Int)
    (resp : S → grpc_httpcli_response) (fg : grpc_httpcli_request → gpr_slice)
    (fp : grpc_httpcli_request → List Nat → gpr_slice) (reads : List (List gpr_slice)) :
    reads ≠ [] → ∀ (w : World (Option S)) (r : internal_request (Option S)),
      w.req = some r → w.armed = [Op.read] → CursorOk r → r.ep ≠ none →
      ∃ w1, drive (parser_as_fold init byte complete resp fg fp) w (deliver reads) = .ok w1 ∧
        Ends (parser_as_fold init byte complete resp fg fp) byte complete resp w r
          (bytes_of reads) w1 := by
  induction reads with
  | nil => exact fun h => absurd rfl h
  | cons rd rest ih =>
    intro _ w r hreq harm hc hep
    have hlive : w.req ≠ none := by rw [hreq]; exact Option.some_ne_none r
    cases rest with
    | nil =>
      obtain ⟨w1, hs, he⟩ := read_eof_step init byte complete resp fg fp w r rd hreq harm hc
      refine ⟨w1, ?_, ?_⟩
      · show drive _ w [Event.on_read rd GRPC_ENDPOINT_CB_EOF] = _
        rw [drive_single _ w _ hlive, hs]
      · rw [bytes_of_cons]
        have : bytes_of ([] : List (List gpr_slice)) = [] := rfl
        rw [this, List.append_nil]
        exact he
    | cons rd2 rest2 =>
      have hd : deliver (rd :: rd2 :: rest2) =
          Event.on_read rd GRPC_ENDPOINT_CB_OK :: deliver (rd2 :: rest2) := rfl
      rw [hd, bytes_of_cons]
      rcases read_ok_step init byte complete resp fg fp w r rd hreq harm hep with
        ⟨w1, hs, hnone, hne, hf, hobs⟩ | ⟨w1, q, hs, hreq1, harm1, hps, hq, ht⟩
      · refine ⟨w1, ?_, ?_⟩
        · rw [drive_cons _ w w1 _ _ hlive hs, drive_done _ w1 _ hnone]
        · unfold Ends
          have hne2 : ¬ (rd.flatten ++ bytes_of (rd2 :: rest2) = [] ∧ r.have_read_byte = 0) :=
            fun h => hne (List.append_eq_nil.mp h.1).1
          rw [if_neg hne2, hobs]
          unfold verdict
          rw [fold_bytes_append, hf, fold_bytes_none]
      · obtain ⟨w2, hdr, he⟩ := ih (List.cons_ne_nil rd2 rest2) w1 _ hreq1 harm1 hc hep
        refine ⟨w2, ?_, ?_⟩
        · rw [drive_cons _ w w1 _ _ hlive hs]
          exact hdr
        · exact Ends.shift _ byte complete resp w w1 w2 r _ _ q hq hc hps ht he

theorem Ends.unique {S : Type} (P : Externals (Option S)) (byte : S → Nat → Option S)
    (complete : S → Int) (resp : S → grpc_httpcli_response) (w w1 w2 : World (Option S))
    (r : internal_request (Option S)) (b : List Nat)
    (h1 : Ends P byte complete resp w r b w1) (h2 : Ends P byte complete resp w r b w2) :
    observed w1 = observed w2 := by
  unfold Ends at h1 h2
  by_cases hb : b = [] ∧ r.have_read_byte = 0
  · rw [if_pos hb] at h1 h2
    obtain ⟨v1, e1, o1⟩ := h1
    obtain ⟨v2, e2, o2⟩ := h2
    rw [e1] at e2
    cases e2
    exact o1.trans o2.symm
  · rw [if_neg hb] at h1 h2
    exact h1.trans h2.symm

theorem Ex.fold_started : Started Ex.fold_P Ex.fold_w0 :=
  ⟨Ex.g, [7], 1, 9, Ex.request, Ex.deadline, 11, 12, Or.inl ⟨rfl, rfl⟩⟩

/-- C16. With the parser a left fold over the bytes received with a sticky
failure state, and a read armed on the request (in a world reached from a
start of the engine), delivering non-empty `reads` as read completions, all
with status OK but the last, which carries EOF, leaves what a single read
completion with status EOF carrying all their bytes in one chunk leaves: the
same responses handed to the callback (the same success or failure, the
same contents), the same addresses connected to (the same failover
decision), the same armed operations, the same pollset set and the same
cursor. How the bytes were cut into chunks and reads, and where empty
chunks stood, shows only in the calls that handle slices. The completions
that would come after the request has been finished are not delivered. -/
theorem C16_chunk_boundaries {S : Type} (init : S) (byte : S → Nat → Option S)
    (complete : S → Int) (resp : S → grpc_httpcli_response)
    (fg : grpc_httpcli_request → gpr_slice) (fp : grpc_httpcli_request → List Nat → gpr_slice)
    (w0 w : World (Option S)) (evs : List Event) (reads : List (List gpr_slice))
    (h0 : Started (parser_as_fold init byte complete resp fg fp) w0)
    (hrun : run (parser_as_fold init byte complete resp fg fp) w0 evs = .ok w)
    (harm : w.armed = [Op.read]) (hne : reads ≠ []) :
    ∃ w1 w2,
      drive (parser_as_fold init byte complete resp fg fp) w (deliver reads) = .ok w1 ∧
      step (parser_as_fold init byte complete resp fg fp) w
        (Event.on_read [bytes_of reads] GRPC_ENDPOINT_CB_EOF) = .ok w2 ∧
      observed w1 = observed w2 ∧
      ((bytes_of reads ≠ [] ∨ ∃ r, w.req = some r ∧ r.have_read_byte ≠ 0) →
        w1.req = none ∧ ∃ r, w.req = some r ∧
          responses w1.trace =
            responses w.trace ++ [verdict byte complete resp r.parser (bytes_of reads)]) := by
  have hG := (run_good _ evs w0 h0.good).2 w hrun
  have hI : Inv w := hG.1
  have hlive : w.req ≠ none := hI.live_of_armed (by rw [harm]; exact List.cons_ne_nil _ _)
  obtain ⟨r, hreq⟩ := Option.ne_none_iff_exists'.mp hlive
  have hO : OpInv r Op.read := by
    unfold Inv at hI
    simp only [hreq] at hI
    obtain ⟨op, hop, hinv⟩ := hI
    rw [harm] at hop
    cases hop
    exact hinv
  obtain ⟨w1, hd, he1⟩ :=
    drive_deliver init byte complete resp fg fp reads hne w r hreq harm hO.1 hO.2
  obtain ⟨w2, hs, he2⟩ := read_eof_step init byte complete resp fg fp w r [bytes_of reads]
    hreq harm hO.1
  have hb : [bytes_of reads].flatten = bytes_of reads := by simp
  rw [hb] at he2
  refine ⟨w1, w2, hd, hs, Ends.unique _ byte complete resp w w1 w2 r _ he1 he2, ?_⟩
  intro hcase
  have hn : ¬ (bytes_of reads = [] ∧ r.have_read_byte = 0) := by
    rintro ⟨h1, h2⟩
    rcases hcase with h | ⟨r1, hr1, hb1⟩
    · exact h h1
    · rw [hreq] at hr1
      cases hr1
      exact hb1 h2
  unfold Ends at he1
  rw [if_neg hn] at he1
  unfold observed at he1
  simp only [Prod.mk.injEq] at he1
  refine ⟨?_, r, hreq, he1.1⟩
  have := he1.2.2.2.2
  cases hq : w1.req with
  | none => rfl
  | some x => rw [hq] at this; cases this

theorem C16_chunk_boundaries_witness :
    Started Ex.fold_P Ex.fold_w0 ∧
    run Ex.fold_P Ex.fold_w0
        [Event.on_resolved (some ⟨[Ex.a1, Ex.a2]⟩), Event.on_connected (some Ex.ep_done)] =
      .ok Ex.fold_w_reading ∧
    Ex.fold_w_reading.armed = [Op.read] ∧
    ∃ w1 w2,
      drive Ex.fold_P Ex.fold_w_reading (deliver [[[1], []], [[2, 3]], [[], [4]]]) = .ok w1 ∧
      step Ex.fold_P Ex.fold_w_reading
        (Event.on_read [bytes_of [[[1], []], [[2, 3]], [[], [4]]]] GRPC_ENDPOINT_CB_EOF) =
          .ok w2 ∧
      observed w1 = observed w2 ∧
      ((bytes_of [[[1], []], [[2, 3]], [[], [4]]] ≠ [] ∨
          ∃ r, Ex.fold_w_reading.req = some r ∧ r.have_read_byte ≠ 0) →
        w1.req = none ∧ ∃ r, Ex.fold_w_reading.req = some r ∧
          responses w1.trace =
            responses Ex.fold_w_reading.trace ++
              [verdict (fun n b => if b = 255 then none else some (n + 1))
                (fun n => if 3 ≤ n then 1 else 0)
                (fun n => { status := 200, hdrs := [], body := [n] }) r.parser
                (bytes_of [[[1], []], [[2, 3]], [[], [4]]])]) :=
  ⟨Ex.fold_started, rfl, rfl,
    C16_chunk_boundaries 0 (fun n b => if b = 255 then none else some (n + 1))
      (fun n => if 3 ≤ n then 1 else 0) (fun n => { status := 200, hdrs := [], body := [n] })
      (fun _ => [71]) (fun _ b => 80 :: b) Ex.fold_w0 Ex.fold_w_reading
      [Event.on_resolved (some ⟨[Ex.a1, Ex.a2]⟩), Event.on_connected (some Ex.ep_done)]
      [[[1], []], [[2, 3]], [[], [4]]] Ex.fold_started rfl rfl (by decide)⟩

theorem added_ports_cons {τ : Type} (E : ServerExternals τ) (tcp : τ)
    (a : grpc_resolved_address) (rest : List grpc_resolved_address) :
    added_ports E tcp (a :: rest) =
      if 0 ≤ (E.grpc_tcp_server_add_port tcp a).1 then
        (E.grpc_tcp_server_add_port tcp a).1 ::
          added_ports E (E.grpc_tcp_server_add_port tcp a).2 rest
      else added_ports E (E.grpc_tcp_server_add_port tcp a).2 rest := by
  unfold added_ports
  rw [add_results, List.filter_cons]
  simp only [decide_eq_true_eq]

theorem added_ports_length {τ : Type} (E : ServerExternals τ)
    (addrs : List grpc_resolved_address) :
    ∀ tcp, (added_ports E tcp addrs).length ≤ addrs.length := by
  induction addrs with
  | nil => intro tcp; exact Nat.le_refl 0
  | cons a rest ih =>
    intro tcp
    rw [added_ports_cons]
    have := ih (E.grpc_tcp_server_add_port tcp a).2
    split
    · simp only [List.length_cons]; omega
    · simp only [List.length_cons]; omega

theorem added_ports_nonneg {τ : Type} (E : ServerExternals τ) (tcp : τ)
    (addrs : List grpc_resolved_address) : ∀ p ∈ added_ports E tcp addrs, 0 ≤ p := by
  intro p hp
  unfold added_ports at hp
  simpa using (List.mem_filter.mp hp).2

theorem tcp_after_cons {τ : Type} (E : ServerExternals τ) (tcp : τ)
    (a : grpc_resolved_address) (rest : List grpc_resolved_address) :
    tcp_after E tcp (a :: rest) = tcp_after E (E.grpc_tcp_server_add_port tcp a).2 rest := rfl

theorem add_ports_loop_recorded {τ : Type} (E : ServerExternals τ)
    (addrs : List grpc_resolved_address) :
    ∀ (tcp : τ) (count : Nat) (port_num : Int), port_num ≠ -1 → count < 2 ^ 32 →
      ((∀ q ∈ added_ports E tcp addrs, q = port_num) →
        add_ports_loop E addrs tcp count port_num =
          some (tcp_after E tcp addrs, (count + (added_ports E tcp addrs).length) % 2 ^ 32,
            port_num)) ∧
      (¬ (∀ q ∈ added_ports E tcp addrs, q = port_num) →
        add_ports_loop E addrs tcp count port_num = none) := by
  induction addrs with
  | nil =>
    intro tcp count port_num _ hc
    refine ⟨fun _ => ?_, fun h => absurd (fun q hq => by cases hq) h⟩
    simp only [add_ports_loop, added_ports, add_results, List.filter_nil, List.length_nil,
      Nat.add_zero, tcp_after, List.foldl_nil]
    rw [Nat.mod_eq_of_lt hc]
  | cons a rest ih =>
    intro tcp count port_num hp hc
    rw [added_ports_cons, tcp_after_cons]
    unfold add_ports_loop
    simp only [ge_iff_le, if_neg hp]
    by_cases h0 : 0 ≤ (E.grpc_tcp_server_add_port tcp a).1
    · simp only [if_pos h0]
      have hc1 : (count + 1) % 2 ^ 32 < 2 ^ 32 := Nat.mod_lt _ (by decide)
      obtain ⟨i1, i2⟩ := ih (E.grpc_tcp_server_add_port tcp a).2 ((count + 1) % 2 ^ 32)
        port_num hp hc1
      by_cases he : port_num = (E.grpc_tcp_server_add_port tcp a).1
      · simp only [if_pos he]
        refine ⟨fun h => ?_, fun h => ?_⟩
        · rw [i1 (fun q hq => h q (List.mem_cons_of_mem _ hq))]
          simp only [List.length_cons]
          have e : ((count + 1) % 2 ^ 32 +
                (added_ports E (E.grpc_tcp_server_add_port tcp a).2 rest).length) % 2 ^ 32 =
              (count + ((added_ports E (E.grpc_tcp_server_add_port tcp a).2 rest).length + 1))
                % 2 ^ 32 := by
            omega
          rw [e]
        · apply i2
          intro hall
          apply h
          intro q hq
          rcases List.mem_cons.mp hq with h1 | h1
          · rw [h1]; exact he.symm
          · exact hall q h1
      · simp only [if_neg he]
        refine ⟨fun h => ?_, fun _ => trivial⟩
        exact absurd (h _ (List.mem_cons_self _ _)).symm he
    · simp only [if_neg h0]
      exact ih (E.grpc_tcp_server_add_port tcp a).2 count port_num hp hc

theorem add_ports_loop_fresh {τ : Type} (E : ServerExternals τ)
    (addrs : List grpc_resolved_address) :
    ∀ (tcp : τ) (count : Nat), count < 2 ^ 32 →
      (added_ports E tcp addrs = [] →
        add_ports_loop E addrs tcp count (-1) = some (tcp_after E tcp addrs, count, -1)) ∧
      (∀ p rest, added_ports E tcp addrs = p :: rest →
        ((∀ q ∈ rest, q = p) →
          add_ports_loop E addrs tcp count (-1) =
            some (tcp_after E tcp addrs, (count + (rest.length + 1)) % 2 ^ 32, p)) ∧
        (¬ (∀ q ∈ rest, q = p) → add_ports_loop E addrs tcp count (-1) = none)) := by
  induction addrs with
  | nil =>
    intro tcp count _
    refine ⟨fun _ => rfl, fun p rest h => ?_⟩
    cases h
  | cons a rest ih =>
    intro tcp count hc
    rw [added_ports_cons, tcp_after_cons]
    unfold add_ports_loop
    simp only [ge_iff_le, if_true]
    by_cases h0 : 0 ≤ (E.grpc_tcp_server_add_port tcp a).1
    · simp only [if_pos h0]
      have hc1 : (count + 1) % 2 ^ 32 < 2 ^ 32 := Nat.mod_lt _ (by decide)
      have hp : (E.grpc_tcp_server_add_port tcp a).1 ≠ -1 := by omega
      obtain ⟨i1, i2⟩ := add_ports_loop_recorded E rest (E.grpc_tcp_server_add_port tcp a).2
        ((count + 1) % 2 ^ 32) _ hp hc1
      refine ⟨(fun h => by cases h), fun p rest1 h => ?_⟩
      simp only [List.cons.injEq] at h
      obtain ⟨h1, h2⟩ := h
      rw [← h1, ← h2]
      refine ⟨fun hall => ?_, i2⟩
      rw [i1 hall]
      have e : ((count + 1) % 2 ^ 32 +
            (added_ports E (E.grpc_tcp_server_add_port tcp a).2 rest).length) % 2 ^ 32 =
          (count + ((added_ports E (E.grpc_tcp_server_add_port tcp a).2 rest).length + 1))
            % 2 ^ 32 := by
        omega
      rw [e]
    · simp only [if_neg h0]
      exact ih (E.grpc_tcp_server_add_port tcp a).2 count hc

theorem registered_append {τ : Type} (a b : List (ServerCall τ)) :
    registered (a ++ b) = registered a ++ registered b := by
  induction a with
  | nil => rfl
  | cons x xs ih => cases x <;> simp [registered, ih]

theorem registered_add_port {τ : Type} (l : List grpc_resolved_address) :
    registered (l.map (ServerCall.grpc_tcp_server_add_port : _ → ServerCall τ)) = [] := by
  induction l with
  | nil => rfl
  | cons x xs ih => simp [registered, ih]

/-- C14. `grpc_server_add_insecure_http2_port`, when fewer than `2 ^ 32`
addresses are resolved (`count` is an `unsigned`): it returns 0 and
registers no listener when the resolution fails, when the TCP server cannot
be created, and when no resolved address could be added. Otherwise, when
every later address that is added reports the port of the first one added,
`GPR_ASSERT` does not fail: the function returns that port and registers
exactly one listener, the TCP server with all the addresses added, however
many of the others failed. When a later address that is added reports
another port, `GPR_ASSERT` fails. -/
theorem C14_add_insecure_http2_port {τ : Type} (E : ServerExternals τ) (addr : String)
    (hsize : ∀ resolved ∈ E.grpc_blocking_resolve_address addr "http",
      resolved.naddrs < 2 ^ 32) :
    (E.grpc_blocking_resolve_address addr "http" = none →
      ∃ calls, grpc_server_add_insecure_http2_port E addr = some (0, calls) ∧
        registered calls = []) ∧
    (∀ resolved, E.grpc_blocking_resolve_address addr "http" = some resolved →
      E.grpc_tcp_server_create = none →
      ∃ calls, grpc_server_add_insecure_http2_port E addr = some (0, calls) ∧
        registered calls = []) ∧
    (∀ resolved tcp, E.grpc_blocking_resolve_address addr "http" = some resolved →
      E.grpc_tcp_server_create = some tcp →
      (added_ports E tcp resolved.addrs = [] →
        ∃ calls, grpc_server_add_insecure_http2_port E addr = some (0, calls) ∧
          registered calls = []) ∧
      (∀ p rest, added_ports E tcp resolved.addrs = p :: rest →
        ((∀ q ∈ rest, q = p) →
          ∃ calls, grpc_server_add_insecure_http2_port E addr = some (p, calls) ∧
            registered calls = [tcp_after E tcp resolved.addrs]) ∧
        (¬ (∀ q ∈ rest, q = p) → grpc_server_add_insecure_http2_port E addr = none))) := by
  refine ⟨fun h => ?_, fun resolved h hc => ?_, fun resolved tcp h hc => ?_⟩
  · have e : grpc_server_add_insecure_http2_port E addr =
        some (0, [ServerCall.grpc_blocking_resolve_address addr "http"]) := by
      simp only [grpc_server_add_insecure_http2_port, h]
    exact ⟨_, e, rfl⟩
  · have e : grpc_server_add_insecure_http2_port E addr =
        some (0, [ ServerCall.grpc_blocking_resolve_address addr "http",
                   ServerCall.grpc_tcp_server_create,
                   ServerCall.grpc_resolved_addresses_destroy ]) := by
      simp only [grpc_server_add_insecure_http2_port, h, hc]
    exact ⟨_, e, rfl⟩
  · have hlen : resolved.addrs.length < 2 ^ 32 := hsize resolved h
    obtain ⟨f1, f2⟩ := add_ports_loop_fresh E resolved.addrs tcp 0 (by decide)
    refine ⟨fun hnone => ?_, fun p rest hp => ⟨fun hall => ?_, fun hall => ?_⟩⟩
    · have e : grpc_server_add_insecure_http2_port E addr =
          some (0, [ ServerCall.grpc_blocking_resolve_address addr "http",
                     ServerCall.grpc_tcp_server_create ] ++
            resolved.addrs.map ServerCall.grpc_tcp_server_add_port ++
            [ ServerCall.gpr_log, ServerCall.grpc_resolved_addresses_destroy,
              ServerCall.grpc_tcp_server_destroy (tcp_after E tcp resolved.addrs) ]) := by
        simp only [grpc_server_add_insecure_http2_port, h, hc, f1 hnone, if_true]
      refine ⟨_, e, ?_⟩
      rw [registered_append, registered_append, registered_add_port]
      rfl
    · have hle := added_ports_length E resolved.addrs tcp
      rw [hp, List.length_cons] at hle
      have hmod : (0 + (rest.length + 1)) % 2 ^ 32 = rest.length + 1 := by omega
      have hloop := (f2 p rest hp).1 hall
      rw [hmod] at hloop
      have e : grpc_server_add_insecure_http2_port E addr =
          some (p, [ ServerCall.grpc_blocking_resolve_address addr "http",
                     ServerCall.grpc_tcp_server_create ] ++
            resolved.addrs.map ServerCall.grpc_tcp_server_add_port ++
            (if rest.length + 1 ≠ resolved.naddrs then [ServerCall.gpr_log] else []) ++
            [ ServerCall.grpc_resolved_addresses_destroy,
              ServerCall.grpc_server_add_listener (tcp_after E tcp resolved.addrs) ]) := by
        simp only [grpc_server_add_insecure_http2_port, h, hc, hloop, Nat.succ_ne_zero,
          if_false]
      refine ⟨_, e, ?_⟩
      rw [registered_append, registered_append, registered_append, registered_add_port]
      have : registered (if rest.length + 1 ≠ resolved.naddrs then [ServerCall.gpr_log]
          else ([] : List (ServerCall τ))) = [] := by
        split <;> rfl
      rw [this]
      rfl
    · simp only [grpc_server_add_insecure_http2_port, h, hc, (f2 p rest hp).2 hall]

theorem C14_add_insecure_http2_port_witness :
    (∀ resolved ∈ Ex.server_E.grpc_blocking_resolve_address "x" "http",
      resolved.naddrs < 2 ^ 32) ∧
    grpc_server_add_insecure_http2_port Ex.server_E "x" =
      some (8080,
        [ ServerCall.grpc_blocking_resolve_address "x" "http",
          ServerCall.grpc_tcp_server_create,
          ServerCall.grpc_tcp_server_add_port ⟨2, 4⟩,
          ServerCall.grpc_tcp_server_add_port Ex.a1,
          ServerCall.grpc_tcp_server_add_port ⟨3, 4⟩,
          ServerCall.gpr_log,
          ServerCall.grpc_resolved_addresses_destroy,
          ServerCall.grpc_server_add_listener 3 ]) ∧
    ∃ calls, grpc_server_add_insecure_http2_port Ex.server_E "x" = some (8080, calls) ∧
      registered calls = [tcp_after Ex.server_E 0 [⟨2, 4⟩, Ex.a1, ⟨3, 4⟩]] :=
  ⟨by decide, by decide,
    (((C14_add_insecure_http2_port Ex.server_E "x" (by decide)).2.2 ⟨[⟨2, 4⟩, Ex.a1, ⟨3, 4⟩]⟩ 0
      rfl rfl).2 8080 [8080] rfl).1 (by decide)⟩

end Httpcli
